import Mathlib

/-!
# Authentication and session-token subsystem of the fitness-tracking backend

A shallow embedding of `internal/auth/tokens.go`, `internal/services/auth.go`,
`internal/http/handlers/auth.go`, `internal/http/middleware/auth.go`, the exercise
and workout services (`internal/services/exercise.go`, `workout.go`) with the
admin routes of `internal/app/server.go` and `internal/http/handlers/exercise.go`,
and the in-memory repository of `internal/app/memory_repository_test.go`.

Conventions of the embedding

* Go code that mutates shared state is a function `World σ → result × World σ`.
  An error return does not roll the state back, exactly as in Go.
* `time.Now()`, `uuid.NewString()` and the salt drawn by bcrypt are oracles:
  the `n`-th call reads entry `n` of a stream held in `Lib`, and the world counts
  the calls made so far.
* The third-party libraries (golang-jwt HS256 signing, SHA-256, bcrypt) are the
  fields of `Lib`.  What is assumed about them is always an explicit hypothesis.
* A Go `map[string]T` is an association list with the operations `mapGet`,
  `mapSet`, `mapDelete`; Go leaves the iteration order unspecified and the list
  order is one admissible order.
* `Duration.Seconds` returns a `float64`; its two roundings are computed exactly,
  on fractions of natural numbers, by `float64Round`.
* The calls a service makes on its repository are observed by wrapping the
  repository in `tracedRepository`, which appends every call to a list.
-/

/-! ## Time -/

/-- An instant (`time.Time`), in nanoseconds counted from the zero value of
`time.Time`, which is a whole number of seconds before the Unix epoch. -/
abbrev Time := Int

/-- A `time.Duration`, in nanoseconds. -/
abbrev Duration := Int

/-- The constant `time.Second`. -/
def Second : Duration := 1000000000

/-- The method `Time.IsZero`. -/
def Time.IsZero (t : Time) : Bool := decide (t = 0)

/-! ## Errors -/

/-- Go `error` values.  `ErrNoRows` is the sentinel `pgx.ErrNoRows`, the only error
the code compares by identity (`errors.Is`); every other error is known by its
message. -/
inductive GoError where
  | ErrNoRows
  | New (msg : String)
  deriving DecidableEq, Repr

deriving instance DecidableEq for Except

/-- The method `err.Error()`. -/
def GoError.Error : GoError → String
  | .ErrNoRows => "no rows in result set"
  | .New msg => msg

/-- The error `jwt.ErrTokenExpired` as `ParseWithClaims` reports it. -/
def ErrTokenExpired : GoError := .New "token has invalid claims: token is expired"

/-- The error `bcrypt.ErrMismatchedHashAndPassword`. -/
def ErrMismatchedHashAndPassword : GoError :=
  .New "crypto/bcrypt: hashedPassword is not the hash of the given password"

/-! ## Go maps -/

/-- Lookup `m[k]` with the comma-ok result as an `Option`. -/
def mapGet {α : Type} : List (String × α) → String → Option α
  | [], _ => none
  | (k', v) :: rest, k => if k' = k then some v else mapGet rest k

/-- The builtin `delete(m, k)`. -/
def mapDelete {α : Type} (m : List (String × α)) (k : String) : List (String × α) :=
  m.filter (fun e => decide (e.1 ≠ k))

/-- The assignment `m[k] = v`. -/
def mapSet {α : Type} (m : List (String × α)) (k : String) (v : α) : List (String × α) :=
  mapDelete m k ++ [(k, v)]

/-- The builtin `len(m)`. -/
def mapLen {α : Type} (m : List (String × α)) : Nat := m.length

/-- The keys of a map are pairwise distinct (true of every Go map). -/
def mapWF {α : Type} (m : List (String × α)) : Prop := (m.map Prod.fst).Nodup

/-! ## Domain (`internal/domain/user.go`) -/

/-- The Go type `domain.Role`, a string. -/
abbrev Role := String

/-- The constant `domain.RoleUser`. -/
def RoleUser : Role := "user"

/-- The constant `domain.RoleAdmin`. -/
def RoleAdmin : Role := "admin"

/-- The struct `domain.User`. -/
structure User where
  ID : String
  Email : String
  PasswordHash : String
  Role : Role
  CreatedAt : Time
  deriving DecidableEq, Repr

/-! ## Domain (`internal/domain/exercise.go`, `workout.go`) -/

/-- A Go `float64`, by its bits; the code only copies such values. -/
structure Float64 where
  bits : Nat
  deriving DecidableEq, Repr

/-- The struct `domain.Exercise`. -/
structure Exercise where
  ID : String
  Name : String
  Description : String
  MuscleGroup : String
  Equipment : String
  CreatedAt : Time
  UpdatedAt : Time
  deriving DecidableEq, Repr

/-- The struct `domain.WorkoutEntry`. -/
structure WorkoutEntry where
  ID : String
  SessionID : String
  ExerciseID : String
  Sets : Int
  Reps : Int
  Weight : Float64
  DurationSeconds : Int
  Notes : String
  CreatedAt : Time
  deriving DecidableEq, Repr

/-- The struct `domain.WorkoutSession`. -/
structure WorkoutSession where
  ID : String
  UserID : String
  StartedAt : Time
  CompletedAt : Time
  CreatedAt : Time
  Entries : List WorkoutEntry
  deriving DecidableEq, Repr

/-! ## Configuration (`internal/config/config.go`), the fields the auth core reads -/

/-- The struct `config.Config`. -/
structure Config where
  AccessTokenSecret : String
  RefreshTokenSecret : String
  AccessTokenTTL : Duration
  RefreshTokenTTL : Duration
  AdminEmail : String
  AdminPassword : String
  deriving DecidableEq, Repr

/-! ## Token codec (`internal/auth/tokens.go`) -/

/-- The struct `auth.TokenPair`. -/
structure TokenPair where
  AccessToken : String
  RefreshToken : String
  ExpiresIn : Int
  deriving DecidableEq, Repr

/-- The struct `auth.Claims`: `uid`, `role` and the fields of
`jwt.RegisteredClaims` the code sets (`jti`, `sub`, `exp`, `iat`).  A numeric date
that is not set is `none`. -/
structure Claims where
  UserID : String
  Role : String
  ID : String
  Subject : String
  ExpiresAt : Option Time
  IssuedAt : Option Time
  deriving DecidableEq, Repr

/-- The third-party libraries and the sources of time and randomness. -/
structure Lib where
  /-- The `n`-th reading of `time.Now()`. -/
  clock : Nat → Time
  /-- The `n`-th result of `uuid.NewString()`. -/
  uuidNew : Nat → String
  /-- The hex digest `hex.EncodeToString(sha256.Sum256(s))`. -/
  sha256Hex : String → String
  /-- The call `bcrypt.GenerateFromPassword(password, DefaultCost)` with the `n`-th salt. -/
  bcryptGenerate : String → Nat → Except GoError String
  /-- The call `bcrypt.CompareHashAndPassword(hash, password)`. -/
  bcryptCompare : String → String → Except GoError Unit
  /-- The call `jwt.NewWithClaims(HS256, claims).SignedString(secret)`; arguments: secret, claims. -/
  jwtSign : String → Claims → Except GoError String
  /-- Decoding of a compact token and verification of its HS256 signature, the
  time-independent part of `jwt.ParseWithClaims`; arguments: token, secret. -/
  jwtDecode : String → String → Except GoError Claims
  /-- The function `strings.ToLower`. -/
  toLower : String → String

/-- The state a request runs against: the repository's state and the number of
clock readings, uuids and bcrypt salts drawn so far. -/
structure World (σ : Type) where
  store : σ
  tick : Nat
  uuidIdx : Nat
  saltIdx : Nat
  deriving DecidableEq, Repr

/-- One call of `time.Now()`: the reading and the world after it. -/
def timeNow {σ : Type} (lib : Lib) (w : World σ) : Time × World σ :=
  (lib.clock w.tick, { w with tick := w.tick + 1 })

/-- One call of `uuid.NewString()`. -/
def uuidNewString {σ : Type} (lib : Lib) (w : World σ) : String × World σ :=
  (lib.uuidNew w.uuidIdx, { w with uuidIdx := w.uuidIdx + 1 })

/-- The function `jwt.NewNumericDate`: the instant truncated to `jwt.TimePrecision`,
one second. -/
def NewNumericDate (t : Time) : Time := t - t % Second

/-- The function `auth.GenerateAccessToken`. -/
def GenerateAccessToken {σ : Type} (lib : Lib) (secret userID role : String) (ttl : Duration)
    (w : World σ) : Except GoError (String × Time) × World σ :=
  let (now1, w1) := timeNow lib w
  let expiresAt := now1 + ttl
  let (now2, w2) := timeNow lib w1
  let claims : Claims :=
    { UserID := userID, Role := role, ID := "", Subject := "",
      ExpiresAt := some (NewNumericDate expiresAt), IssuedAt := some (NewNumericDate now2) }
  match lib.jwtSign secret claims with
  | .error err => (.error err, w2)
  | .ok signed => (.ok (signed, expiresAt), w2)

/-- The function `auth.GenerateRefreshToken`. -/
def GenerateRefreshToken {σ : Type} (lib : Lib) (secret userID : String) (ttl : Duration)
    (w : World σ) : Except GoError (String × Time) × World σ :=
  let (now1, w1) := timeNow lib w
  let expiresAt := now1 + ttl
  let (id, w2) := uuidNewString lib w1
  let (now2, w3) := timeNow lib w2
  let claims : Claims :=
    { UserID := userID, Role := "", ID := id, Subject := "refresh",
      ExpiresAt := some (NewNumericDate expiresAt), IssuedAt := some (NewNumericDate now2) }
  match lib.jwtSign secret claims with
  | .error err => (.error err, w3)
  | .ok signed => (.ok (signed, expiresAt), w3)

/-- The call `jwt.ParseWithClaims(tokenStr, &Claims, keyFunc)` with the default
validator: the token is decoded and its signature verified with the key, then the
validator reads the clock once and rejects the token unless `now.Before(exp)`
(an absent `exp` is accepted; `iat` is not checked by default). -/
def jwtParseWithClaims {σ : Type} (lib : Lib) (tokenStr secret : String) (w : World σ) :
    Except GoError Claims × World σ :=
  match lib.jwtDecode tokenStr secret with
  | .error err => (.error err, w)
  | .ok claims =>
    let (now, w1) := timeNow lib w
    match claims.ExpiresAt with
    | none => (.ok claims, w1)
    | some exp => if now < exp then (.ok claims, w1) else (.error ErrTokenExpired, w1)

/-- The function `auth.ParseToken`.  When `ParseWithClaims` returns no error the
token is valid and carries `*Claims`, so the final `ErrTokenInvalidClaims` return is
not reached. -/
def ParseToken {σ : Type} (lib : Lib) (tokenStr secret : String) (w : World σ) :
    Except GoError Claims × World σ :=
  match jwtParseWithClaims lib tokenStr secret w with
  | (.error err, w1) => (.error err, w1)
  | (.ok claims, w1) => (.ok claims, w1)

/-- The function `auth.HashToken`. -/
def HashToken (lib : Lib) (token : String) : String := lib.sha256Hex token

/-! ## Repository interfaces (`internal/repository/interfaces.go`) -/

/-- The interface `repository.UserRepository`.  `Create` receives a pointer and
fills in `ID` and `CreatedAt`; the user as it stands after a successful call is the
result. -/
structure UserRepository (σ : Type) where
  Create : User → World σ → Except GoError User × World σ
  GetByEmail : String → World σ → Except GoError User × World σ
  GetByID : String → World σ → Except GoError User × World σ
  CountAdmins : World σ → Except GoError Int × World σ

/-- The interface `repository.RefreshTokenRepository`. -/
structure RefreshTokenRepository (σ : Type) where
  Save : String → String → Time → World σ → Except GoError Unit × World σ
  Delete : String → World σ → Except GoError Unit × World σ
  DeleteByUser : String → World σ → Except GoError Unit × World σ
  Exists : String → World σ → Except GoError Bool × World σ

/-- The interface `repository.ExerciseRepository`.  `Create` and `Update` receive a
pointer; the exercise as it stands after a successful call is the result. -/
structure ExerciseRepository (σ : Type) where
  List : World σ → Except GoError (List Exercise) × World σ
  Create : Exercise → World σ → Except GoError Exercise × World σ
  Update : Exercise → World σ → Except GoError Exercise × World σ
  Delete : String → World σ → Except GoError Unit × World σ
  GetByID : String → World σ → Except GoError Exercise × World σ

/-- The interface `repository.WorkoutRepository`.  `CreateSession` receives a
pointer; the session as it stands after a successful call is the result. -/
structure WorkoutRepository (σ : Type) where
  CreateSession : WorkoutSession → World σ → Except GoError WorkoutSession × World σ
  ListSessions : String → World σ → Except GoError (List WorkoutSession) × World σ

/-- The struct `repository.Repository`. -/
structure Repository (σ : Type) where
  Users : UserRepository σ
  RefreshTokens : RefreshTokenRepository σ
  Exercises : ExerciseRepository σ
  Workouts : WorkoutRepository σ

/-! ## In-memory repository (`internal/app/memory_repository_test.go`) -/

/-- The struct `memoryStore`: users by id, refresh-token expiry by fingerprint,
exercises by id and workout sessions by id. -/
structure memoryStore where
  users : List (String × User)
  refreshTokens : List (String × Time)
  exercises : List (String × Exercise)
  workouts : List (String × WorkoutSession)
  deriving DecidableEq, Repr

/-- The store made by `newMemoryRepository`. -/
def newMemoryStore : memoryStore :=
  { users := [], refreshTokens := [], exercises := [], workouts := [] }

/-- The method `memoryUserRepo.Create`. -/
def memoryUserRepo.Create (lib : Lib) (user : User) (w : World memoryStore) :
    Except GoError User × World memoryStore :=
  if w.store.users.any (fun e => decide (e.2.Email = user.Email)) then
    (.error (.New "user already exists"), w)
  else
    let (id, w1) := if user.ID = "" then uuidNewString lib w else (user.ID, w)
    let (now, w2) := timeNow lib w1
    let user1 : User := { user with ID := id, CreatedAt := now }
    (.ok user1, { w2 with store := { w2.store with users := mapSet w2.store.users id user1 } })

/-- The method `memoryUserRepo.GetByEmail`. -/
def memoryUserRepo.GetByEmail (email : String) (w : World memoryStore) :
    Except GoError User × World memoryStore :=
  match w.store.users.find? (fun e => decide (e.2.Email = email)) with
  | some e => (.ok e.2, w)
  | none => (.error (.New "not found"), w)

/-- The method `memoryUserRepo.GetByID`. -/
def memoryUserRepo.GetByID (id : String) (w : World memoryStore) :
    Except GoError User × World memoryStore :=
  match mapGet w.store.users id with
  | some u => (.ok u, w)
  | none => (.error (.New "not found"), w)

/-- The method `memoryUserRepo.CountAdmins`. -/
def memoryUserRepo.CountAdmins (w : World memoryStore) :
    Except GoError Int × World memoryStore :=
  (.ok (w.store.users.countP (fun e => decide (e.2.Role = RoleAdmin)) : Nat), w)

/-- The method `memoryRefreshRepo.Save`; the user id is not stored. -/
def memoryRefreshRepo.Save (token _userID : String) (expiresAt : Time) (w : World memoryStore) :
    Except GoError Unit × World memoryStore :=
  (.ok (), { w with store :=
    { w.store with refreshTokens := mapSet w.store.refreshTokens token expiresAt } })

/-- The method `memoryRefreshRepo.Delete`. -/
def memoryRefreshRepo.Delete (token : String) (w : World memoryStore) :
    Except GoError Unit × World memoryStore :=
  (.ok (), { w with store :=
    { w.store with refreshTokens := mapDelete w.store.refreshTokens token } })

/-- The method `memoryRefreshRepo.DeleteByUser`: the loop deletes every key, whatever
the user id. -/
def memoryRefreshRepo.DeleteByUser (_userID : String) (w : World memoryStore) :
    Except GoError Unit × World memoryStore :=
  (.ok (), { w with store :=
    { w.store with refreshTokens :=
        w.store.refreshTokens.foldl (fun m e => mapDelete m e.1) w.store.refreshTokens } })

/-- The method `memoryRefreshRepo.Exists`: an absent key answers false without
reading the clock; a record whose expiry the clock has passed is deleted and
answers false. -/
def memoryRefreshRepo.Exists (lib : Lib) (token : String) (w : World memoryStore) :
    Except GoError Bool × World memoryStore :=
  match mapGet w.store.refreshTokens token with
  | none => (.ok false, w)
  | some expiresAt =>
    let (now, w1) := timeNow lib w
    if now > expiresAt then
      (.ok false, { w1 with store :=
        { w1.store with refreshTokens := mapDelete w1.store.refreshTokens token } })
    else
      (.ok true, w1)

/-- The method `memoryExerciseRepo.List`: the values of the map, sorted by
`sort.Slice` with `less(i, j) = exercises[i].Name < exercises[j].Name`.  The sort is
not stable and starts from the unspecified iteration order of the map; the insertion
sort of the list order is one admissible result. -/
def memoryExerciseRepo.List (w : World memoryStore) :
    Except GoError (List Exercise) × World memoryStore :=
  (.ok ((w.store.exercises.map Prod.snd).insertionSort (fun a b => ¬ b.Name < a.Name)), w)

/-- The method `memoryExerciseRepo.Create`. -/
def memoryExerciseRepo.Create (lib : Lib) (ex : Exercise) (w : World memoryStore) :
    Except GoError Exercise × World memoryStore :=
  let (id, w1) := if ex.ID = "" then uuidNewString lib w else (ex.ID, w)
  let (now, w2) := timeNow lib w1
  let ex1 : Exercise := { ex with ID := id, CreatedAt := now, UpdatedAt := now }
  (.ok ex1, { w2 with store :=
    { w2.store with exercises := mapSet w2.store.exercises id ex1 } })

/-- The method `memoryExerciseRepo.Update`. -/
def memoryExerciseRepo.Update (lib : Lib) (ex : Exercise) (w : World memoryStore) :
    Except GoError Exercise × World memoryStore :=
  match mapGet w.store.exercises ex.ID with
  | none => (.error (.New "exercise not found"), w)
  | some _ =>
    let (now, w1) := timeNow lib w
    let ex1 : Exercise := { ex with UpdatedAt := now }
    (.ok ex1, { w1 with store :=
      { w1.store with exercises := mapSet w1.store.exercises ex.ID ex1 } })

/-- The method `memoryExerciseRepo.Delete`. -/
def memoryExerciseRepo.Delete (id : String) (w : World memoryStore) :
    Except GoError Unit × World memoryStore :=
  (.ok (), { w with store :=
    { w.store with exercises := mapDelete w.store.exercises id } })

/-- The method `memoryExerciseRepo.GetByID`. -/
def memoryExerciseRepo.GetByID (id : String) (w : World memoryStore) :
    Except GoError Exercise × World memoryStore :=
  match mapGet w.store.exercises id with
  | some ex => (.ok ex, w)
  | none => (.error (.New "exercise not found"), w)

/-- The loop of `memoryWorkoutRepo.CreateSession` over the entries, in order: an
entry without id draws a uuid, every entry gets the session id and a clock reading. -/
def memoryWorkoutRepo.stampEntries (lib : Lib) (sessionID : String) :
    List WorkoutEntry → World memoryStore → List WorkoutEntry × World memoryStore
  | [], w => ([], w)
  | entry :: rest, w =>
    let (id, w1) := if entry.ID = "" then uuidNewString lib w else (entry.ID, w)
    let (now, w2) := timeNow lib w1
    let (rest1, w3) := memoryWorkoutRepo.stampEntries lib sessionID rest w2
    ({ entry with ID := id, SessionID := sessionID, CreatedAt := now } :: rest1, w3)

/-- The method `memoryWorkoutRepo.CreateSession`. -/
def memoryWorkoutRepo.CreateSession (lib : Lib) (session : WorkoutSession)
    (w : World memoryStore) : Except GoError WorkoutSession × World memoryStore :=
  let (id, w1) := if session.ID = "" then uuidNewString lib w else (session.ID, w)
  let (startedAt, w2) :=
    if session.StartedAt.IsZero then timeNow lib w1 else (session.StartedAt, w1)
  let completedAt := if session.CompletedAt.IsZero then startedAt else session.CompletedAt
  let (createdAt, w3) := timeNow lib w2
  let (entries, w4) := memoryWorkoutRepo.stampEntries lib id session.Entries w3
  let session1 : WorkoutSession :=
    { session with
      ID := id, StartedAt := startedAt, CompletedAt := completedAt, CreatedAt := createdAt,
      Entries := entries }
  (.ok session1, { w4 with store :=
    { w4.store with workouts := mapSet w4.store.workouts id session1 } })

/-- The method `memoryWorkoutRepo.ListSessions`: the sessions of the user, sorted by
`sort.Slice` with `less(i, j) = sessions[i].StartedAt.After(sessions[j].StartedAt)`;
the insertion sort of the list order is one admissible result. -/
def memoryWorkoutRepo.ListSessions (userID : String) (w : World memoryStore) :
    Except GoError (List WorkoutSession) × World memoryStore :=
  (.ok (((w.store.workouts.map Prod.snd).filter
      (fun session => decide (session.UserID = userID))).insertionSort
        (fun a b => b.StartedAt ≤ a.StartedAt)), w)

/-- The repository made by `newMemoryRepository`. -/
def memoryRepository (lib : Lib) : Repository memoryStore :=
  { Users :=
      { Create := memoryUserRepo.Create lib
        GetByEmail := memoryUserRepo.GetByEmail
        GetByID := memoryUserRepo.GetByID
        CountAdmins := memoryUserRepo.CountAdmins }
    RefreshTokens :=
      { Save := memoryRefreshRepo.Save
        Delete := memoryRefreshRepo.Delete
        DeleteByUser := memoryRefreshRepo.DeleteByUser
        Exists := memoryRefreshRepo.Exists lib }
    Exercises :=
      { List := memoryExerciseRepo.List
        Create := memoryExerciseRepo.Create lib
        Update := memoryExerciseRepo.Update lib
        Delete := memoryExerciseRepo.Delete
        GetByID := memoryExerciseRepo.GetByID }
    Workouts :=
      { CreateSession := memoryWorkoutRepo.CreateSession lib
        ListSessions := memoryWorkoutRepo.ListSessions } }

/-! ## Auth service (`internal/services/auth.go`) -/

/-- The struct `services.RegisterRequest`. -/
structure RegisterRequest where
  Email : String
  Password : String
  deriving DecidableEq, Repr

/-- The struct `services.AuthResponse`. -/
structure AuthResponse where
  User : User
  TokenPair : TokenPair
  deriving DecidableEq, Repr

/-- The call `bcrypt.GenerateFromPassword`: a salt is drawn when hashing succeeds. -/
def bcryptGenerateFromPassword {σ : Type} (lib : Lib) (password : String) (w : World σ) :
    Except GoError String × World σ :=
  match lib.bcryptGenerate password w.saltIdx with
  | .error err => (.error err, w)
  | .ok hashed => (.ok hashed, { w with saltIdx := w.saltIdx + 1 })

/-- The quotient `n / d` rounded to the nearest natural number, a tie going to the
even neighbour: the rounding of `float64` arithmetic. -/
def roundHalfEven (n d : Nat) : Nat :=
  let q := n / d
  let r := n % d
  if 2 * r < d then q else if d < 2 * r then q + 1 else if q % 2 = 0 then q else q + 1

/-- The binary logarithm rounded down, by halving at most `fuel` times. -/
def log2Fuel : Nat → Nat → Nat
  | 0, _ => 0
  | fuel + 1, n => if n < 2 then 0 else log2Fuel fuel (n / 2) + 1

/-- The binary logarithm of `n` rounded down (`0` for `n = 0`). -/
def log2Floor (n : Nat) : Nat := log2Fuel n n

/-- The `float64` nearest to the quotient `p / q` of two natural numbers, as a
fraction: the quotient is scaled by the power of two that brings it into
`[2^52, 2^53)`, rounded there to a whole number with ties to even (53 bits of
significand), and scaled back.  This is the result of the `float64` operations
`float64(p)`, `x / y` and `x + y` when the exact value is `p / q`; durations are far
from the overflow and subnormal ranges. -/
def float64Round (p q : Nat) : Nat × Nat :=
  if p = 0 then (0, 1)
  else if q ≤ p then
    let e := log2Floor (p / q)
    if e ≤ 52 then (roundHalfEven (p * 2 ^ (52 - e)) q, 2 ^ (52 - e))
    else (roundHalfEven p (q * 2 ^ (e - 52)) * 2 ^ (e - 52), 1)
  else
    let j0 := log2Floor (q / p)
    let j := if q ≤ p * 2 ^ j0 then j0 else j0 + 1
    (roundHalfEven (p * 2 ^ (52 + j)) q, 2 ^ (52 + j))

/-- The method `Duration.Seconds` of the Go library,
`float64(sec) + float64(nsec)/1e9` with `sec := d / Second` and `nsec := d % Second`,
as a fraction with a signed numerator.  Both parts have the sign of `d` and
`float64` rounding is symmetric, so the magnitude is computed and the sign restored. -/
def Duration.Seconds (d : Duration) : Int × Nat :=
  let a := d.natAbs
  let sec := a / 1000000000
  let nsec := a % 1000000000
  let f := float64Round nsec 1000000000
  let x := float64Round (sec * f.2 + f.1) f.2
  (if d < 0 then -(x.1 : Int) else (x.1 : Int), x.2)

/-- The conversion `int64(x)` of a `float64`: truncation toward zero. -/
def int64OfFloat64 (x : Int × Nat) : Int := Int.tdiv x.1 x.2

/-- The expression `int64(d.Seconds())`. -/
def wholeSeconds (d : Duration) : Int := int64OfFloat64 (Duration.Seconds d)

/-- The method `AuthService.issueTokens`. -/
def AuthService.issueTokens {σ : Type} (lib : Lib) (cfg : Config) (repo : Repository σ)
    (userID role : String) (w : World σ) : Except GoError TokenPair × World σ :=
  match GenerateAccessToken lib cfg.AccessTokenSecret userID role cfg.AccessTokenTTL w with
  | (.error err, w1) => (.error err, w1)
  | (.ok (access, accessExp), w1) =>
    match GenerateRefreshToken lib cfg.RefreshTokenSecret userID cfg.RefreshTokenTTL w1 with
    | (.error err, w2) => (.error err, w2)
    | (.ok (refresh, refreshExp), w2) =>
      let hashed := HashToken lib refresh
      match repo.RefreshTokens.Save hashed userID refreshExp w2 with
      | (.error err, w3) => (.error err, w3)
      | (.ok _, w3) =>
        let (now, w4) := timeNow lib w3
        (.ok { AccessToken := access, RefreshToken := refresh,
               ExpiresIn := wholeSeconds (accessExp - now) }, w4)

/-- The method `AuthService.Register`. -/
def AuthService.Register {σ : Type} (lib : Lib) (cfg : Config) (repo : Repository σ)
    (req : RegisterRequest) (w : World σ) : Except GoError AuthResponse × World σ :=
  match bcryptGenerateFromPassword lib req.Password w with
  | (.error err, w1) => (.error err, w1)
  | (.ok hashed, w1) =>
    let user : User :=
      { ID := "", Email := req.Email, PasswordHash := hashed, Role := RoleUser, CreatedAt := 0 }
    match repo.Users.Create user w1 with
    | (.error err, w2) => (.error err, w2)
    | (.ok user1, w2) =>
      match AuthService.issueTokens lib cfg repo user1.ID user1.Role w2 with
      | (.error err, w3) => (.error err, w3)
      | (.ok tokens, w3) => (.ok { User := user1, TokenPair := tokens }, w3)

/-- The method `AuthService.Login`. -/
def AuthService.Login {σ : Type} (lib : Lib) (cfg : Config) (repo : Repository σ)
    (email password : String) (w : World σ) : Except GoError AuthResponse × World σ :=
  match repo.Users.GetByEmail email w with
  | (.error err, w1) => (.error err, w1)
  | (.ok user, w1) =>
    match lib.bcryptCompare user.PasswordHash password with
    | .error err => (.error err, w1)
    | .ok _ =>
      match AuthService.issueTokens lib cfg repo user.ID user.Role w1 with
      | (.error err, w2) => (.error err, w2)
      | (.ok tokens, w2) => (.ok { User := user, TokenPair := tokens }, w2)

/-- The method `AuthService.Refresh`. -/
def AuthService.Refresh {σ : Type} (lib : Lib) (cfg : Config) (repo : Repository σ)
    (refreshToken : String) (w : World σ) : Except GoError (TokenPair × User) × World σ :=
  match ParseToken lib refreshToken cfg.RefreshTokenSecret w with
  | (.error err, w1) => (.error err, w1)
  | (.ok claims, w1) =>
    let hashed := HashToken lib refreshToken
    match repo.RefreshTokens.Exists hashed w1 with
    | (.error err, w2) => (.error err, w2)
    | (.ok false, w2) => (.error (.New "refresh token not found"), w2)
    | (.ok true, w2) =>
      match repo.Users.GetByID claims.UserID w2 with
      | (.error err, w3) => (.error err, w3)
      | (.ok user, w3) =>
        match AuthService.issueTokens lib cfg repo user.ID user.Role w3 with
        | (.error err, w4) => (.error err, w4)
        | (.ok tokens, w4) =>
          match repo.RefreshTokens.Delete hashed w4 with
          | (.error err, w5) => (.error err, w5)
          | (.ok _, w5) => (.ok (tokens, user), w5)

/-- The method `AuthService.Logout`. -/
def AuthService.Logout {σ : Type} (lib : Lib) (repo : Repository σ)
    (refreshToken : String) (w : World σ) : Except GoError Unit × World σ :=
  repo.RefreshTokens.Delete (HashToken lib refreshToken) w

/-- The method `AuthService.EnsureAdminExists`. -/
def AuthService.EnsureAdminExists {σ : Type} (lib : Lib) (cfg : Config) (repo : Repository σ)
    (w : World σ) : Except GoError Unit × World σ :=
  match repo.Users.CountAdmins w with
  | (.error err, w1) => (.error err, w1)
  | (.ok count, w1) =>
    if count > 0 then (.ok (), w1)
    else
      match bcryptGenerateFromPassword lib cfg.AdminPassword w1 with
      | (.error err, w2) => (.error err, w2)
      | (.ok hashed, w2) =>
        let admin : User :=
          { ID := "", Email := cfg.AdminEmail, PasswordHash := hashed, Role := RoleAdmin,
            CreatedAt := 0 }
        match repo.Users.Create admin w2 with
        | (.error err, w3) => (.error err, w3)
        | (.ok _, w3) => (.ok (), w3)

/-! ## HTTP handlers (`internal/http/handlers/auth.go`, `response.go`) -/

/-- The structs `loginRequest` and `refreshRequest`, decoded from the request body. -/
structure loginRequest where
  Email : String
  Password : String
  deriving DecidableEq, Repr

/-- The struct `refreshRequest`. -/
structure refreshRequest where
  RefreshToken : String
  deriving DecidableEq, Repr

/-- The value a handler hands to `writeJSON`; `empty` is the `nil` of `Logout`, for
which nothing is written, and `text` is the plain-text line that `http.Error`
writes. -/
inductive Body where
  | empty
  | ErrorResponse (Error : String)
  | AuthResponse (resp : AuthResponse)
  | refreshed (tokens : TokenPair) (user : User)
  | text (message : String)
  | Exercise (ex : Exercise)
  | WorkoutSession (session : WorkoutSession)
  | WorkoutSessions (sessions : List WorkoutSession)
  deriving DecidableEq, Repr

/-- What a handler writes: the status code and the JSON value. -/
structure Response where
  status : Nat
  body : Body
  deriving DecidableEq, Repr

/-- The function `writeJSON`. -/
def writeJSON (status : Nat) (data : Body) : Response := { status := status, body := data }

/-- The function `writeError`. -/
def writeError (status : Nat) (err : GoError) : Response :=
  writeJSON status (.ErrorResponse err.Error)

/-- The test `errors.Is(err, pgx.ErrNoRows)`. -/
def isErrNoRows (err : GoError) : Bool := decide (err = GoError.ErrNoRows)

/-- The handler `AuthHandler.Register`; `decoded` is the result of decoding the body. -/
def AuthHandler.Register {σ : Type} (lib : Lib) (cfg : Config) (repo : Repository σ)
    (decoded : Except GoError loginRequest) (w : World σ) : Response × World σ :=
  match decoded with
  | .error err => (writeError 400 err, w)
  | .ok req =>
    match AuthService.Register lib cfg repo { Email := req.Email, Password := req.Password } w with
    | (.error err, w1) => (writeError 400 err, w1)
    | (.ok resp, w1) => (writeJSON 201 (.AuthResponse resp), w1)

/-- The handler `AuthHandler.Login`. -/
def AuthHandler.Login {σ : Type} (lib : Lib) (cfg : Config) (repo : Repository σ)
    (decoded : Except GoError loginRequest) (w : World σ) : Response × World σ :=
  match decoded with
  | .error err => (writeError 400 err, w)
  | .ok req =>
    match AuthService.Login lib cfg repo req.Email req.Password w with
    | (.error err, w1) =>
      if isErrNoRows err then (writeError 401 (.New "invalid credentials"), w1)
      else (writeError 401 err, w1)
    | (.ok resp, w1) => (writeJSON 200 (.AuthResponse resp), w1)

/-- The handler `AuthHandler.Refresh`. -/
def AuthHandler.Refresh {σ : Type} (lib : Lib) (cfg : Config) (repo : Repository σ)
    (decoded : Except GoError refreshRequest) (w : World σ) : Response × World σ :=
  match decoded with
  | .error err => (writeError 400 err, w)
  | .ok req =>
    match AuthService.Refresh lib cfg repo req.RefreshToken w with
    | (.error err, w1) => (writeError 401 err, w1)
    | (.ok (tokens, user), w1) => (writeJSON 200 (.refreshed tokens user), w1)

/-- The handler `AuthHandler.Logout`. -/
def AuthHandler.Logout {σ : Type} (lib : Lib) (repo : Repository σ)
    (decoded : Except GoError refreshRequest) (w : World σ) : Response × World σ :=
  match decoded with
  | .error err => (writeError 400 err, w)
  | .ok req =>
    match AuthService.Logout lib repo req.RefreshToken w with
    | (.error err, w1) => (writeError 400 err, w1)
    | (.ok _, w1) => (writeJSON 204 .empty, w1)

/-! ## Middleware (`internal/http/middleware/auth.go`) -/

/-- The call `strings.SplitN(s, " ", 2)`: the text before the first space and the
text after it, or the whole text when it has no space. -/
def stringsSplitN2 (s : String) : List String :=
  match s.data.span (fun c => decide (c ≠ ' ')) with
  | (a, []) => [String.mk a]
  | (a, _ :: rest) => [String.mk a, String.mk rest]

/-- The test `strings.EqualFold(s, "Bearer")`; no letter outside ASCII folds to a
letter of the word. -/
def equalFoldBearer (s : String) : Bool :=
  decide (s.data.map Char.toLower = ['b', 'e', 'a', 'r', 'e', 'r'])

/-- What `WithAuth` does with a request: answer it itself, or call the next handler
with the user id and role in the request context. -/
inductive AuthOutcome where
  | rejected (status : Nat) (message : String)
  | next (userID : String) (role : Role)
  deriving DecidableEq, Repr

/-- The middleware `WithAuth`; `header` is the value of the `Authorization` header,
empty when the header is absent. -/
def WithAuth {σ : Type} (lib : Lib) (cfg : Config) (header : String) (w : World σ) :
    AuthOutcome × World σ :=
  if header = "" then (.rejected 401 "missing authorization header", w)
  else
    match stringsSplitN2 header with
    | [scheme, token] =>
      if equalFoldBearer scheme then
        match ParseToken lib token cfg.AccessTokenSecret w with
        | (.error _, w1) => (.rejected 401 "invalid token", w1)
        | (.ok claims, w1) => (.next claims.UserID claims.Role, w1)
      else (.rejected 401 "invalid authorization header", w)
    | _ => (.rejected 401 "invalid authorization header", w)

/-! ## Sequences of auth calls -/

/-- A call of one of the four request-time operations of the auth service. -/
inductive AuthOp where
  | register (email password : String)
  | login (email password : String)
  | refresh (refreshToken : String)
  | logout (refreshToken : String)
  deriving DecidableEq, Repr

/-- The world after one call, whatever the call returned. -/
def AuthOp.step {σ : Type} (lib : Lib) (cfg : Config) (repo : Repository σ) :
    AuthOp → World σ → World σ
  | .register email password, w =>
    (AuthService.Register lib cfg repo { Email := email, Password := password } w).2
  | .login email password, w => (AuthService.Login lib cfg repo email password w).2
  | .refresh refreshToken, w => (AuthService.Refresh lib cfg repo refreshToken w).2
  | .logout refreshToken, w => (AuthService.Logout lib repo refreshToken w).2

/-- The world after a finite sequence of calls, made in order. -/
def runOps {σ : Type} (lib : Lib) (cfg : Config) (repo : Repository σ) :
    List AuthOp → World σ → World σ
  | [], w => w
  | op :: ops, w => runOps lib cfg repo ops (op.step lib cfg repo w)

/-! ## What is assumed of the libraries -/

/-- A token signed with a secret decodes, with that secret, to the claims signed. -/
def Lib.JwtRoundTrip (lib : Lib) : Prop :=
  ∀ secret claims token, lib.jwtSign secret claims = .ok token →
    lib.jwtDecode token secret = .ok claims

/-- Signing does not fail. -/
def Lib.JwtSigns (lib : Lib) : Prop :=
  ∀ secret claims, ∃ token, lib.jwtSign secret claims = .ok token

/-- A token signed with one secret does not verify with another one (the
idealisation of the unforgeability of HMAC-SHA256). -/
def Lib.JwtKeySeparation (lib : Lib) : Prop :=
  ∀ secret other claims token, lib.jwtSign secret claims = .ok token → other ≠ secret →
    ∃ err, lib.jwtDecode token other = .error err

/-- No two draws of `uuid.NewString()` give the same identifier (the idealisation of
random 122-bit identifiers). -/
def Lib.UuidFresh (lib : Lib) : Prop := Function.Injective lib.uuidNew

/-- Distinct tokens have distinct fingerprints (the idealisation of the collision
resistance of SHA-256). -/
def Lib.HashCollisionFree (lib : Lib) : Prop := Function.Injective lib.sha256Hex

/-- A hash made from a password verifies that password. -/
def Lib.BcryptSound (lib : Lib) : Prop :=
  ∀ password n hashed, lib.bcryptGenerate password n = .ok hashed →
    lib.bcryptCompare hashed password = .ok ()

/-- Hashing a password does not fail. -/
def Lib.BcryptHashes (lib : Lib) : Prop :=
  ∀ password n, ∃ hashed, lib.bcryptGenerate password n = .ok hashed

/-! ## A concrete library instance

A small, fully computable instance of `Lib` on which the operations can be run:
a token is the list of its secret and claim fields written out in a
self-delimiting format, the fingerprint is the token itself, the `n`-th uuid is
`n + 1` letters, and the clock advances one millisecond per reading. -/

/-- A field written so that its end can be found: every character is preceded by
`1`, and `0` closes the field. -/
def demoEncField : List Char → List Char
  | [] => ['0']
  | c :: cs => '1' :: c :: demoEncField cs

/-- Reads one field back: the field and the rest of the input. -/
def demoDecField : List Char → Option (List Char × List Char)
  | [] => none
  | c :: rest =>
    if c = '0' then some ([], rest)
    else
      match rest with
      | [] => none
      | d :: rest1 =>
        match demoDecField rest1 with
        | none => none
        | some (field, tail) => some (d :: field, tail)

/-- The binary digits of a number, lowest first; `fuel` bounds their count. -/
def demoNatBits : Nat → Nat → List Char
  | 0, _ => []
  | fuel + 1, n =>
    if n = 0 then [] else (if n % 2 = 1 then 'I' else 'O') :: demoNatBits fuel (n / 2)

/-- The number with the given binary digits, lowest first. -/
def demoBitsNat : List Char → Nat
  | [] => 0
  | c :: cs => (if c = 'I' then 1 else 0) + 2 * demoBitsNat cs

/-- An optional instant as text: empty when absent, else a sign and binary digits. -/
def demoEncTime : Option Time → List Char
  | none => []
  | some t =>
    if t < 0 then '-' :: demoNatBits t.natAbs t.natAbs else '+' :: demoNatBits t.natAbs t.natAbs

/-- Reads an optional instant back. -/
def demoDecTime : List Char → Option (Option Time)
  | [] => some none
  | c :: bits =>
    if c = '+' then some (some (demoBitsNat bits : Nat))
    else if c = '-' then some (some (-(demoBitsNat bits : Nat)))
    else none

/-- The token for a secret and claims. -/
def demoSign (secret : String) (claims : Claims) : String :=
  String.mk (demoEncField secret.data ++ (demoEncField claims.UserID.data ++
    (demoEncField claims.Role.data ++ (demoEncField claims.ID.data ++
    (demoEncField claims.Subject.data ++ (demoEncField (demoEncTime claims.ExpiresAt) ++
    demoEncField (demoEncTime claims.IssuedAt)))))))

/-- Reads the claims of a token back. -/
def demoClaims (input : List Char) : Option Claims :=
  match demoDecField input with
  | none => none
  | some (uid, r1) =>
    match demoDecField r1 with
    | none => none
    | some (role, r2) =>
      match demoDecField r2 with
      | none => none
      | some (id, r3) =>
        match demoDecField r3 with
        | none => none
        | some (sub, r4) =>
          match demoDecField r4 with
          | none => none
          | some (exp, r5) =>
            match demoDecField r5 with
            | none => none
            | some (iat, _) =>
              match demoDecTime exp, demoDecTime iat with
              | some e, some i =>
                some { UserID := String.mk uid, Role := String.mk role, ID := String.mk id,
                       Subject := String.mk sub, ExpiresAt := e, IssuedAt := i }
              | _, _ => none

/-- Decodes a token and checks that it was made with the secret. -/
def demoDecode (token secret : String) : Except GoError Claims :=
  match demoDecField token.data with
  | none => .error (.New "token is malformed")
  | some (s, r) =>
    if String.mk s = secret then
      match demoClaims r with
      | none => .error (.New "token is malformed")
      | some claims => .ok claims
    else .error (.New "token signature is invalid: signature is invalid")

/-- The concrete library instance. -/
def demoLib : Lib :=
  { clock := fun n => 1700000000000000000 + 1000000 * (n : Int)
    uuidNew := fun n => String.mk (List.replicate (n + 1) 'u')
    sha256Hex := fun s => s
    bcryptGenerate := fun password _ => .ok ("$2a$10$" ++ password)
    bcryptCompare := fun hashed password =>
      if hashed = "$2a$10$" ++ password then .ok () else .error ErrMismatchedHashAndPassword
    jwtSign := fun secret claims => .ok (demoSign secret claims)
    jwtDecode := demoDecode
    toLower := fun s => String.mk (s.data.map Char.toLower) }

/-- The configuration of the integration tests: a one-minute access token and a
one-hour refresh token. -/
def demoCfg : Config :=
  { AccessTokenSecret := "test-access-secret"
    RefreshTokenSecret := "test-refresh-secret"
    AccessTokenTTL := 60 * Second
    RefreshTokenTTL := 3600 * Second
    AdminEmail := "admin@test.app"
    AdminPassword := "AdminPass123!" }

/-- The world of a fresh in-memory repository. -/
def demoWorld : World memoryStore :=
  { store := newMemoryStore, tick := 0, uuidIdx := 0, saltIdx := 0 }

/-! ## A concrete run: registration on the fresh store -/

/-- The registration request of the run. -/
def demoRequest : RegisterRequest := { Email := "athlete@example.com", Password := "Passw0rd!" }

/-- The user the registration creates. -/
def demoUser : User :=
  { ID := "u", Email := "athlete@example.com", PasswordHash := "$2a$10$Passw0rd!",
    Role := "user", CreatedAt := 1700000000000000000 }

/-- The claims of the access token the registration issues. -/
def demoAccessClaims : Claims :=
  { UserID := "u", Role := "user", ID := "", Subject := "",
    ExpiresAt := some 1700000060000000000, IssuedAt := some 1700000000000000000 }

/-- The claims of the refresh token the registration issues. -/
def demoRefreshClaims : Claims :=
  { UserID := "u", Role := "", ID := "uu", Subject := "refresh",
    ExpiresAt := some 1700003600000000000, IssuedAt := some 1700000000000000000 }

/-- The refresh token the registration issues. -/
def demoRefreshToken : String := demoSign "test-refresh-secret" demoRefreshClaims

/-- The answer of the registration. -/
def demoResponse : AuthResponse :=
  { User := demoUser
    TokenPair :=
      { AccessToken := demoSign "test-access-secret" demoAccessClaims
        RefreshToken := demoRefreshToken
        ExpiresIn := 59 } }

/-- The world after the registration: one user, one refresh-token record. -/
def demoRegistered : World memoryStore :=
  { store :=
      { newMemoryStore with
        users := [("u", demoUser)]
        refreshTokens := [(demoRefreshToken, 1700003600003000000)] }
    tick := 6
    uuidIdx := 2
    saltIdx := 1 }

/-- The claims of the refresh token that `Refresh` issues in the world after the
registration. -/
def demoRotatedClaims : Claims :=
  { UserID := "u", Role := "", ID := "uuu", Subject := "refresh",
    ExpiresAt := some 1700003600000000000, IssuedAt := some 1700000000000000000 }

/-- The pair that `Refresh` of the registration's refresh token returns. -/
def demoRotatedTokens : TokenPair :=
  { AccessToken := demoSign "test-access-secret" demoAccessClaims
    RefreshToken := demoSign "test-refresh-secret" demoRotatedClaims
    ExpiresIn := 59 }

/-- The world after that `Refresh`: the old record gone, the new one saved. -/
def demoRotated : World memoryStore :=
  { store :=
      { newMemoryStore with
        users := [("u", demoUser)]
        refreshTokens := [(demoRotatedTokens.RefreshToken, 1700003600010000000)] }
    tick := 13
    uuidIdx := 3
    saltIdx := 1 }

/-- The test configuration with one secret for both kinds of token, as
`config.Load` accepts it. -/
def sharedSecretCfg : Config :=
  { demoCfg with AccessTokenSecret := "one-secret", RefreshTokenSecret := "one-secret" }

/-! ## Names for what issuance produces -/

/-- The claims `GenerateAccessToken` signs when the clock has been read `n` times. -/
def accessClaims (lib : Lib) (userID role : String) (ttl : Duration) (n : Nat) : Claims :=
  { UserID := userID, Role := role, ID := "", Subject := "",
    ExpiresAt := some (NewNumericDate (lib.clock n + ttl)),
    IssuedAt := some (NewNumericDate (lib.clock (n + 1))) }

/-- The claims `GenerateRefreshToken` signs when the clock has been read `n` times and
`u` uuids have been drawn. -/
def refreshClaims (lib : Lib) (userID : String) (ttl : Duration) (n u : Nat) : Claims :=
  { UserID := userID, Role := "", ID := lib.uuidNew u, Subject := "refresh",
    ExpiresAt := some (NewNumericDate (lib.clock n + ttl)),
    IssuedAt := some (NewNumericDate (lib.clock (n + 1))) }

/-- The world a successful `issueTokens` leaves over the in-memory repository: the
record of the refresh token saved, five clock readings and one uuid consumed. -/
def issuedWorld (lib : Lib) (cfg : Config) (refresh : String) (w : World memoryStore) :
    World memoryStore :=
  { store :=
      { w.store with
        refreshTokens := (mapSet w.store.refreshTokens (HashToken lib refresh)
          (lib.clock (w.tick + 2) + cfg.RefreshTokenTTL)) }
    tick := w.tick + 5
    uuidIdx := w.uuidIdx + 1
    saltIdx := w.saltIdx }

/-- Every user of the map is stored under its own id, as `Create` stores it. -/
def usersKeyedByID (users : List (String × User)) : Prop := ∀ e ∈ users, e.1 = e.2.ID

/-- A fingerprint of a refresh token signed with the configured secret whose token
identifier is the `i`-th uuid, for some `i` with `lo ≤ i < hi`. -/
def Minted (lib : Lib) (cfg : Config) (lo hi : Nat) (k : String) : Prop :=
  ∃ token claims i, k = HashToken lib token ∧
    lib.jwtSign cfg.RefreshTokenSecret claims = .ok token ∧
    claims.ID = lib.uuidNew i ∧ lo ≤ i ∧ i < hi

/-- How a later world relates to an earlier one: the counters of clock readings and
uuids have not gone back, the keys of the refresh-token records stay distinct, and a
record present later was present before with the same expiry or is a fingerprint
minted in between. -/
def Evolves (lib : Lib) (cfg : Config) (w w1 : World memoryStore) : Prop :=
  w.tick ≤ w1.tick ∧ w.uuidIdx ≤ w1.uuidIdx ∧
  (mapWF w.store.refreshTokens → mapWF w1.store.refreshTokens) ∧
  ∀ k e, mapGet w1.store.refreshTokens k = some e →
    mapGet w.store.refreshTokens k = some e ∨ Minted lib cfg w.uuidIdx w1.uuidIdx k

/-- The world after bcrypt has drawn a salt. -/
def saltDrawn {σ : Type} (w : World σ) : World σ := { w with saltIdx := w.saltIdx + 1 }

/-- The user `memoryUserRepo.Create` stores for a new user without id: the next uuid
as id and the next clock reading as creation time. -/
def createdUser (lib : Lib) (email hashed : String) (role : Role) (w : World memoryStore) :
    User :=
  { ID := lib.uuidNew w.uuidIdx, Email := email, PasswordHash := hashed, Role := role,
    CreatedAt := lib.clock w.tick }

/-- The world after `memoryUserRepo.Create` has stored that user. -/
def createdWorld (lib : Lib) (email hashed : String) (role : Role) (w : World memoryStore) :
    World memoryStore :=
  { store :=
      { w.store with
        users := (mapSet w.store.users (lib.uuidNew w.uuidIdx)
          (createdUser lib email hashed role w)) }
    tick := w.tick + 1
    uuidIdx := w.uuidIdx + 1
    saltIdx := w.saltIdx }

/-- The world a successful `Refresh` leaves over the in-memory repository: two clock
readings for the checks, the new pair issued, then the record of the old token
deleted. -/
def rotatedWorld (lib : Lib) (cfg : Config) (old new : String) (w : World memoryStore) :
    World memoryStore :=
  let w4 := issuedWorld lib cfg new { w with tick := w.tick + 2 }
  { w4 with store :=
      { w4.store with
        refreshTokens := mapDelete w4.store.refreshTokens (HashToken lib old) } }

/-! ## Recording the calls a service makes on its repository -/

/-- One call on the repository, with its arguments. -/
inductive RepoCall where
  | UsersCreate (user : User)
  | UsersGetByEmail (email : String)
  | UsersGetByID (id : String)
  | UsersCountAdmins
  | RefreshTokensSave (token userID : String) (expiresAt : Time)
  | RefreshTokensDelete (token : String)
  | RefreshTokensDeleteByUser (userID : String)
  | RefreshTokensExists (token : String)
  | ExercisesList
  | ExercisesCreate (ex : Exercise)
  | ExercisesUpdate (ex : Exercise)
  | ExercisesDelete (id : String)
  | ExercisesGetByID (id : String)
  | WorkoutsCreateSession (session : WorkoutSession)
  | WorkoutsListSessions (userID : String)
  deriving DecidableEq, Repr

/-- A repository state together with the calls made on it so far, oldest first. -/
structure Traced (σ : Type) where
  inner : σ
  calls : List RepoCall
  deriving DecidableEq, Repr

/-- The world the wrapped repository sees. -/
def Traced.lower {σ : Type} (w : World (Traced σ)) : World σ :=
  { store := w.store.inner, tick := w.tick, uuidIdx := w.uuidIdx, saltIdx := w.saltIdx }

/-- The world of the wrapped repository with a call log put back on. -/
def Traced.lift {σ : Type} (calls : List RepoCall) (w : World σ) : World (Traced σ) :=
  { store := { inner := w.store, calls := calls }, tick := w.tick, uuidIdx := w.uuidIdx,
    saltIdx := w.saltIdx }

/-- Runs an operation of the wrapped repository and appends the call to the log. -/
def traced {σ α : Type} (call : RepoCall) (op : World σ → Except GoError α × World σ)
    (w : World (Traced σ)) : Except GoError α × World (Traced σ) :=
  ((op (Traced.lower w)).1, Traced.lift (w.store.calls ++ [call]) (op (Traced.lower w)).2)

/-- Any repository, wrapped so that every call is recorded.  The service code is the
same for every repository, so the log is the list of calls it makes. -/
def tracedRepository {σ : Type} (repo : Repository σ) : Repository (Traced σ) :=
  { Users :=
      { Create := fun user => traced (.UsersCreate user) (repo.Users.Create user)
        GetByEmail := fun email => traced (.UsersGetByEmail email) (repo.Users.GetByEmail email)
        GetByID := fun id => traced (.UsersGetByID id) (repo.Users.GetByID id)
        CountAdmins := traced .UsersCountAdmins repo.Users.CountAdmins }
    RefreshTokens :=
      { Save := fun token userID expiresAt =>
          traced (.RefreshTokensSave token userID expiresAt)
            (repo.RefreshTokens.Save token userID expiresAt)
        Delete := fun token => traced (.RefreshTokensDelete token) (repo.RefreshTokens.Delete token)
        DeleteByUser := fun userID =>
          traced (.RefreshTokensDeleteByUser userID) (repo.RefreshTokens.DeleteByUser userID)
        Exists := fun token => traced (.RefreshTokensExists token) (repo.RefreshTokens.Exists token) }
    Exercises :=
      { List := traced .ExercisesList repo.Exercises.List
        Create := fun ex => traced (.ExercisesCreate ex) (repo.Exercises.Create ex)
        Update := fun ex => traced (.ExercisesUpdate ex) (repo.Exercises.Update ex)
        Delete := fun id => traced (.ExercisesDelete id) (repo.Exercises.Delete id)
        GetByID := fun id => traced (.ExercisesGetByID id) (repo.Exercises.GetByID id) }
    Workouts :=
      { CreateSession := fun session =>
          traced (.WorkoutsCreateSession session) (repo.Workouts.CreateSession session)
        ListSessions := fun userID =>
          traced (.WorkoutsListSessions userID) (repo.Workouts.ListSessions userID) } }

/-- The in-memory repository with a refresh-token store that is down: `Delete`
returns an error and changes nothing. -/
def failingDeleteRepository (lib : Lib) : Repository memoryStore :=
  { memoryRepository lib with
    RefreshTokens :=
      { (memoryRepository lib).RefreshTokens with
        Delete := fun _ w => (.error (.New "connection refused"), w) } }

/-- The administrator that `EnsureAdminExists` creates on the fresh store of the
concrete run. -/
def demoAdmin : User :=
  { ID := "u", Email := "admin@test.app", PasswordHash := "$2a$10$AdminPass123!",
    Role := "admin", CreatedAt := 1700000000000000000 }

/-- The world after `EnsureAdminExists` on the fresh store. -/
def demoBootstrapped : World memoryStore :=
  { store := { newMemoryStore with users := [("u", demoAdmin)] }
    tick := 1
    uuidIdx := 1
    saltIdx := 1 }

/-- The call log of the later world is that of the earlier one followed by calls
that all satisfy `P`. -/
def CallsExtend {σ : Type} (P : RepoCall → Prop) (w w1 : World (Traced σ)) : Prop :=
  ∃ new, w1.store.calls = w.store.calls ++ new ∧ ∀ c ∈ new, P c

/-- What C20 asks of one repository call made while an auth operation runs on the
token `arg` (none for `Register` and `Login`): a `Save` has as key the fingerprint of
a token signed with the refresh secret, an `Exists` or `Delete` has as key the
fingerprint of `arg`, and `DeleteByUser` is not called. -/
def keyIsFingerprint (lib : Lib) (cfg : Config) (arg : Option String) : RepoCall → Prop
  | .RefreshTokensSave key _ _ =>
    ∃ token claims, lib.jwtSign cfg.RefreshTokenSecret claims = .ok token ∧
      key = HashToken lib token
  | .RefreshTokensExists key => ∃ t, arg = some t ∧ key = HashToken lib t
  | .RefreshTokensDelete key => ∃ t, arg = some t ∧ key = HashToken lib t
  | .RefreshTokensDeleteByUser _ => False
  | _ => True

/-- The token an auth operation is called on, if any. -/
def AuthOp.token : AuthOp → Option String
  | .register _ _ => none
  | .login _ _ => none
  | .refresh refreshToken => some refreshToken
  | .logout refreshToken => some refreshToken


/-! ## A clock that jumps past the hour -/

/-- The concrete library with a clock that, from its `k`-th reading on, shows an
instant more than the hour of the refresh-token lifetime after the first readings. -/
def jumpLib (k : Nat) : Lib :=
  { demoLib with
    clock := fun n =>
      if n < k then demoLib.clock n else 1700003601000000000 + 1000000 * (n : Int) }


/-! ## Concrete issuances for the remaining seconds -/

/-- The pair that `issueTokens` issues to user `u` on the fresh store of the run. -/
def demoIssued : TokenPair :=
  { AccessToken := demoSign "test-access-secret" demoAccessClaims
    RefreshToken := demoSign "test-refresh-secret"
      { UserID := "u", Role := "", ID := "u", Subject := "refresh",
        ExpiresAt := some 1700003600000000000, IssuedAt := some 1700000000000000000 }
    ExpiresIn := 59 }

/-- The test configuration with an access-token lifetime of a little over `2^24`
seconds (`4660h20m17.003999999s`). -/
def longLivedCfg : Config := { demoCfg with AccessTokenTTL := 16777217003999999 }


/-! ## Exercise service (`internal/services/exercise.go`) -/

/-- The struct `services.ExerciseInput`. -/
structure ExerciseInput where
  ID : String
  Name : String
  Description : String
  MuscleGroup : String
  Equipment : String
  deriving DecidableEq, Repr

/-- The variable `services.DefaultExercises`. -/
def DefaultExercises : List ExerciseInput :=
  [ { ID := "", Name := "Barbell Back Squat",
      Description := "Compound lower-body lift targeting quads and glutes.",
      MuscleGroup := "Legs", Equipment := "Barbell" },
    { ID := "", Name := "Bench Press",
      Description := "Pressing movement focusing on chest, triceps, and shoulders.",
      MuscleGroup := "Chest", Equipment := "Barbell" },
    { ID := "", Name := "Deadlift",
      Description := "Full-body posterior chain pull from the floor.",
      MuscleGroup := "Back", Equipment := "Barbell" },
    { ID := "", Name := "Pull-Up",
      Description := "Bodyweight vertical pull emphasizing lats and biceps.",
      MuscleGroup := "Back", Equipment := "Bodyweight" },
    { ID := "", Name := "Plank",
      Description := "Isometric core stabilization exercise.",
      MuscleGroup := "Core", Equipment := "Bodyweight" } ]

/-- The method `ExerciseService.List`. -/
def ExerciseService.List {σ : Type} (repo : Repository σ) (w : World σ) :
    Except GoError (List Exercise) × World σ :=
  repo.Exercises.List w

/-- The method `ExerciseService.Create`. -/
def ExerciseService.Create {σ : Type} (repo : Repository σ) (input : ExerciseInput)
    (w : World σ) : Except GoError Exercise × World σ :=
  if input.Name = "" then (.error (.New "name is required"), w)
  else
    let ex : Exercise :=
      { ID := "", Name := input.Name, Description := input.Description,
        MuscleGroup := input.MuscleGroup, Equipment := input.Equipment,
        CreatedAt := 0, UpdatedAt := 0 }
    match repo.Exercises.Create ex w with
    | (.error err, w1) => (.error err, w1)
    | (.ok ex1, w1) => (.ok ex1, w1)

/-- The method `ExerciseService.Update`. -/
def ExerciseService.Update {σ : Type} (lib : Lib) (repo : Repository σ) (input : ExerciseInput)
    (w : World σ) : Except GoError Exercise × World σ :=
  if input.ID = "" then (.error (.New "id is required"), w)
  else
    match repo.Exercises.GetByID input.ID w with
    | (.error err, w1) => (.error err, w1)
    | (.ok ex, w1) =>
      let name := if input.Name ≠ "" then input.Name else ex.Name
      let (now, w2) := timeNow lib w1
      let ex1 : Exercise :=
        { ex with
          Name := name, Description := input.Description, MuscleGroup := input.MuscleGroup,
          Equipment := input.Equipment, UpdatedAt := now }
      match repo.Exercises.Update ex1 w2 with
      | (.error err, w3) => (.error err, w3)
      | (.ok ex2, w3) => (.ok ex2, w3)

/-- The method `ExerciseService.Delete`. -/
def ExerciseService.Delete {σ : Type} (repo : Repository σ) (id : String) (w : World σ) :
    Except GoError Unit × World σ :=
  if id = "" then (.error (.New "id is required"), w)
  else repo.Exercises.Delete id w

/-- The loop of `ExerciseService.EnsureDefaults` over `DefaultExercises`;
`existingNames` holds the keys of the map of lower-cased names, built before the
loop and not extended in it. -/
def ensureDefaultsLoop {σ : Type} (lib : Lib) (repo : Repository σ)
    (existingNames : List String) : List ExerciseInput → World σ → Except GoError Unit × World σ
  | [], w => (.ok (), w)
  | input :: rest, w =>
    if lib.toLower input.Name ∈ existingNames then
      ensureDefaultsLoop lib repo existingNames rest w
    else
      match ExerciseService.Create repo input w with
      | (.error err, w1) => (.error err, w1)
      | (.ok _, w1) => ensureDefaultsLoop lib repo existingNames rest w1

/-- The method `ExerciseService.EnsureDefaults`. -/
def ExerciseService.EnsureDefaults {σ : Type} (lib : Lib) (repo : Repository σ) (w : World σ) :
    Except GoError Unit × World σ :=
  match repo.Exercises.List w with
  | (.error err, w1) => (.error err, w1)
  | (.ok existing, w1) =>
    ensureDefaultsLoop lib repo
      (existing.map (fun ex => lib.toLower ex.Name)) DefaultExercises w1

/-! ## Workout service (`internal/services/workout.go`) -/

/-- The struct `services.WorkoutEntryInput`. -/
structure WorkoutEntryInput where
  ExerciseID : String
  Sets : Int
  Reps : Int
  Weight : Float64
  DurationSeconds : Int
  Notes : String
  deriving DecidableEq, Repr

/-- The struct `services.WorkoutSessionInput`. -/
structure WorkoutSessionInput where
  StartedAt : Time
  CompletedAt : Time
  Entries : List WorkoutEntryInput
  deriving DecidableEq, Repr

/-- The entry that `WorkoutService.Create` appends for one entry of the input. -/
def WorkoutEntryInput.toEntry (entry : WorkoutEntryInput) : WorkoutEntry :=
  { ID := "", SessionID := "", ExerciseID := entry.ExerciseID, Sets := entry.Sets,
    Reps := entry.Reps, Weight := entry.Weight, DurationSeconds := entry.DurationSeconds,
    Notes := entry.Notes, CreatedAt := 0 }

/-- The method `WorkoutService.Create`. -/
def WorkoutService.Create {σ : Type} (repo : Repository σ) (userID : String)
    (input : WorkoutSessionInput) (w : World σ) : Except GoError WorkoutSession × World σ :=
  if userID = "" then (.error (.New "user id is required"), w)
  else
    let session : WorkoutSession :=
      { ID := "", UserID := userID, StartedAt := input.StartedAt,
        CompletedAt := input.CompletedAt, CreatedAt := 0,
        Entries := input.Entries.map WorkoutEntryInput.toEntry }
    match repo.Workouts.CreateSession session w with
    | (.error err, w1) => (.error err, w1)
    | (.ok session1, w1) => (.ok session1, w1)

/-- The method `WorkoutService.List`. -/
def WorkoutService.List {σ : Type} (repo : Repository σ) (userID : String) (w : World σ) :
    Except GoError (List WorkoutSession) × World σ :=
  if userID = "" then (.error (.New "user id is required"), w)
  else repo.Workouts.ListSessions userID w

/-- A sequence of `WorkoutService.Create` calls made in order: the sessions returned
by the calls that succeeded, and the world after the last call. -/
def createAllSessions {σ : Type} (repo : Repository σ) :
    List (String × WorkoutSessionInput) → World σ → List WorkoutSession × World σ
  | [], w => ([], w)
  | (userID, input) :: rest, w =>
    match WorkoutService.Create repo userID input w with
    | (.error _, w1) => createAllSessions repo rest w1
    | (.ok session, w1) =>
      let (sessions, w2) := createAllSessions repo rest w1
      (session :: sessions, w2)

/-! ## The admin routes (`internal/app/server.go`, `handlers/exercise.go`) -/

/-- The struct `middleware.AuthContext`. -/
structure AuthContext where
  UserID : String
  Role : Role
  deriving DecidableEq, Repr

/-- The values of the request context under `userIDKey` and `roleKey`; `none` when
the key is not set. -/
structure RequestContext where
  userID : Option String
  role : Option Role
  deriving DecidableEq, Repr

/-- The function `middleware.GetAuthContext`. -/
def GetAuthContext (ctx : RequestContext) : Option AuthContext :=
  let userID := ctx.userID.getD ""
  let role := ctx.role.getD ""
  if userID = "" then none else some { UserID := userID, Role := role }

/-- The call `http.Error(w, message, status)`. -/
def httpError (status : Nat) (message : String) : Response :=
  { status := status, body := .text message }

/-- The test `ctx == nil || ctx.Role != domain.RoleAdmin`. -/
def notAdmin (ctx : Option AuthContext) : Bool :=
  match ctx with
  | none => true
  | some c => decide (c.Role ≠ RoleAdmin)

/-- The handler `ExerciseHandler.Create`; `decoded` is the result of decoding the
body. -/
def ExerciseHandler.Create {σ : Type} (repo : Repository σ) (ctx : RequestContext)
    (decoded : Except GoError ExerciseInput) (w : World σ) : Response × World σ :=
  if notAdmin (GetAuthContext ctx) then (httpError 403 "forbidden", w)
  else
    match decoded with
    | .error err => (writeError 400 err, w)
    | .ok input =>
      match ExerciseService.Create repo input w with
      | (.error err, w1) => (writeError 400 err, w1)
      | (.ok ex, w1) => (writeJSON 201 (.Exercise ex), w1)

/-- The handler `ExerciseHandler.Update`; `id` is the URL parameter. -/
def ExerciseHandler.Update {σ : Type} (lib : Lib) (repo : Repository σ) (ctx : RequestContext)
    (id : String) (decoded : Except GoError ExerciseInput) (w : World σ) : Response × World σ :=
  if notAdmin (GetAuthContext ctx) then (httpError 403 "forbidden", w)
  else
    match decoded with
    | .error err => (writeError 400 err, w)
    | .ok input =>
      match ExerciseService.Update lib repo { input with ID := id } w with
      | (.error err, w1) => (writeError 400 err, w1)
      | (.ok ex, w1) => (writeJSON 200 (.Exercise ex), w1)

/-- The handler `ExerciseHandler.Delete`; `id` is the URL parameter. -/
def ExerciseHandler.Delete {σ : Type} (repo : Repository σ) (ctx : RequestContext)
    (id : String) (w : World σ) : Response × World σ :=
  if notAdmin (GetAuthContext ctx) then (httpError 403 "forbidden", w)
  else
    match ExerciseService.Delete repo id w with
    | (.error err, w1) => (writeError 400 err, w1)
    | (.ok _, w1) => (writeJSON 204 .empty, w1)

/-- The middleware of the admin group in `newServerWithRepository`. -/
def adminOnly {σ : Type} (ctx : RequestContext) (next : World σ → Response × World σ)
    (w : World σ) : Response × World σ :=
  if notAdmin (GetAuthContext ctx) then (httpError 403 "forbidden", w) else next w

/-- A handler behind `WithAuth`: the middleware answers the request itself or calls
the handler with the user id and role in the request context. -/
def behindAuth {σ : Type} (lib : Lib) (cfg : Config) (header : String)
    (next : RequestContext → World σ → Response × World σ) (w : World σ) :
    Response × World σ :=
  match WithAuth lib cfg header w with
  | (.rejected status message, w1) => (httpError status message, w1)
  | (.next userID role, w1) => next { userID := some userID, role := some role } w1

/-- A request to one of the three routes of the admin group, with its URL parameter
and the result of decoding its body. -/
inductive ExerciseMutation where
  | Create (decoded : Except GoError ExerciseInput)
  | Update (id : String) (decoded : Except GoError ExerciseInput)
  | Delete (id : String)
  deriving DecidableEq, Repr

/-- The handler of `POST /exercises`, `PUT /exercises/{id}` or
`DELETE /exercises/{id}`. -/
def ExerciseMutation.handler {σ : Type} (lib : Lib) (repo : Repository σ)
    (ctx : RequestContext) : ExerciseMutation → World σ → Response × World σ
  | .Create decoded => ExerciseHandler.Create repo ctx decoded
  | .Update id decoded => ExerciseHandler.Update lib repo ctx id decoded
  | .Delete id => ExerciseHandler.Delete repo ctx id

/-- The three routes as the router serves them: `WithAuth`, then the middleware of
the admin group, then the handler. -/
def serveExerciseMutation {σ : Type} (lib : Lib) (cfg : Config) (repo : Repository σ)
    (m : ExerciseMutation) (header : String) (w : World σ) : Response × World σ :=
  behindAuth lib cfg header (fun ctx => adminOnly ctx (m.handler lib repo ctx)) w

/-! ## One `Refresh` call as a sequence of steps -/

/-- Where a `Refresh` call stands: before verification, after it, after the
question to the store, after the user is loaded, after the new pair is issued, or
returned. -/
inductive RefreshThread where
  | start
  | verified (claims : Claims)
  | live (claims : Claims)
  | loaded (user : User)
  | issued (tokens : TokenPair) (user : User)
  | returned (result : Except GoError (TokenPair × User))
  deriving DecidableEq, Repr

/-- The next step of a `Refresh(refreshToken)` call: the statements of
`AuthService.Refresh` up to and including its next call on the repository.  Each
step makes at most one such call, and the repository serialises its calls. -/
def RefreshThread.step {σ : Type} (lib : Lib) (cfg : Config) (repo : Repository σ)
    (refreshToken : String) : RefreshThread → World σ → RefreshThread × World σ
  | .start, w =>
    match ParseToken lib refreshToken cfg.RefreshTokenSecret w with
    | (.error err, w1) => (.returned (.error err), w1)
    | (.ok claims, w1) => (.verified claims, w1)
  | .verified claims, w =>
    match repo.RefreshTokens.Exists (HashToken lib refreshToken) w with
    | (.error err, w1) => (.returned (.error err), w1)
    | (.ok false, w1) => (.returned (.error (.New "refresh token not found")), w1)
    | (.ok true, w1) => (.live claims, w1)
  | .live claims, w =>
    match repo.Users.GetByID claims.UserID w with
    | (.error err, w1) => (.returned (.error err), w1)
    | (.ok user, w1) => (.loaded user, w1)
  | .loaded user, w =>
    match AuthService.issueTokens lib cfg repo user.ID user.Role w with
    | (.error err, w1) => (.returned (.error err), w1)
    | (.ok tokens, w1) => (.issued tokens user, w1)
  | .issued tokens user, w =>
    match repo.RefreshTokens.Delete (HashToken lib refreshToken) w with
    | (.error err, w1) => (.returned (.error err), w1)
    | (.ok _, w1) => (.returned (.ok (tokens, user)), w1)
  | .returned result, w => (.returned result, w)

/-- A call run alone for `n` steps. -/
def RefreshThread.run {σ : Type} (lib : Lib) (cfg : Config) (repo : Repository σ)
    (refreshToken : String) : Nat → RefreshThread × World σ → RefreshThread × World σ
  | 0, s => s
  | n + 1, s => RefreshThread.run lib cfg repo refreshToken n
      (RefreshThread.step lib cfg repo refreshToken s.1 s.2)

/-- Two concurrent `Refresh` calls on one repository: `schedule` says, step by step,
which of the two calls moves (`true` for the first). -/
def RefreshThread.interleave {σ : Type} (lib : Lib) (cfg : Config) (repo : Repository σ)
    (tokenA tokenB : String) :
    List Bool → RefreshThread × RefreshThread × World σ → RefreshThread × RefreshThread × World σ
  | [], s => s
  | true :: schedule, (a, b, w) =>
    RefreshThread.interleave lib cfg repo tokenA tokenB schedule
      ((RefreshThread.step lib cfg repo tokenA a w).1, b,
       (RefreshThread.step lib cfg repo tokenA a w).2)
  | false :: schedule, (a, b, w) =>
    RefreshThread.interleave lib cfg repo tokenA tokenB schedule
      (a, (RefreshThread.step lib cfg repo tokenB b w).1,
       (RefreshThread.step lib cfg repo tokenB b w).2)

/-- The call has returned a token pair. -/
def RefreshThread.succeeded : RefreshThread → Bool
  | .returned (.ok _) => true
  | _ => false

/-- The call has returned the given error. -/
def RefreshThread.failedWith (err : GoError) : RefreshThread → Bool
  | .returned (.error e) => decide (e = err)
  | _ => false


/-- The world after the registration of the concrete run, with the user gone from the
store while the refresh-token record is still there. -/
def demoOrphaned : World memoryStore :=
  { demoRegistered with store := { demoRegistered.store with users := [] } }


/-- How the refresh-token records of a later world relate to those of an earlier one
when only the record of the token `own` (if any) may be deleted: every other record
of the earlier world is still there with its expiry, unless its key is a fingerprint
minted in between, in which case it is there with the expiry just saved. -/
def Kept (lib : Lib) (cfg : Config) (own : Option String) (w w1 : World memoryStore) : Prop :=
  w.uuidIdx ≤ w1.uuidIdx ∧
  ∀ k e, (∀ t, own = some t → k ≠ HashToken lib t) →
    mapGet w.store.refreshTokens k = some e →
    mapGet w1.store.refreshTokens k = some e ∨
      (Minted lib cfg w.uuidIdx w1.uuidIdx k ∧ ∃ e1, mapGet w1.store.refreshTokens k = some e1)


/-! ## A concrete run: the default exercises on the fresh store -/

/-- The exercise that `memoryExerciseRepo.Create` stores for a default exercise when
`n` uuids have been drawn and the clock has been read `n` times. -/
def demoExercise (n : Nat) (input : ExerciseInput) : Exercise :=
  { ID := demoLib.uuidNew n, Name := input.Name, Description := input.Description,
    MuscleGroup := input.MuscleGroup, Equipment := input.Equipment,
    CreatedAt := demoLib.clock n, UpdatedAt := demoLib.clock n }

/-- The world after `EnsureDefaults` on the fresh store: the five default exercises,
stored under the first five uuids. -/
def demoSeeded : World memoryStore :=
  { store :=
      { newMemoryStore with
        exercises := ((List.range 5).zip DefaultExercises).map
          (fun p => (demoLib.uuidNew p.1, demoExercise p.1 p.2)) }
    tick := 5
    uuidIdx := 5
    saltIdx := 0 }

/-- An update of the second default exercise that leaves the name empty. -/
def demoUpdate : ExerciseInput :=
  { ID := "uu", Name := "", Description := "Flat bench, feet on the floor.",
    MuscleGroup := "Chest", Equipment := "Dumbbell" }


/-- The uuids drawn from the `n`-th on are not keys of the map: what the freshness of
`uuid.NewString()` means for a store. -/
def uuidsUnused {α : Type} (lib : Lib) (m : List (String × α)) (n : Nat) : Prop :=
  ∀ i, n ≤ i → mapGet m (lib.uuidNew i) = none


/-- The fields of a stored workout entry that the caller submitted. -/
def WorkoutEntry.submitted (entry : WorkoutEntry) : WorkoutEntryInput :=
  { ExerciseID := entry.ExerciseID, Sets := entry.Sets, Reps := entry.Reps,
    Weight := entry.Weight, DurationSeconds := entry.DurationSeconds, Notes := entry.Notes }

/-- The workout calls of the concrete run: two sessions of user `u`, one of user
`v`, and one call without user id. -/
def demoWorkouts : List (String × WorkoutSessionInput) :=
  [ ("u", { StartedAt := 1700000100000000000, CompletedAt := 1700000200000000000,
            Entries :=
              [ { ExerciseID := "ex-squat", Sets := 5, Reps := 5, Weight := { bits := 0 },
                  DurationSeconds := 0, Notes := "" },
                { ExerciseID := "ex-plank", Sets := 3, Reps := 0, Weight := { bits := 0 },
                  DurationSeconds := 60, Notes := "hold" } ] }),
    ("v", { StartedAt := 0, CompletedAt := 0,
            Entries :=
              [ { ExerciseID := "ex-bench", Sets := 3, Reps := 8, Weight := { bits := 0 },
                  DurationSeconds := 0, Notes := "" } ] }),
    ("", { StartedAt := 0, CompletedAt := 0, Entries := [] }),
    ("u", { StartedAt := 1700000300000000000, CompletedAt := 0, Entries := [] }) ]


/-! ## Concrete instances at the edges of expiry and of bcrypt -/

/-- The concrete library with a clock that, from its `k`-th reading on, shows the
instant to which the expiry of the registration's refresh token is truncated when it
is signed, and one millisecond more at each later reading: instants at which the
signed expiry has been reached while the stored expiry, three milliseconds later,
has not passed. -/
def windowLib (k : Nat) : Lib :=
  { demoLib with
    clock := fun n =>
      if n < k then demoLib.clock n else 1700003600000000000 + 1000000 * ((n : Int) - k) }

/-- The concrete library with the length check of `bcrypt.GenerateFromPassword`,
which returns `ErrPasswordTooLong` for a password of more than 72 bytes. -/
def strictBcryptLib : Lib :=
  { demoLib with
    bcryptGenerate := fun password _ =>
      if 72 < password.utf8ByteSize then
        .error (.New "bcrypt: password length exceeds 72 bytes")
      else .ok ("$2a$10$" ++ password) }

/-- A password of 73 bytes. -/
def longPassword : String := String.mk (List.replicate 73 'a')


/-! ## Two interleaved `Refresh` calls: what holds at every moment -/

/-- A call that has got past verification was given a token that decodes. -/
def RefreshThread.Decoded (lib : Lib) (cfg : Config) (R : String) (x : RefreshThread) : Prop :=
  x = .start ∨ (∃ err, x = .returned (.error err)) ∨
    ∃ claims, lib.jwtDecode R cfg.RefreshTokenSecret = .ok claims

/-- The call has not yet asked the store whether the record exists: it stands before
or just after verification. -/
def RefreshThread.early : RefreshThread → Bool
  | .start => true
  | .verified _ => true
  | _ => false

/-- What holds of two interleaved calls on one token at every moment: a call past
verification was given a token that decodes, and when one call has returned a pair
while the other has not asked the store yet, the record is gone. -/
def RefreshThread.Settled (lib : Lib) (cfg : Config) (R : String)
    (st : RefreshThread × RefreshThread × World memoryStore) : Prop :=
  RefreshThread.Decoded lib cfg R st.1 ∧ RefreshThread.Decoded lib cfg R st.2.1 ∧
  (st.1.succeeded = true → st.2.1.early = true →
    mapGet st.2.2.store.refreshTokens (HashToken lib R) = none) ∧
  (st.2.1.succeeded = true → st.1.early = true →
    mapGet st.2.2.store.refreshTokens (HashToken lib R) = none)

/-! # Theorems -/
/-! ## Go maps -/

theorem mapDelete_cons_eq {α : Type} (rest : List (String × α)) (k : String) (v : α) :
    mapDelete ((k, v) :: rest) k = mapDelete rest k := by
  simp [mapDelete]

theorem mapDelete_cons_ne {α : Type} (rest : List (String × α)) (k k0 : String) (v : α)
    (h : k0 ≠ k) : mapDelete ((k0, v) :: rest) k = (k0, v) :: mapDelete rest k := by
  simp [mapDelete, h]

theorem mapGet_cons_eq {α : Type} (rest : List (String × α)) (k : String) (v : α) :
    mapGet ((k, v) :: rest) k = some v := by
  simp [mapGet]

theorem mapGet_cons_ne {α : Type} (rest : List (String × α)) (k k0 : String) (v : α)
    (h : k0 ≠ k) : mapGet ((k0, v) :: rest) k = mapGet rest k := by
  simp [mapGet, h]

theorem mapGet_mapDelete_self {α : Type} (m : List (String × α)) (k : String) :
    mapGet (mapDelete m k) k = none := by
  induction m with
  | nil => rfl
  | cons e rest ih =>
    obtain ⟨k', v⟩ := e
    by_cases h : k' = k
    · subst h; rw [mapDelete_cons_eq]; exact ih
    · rw [mapDelete_cons_ne _ _ _ _ h, mapGet_cons_ne _ _ _ _ h]; exact ih

theorem mapGet_mapDelete_ne {α : Type} (m : List (String × α)) (k k' : String) (h : k' ≠ k) :
    mapGet (mapDelete m k) k' = mapGet m k' := by
  induction m with
  | nil => rfl
  | cons e rest ih =>
    obtain ⟨k0, v⟩ := e
    by_cases h0 : k0 = k
    · subst h0
      rw [mapDelete_cons_eq, mapGet_cons_ne _ _ _ _ (Ne.symm h)]; exact ih
    · rw [mapDelete_cons_ne _ _ _ _ h0]
      by_cases h1 : k0 = k'
      · subst h1; rw [mapGet_cons_eq, mapGet_cons_eq]
      · rw [mapGet_cons_ne _ _ _ _ h1, mapGet_cons_ne _ _ _ _ h1]; exact ih

theorem mapGet_append {α : Type} (m n : List (String × α)) (k : String) :
    mapGet (m ++ n) k = (mapGet m k).orElse (fun _ => mapGet n k) := by
  induction m with
  | nil => rfl
  | cons e rest ih =>
    obtain ⟨k0, v⟩ := e
    by_cases h0 : k0 = k
    · subst h0; rw [List.cons_append, mapGet_cons_eq, mapGet_cons_eq]; rfl
    · rw [List.cons_append, mapGet_cons_ne _ _ _ _ h0, mapGet_cons_ne _ _ _ _ h0]; exact ih

theorem mapGet_mapSet_self {α : Type} (m : List (String × α)) (k : String) (v : α) :
    mapGet (mapSet m k v) k = some v := by
  rw [mapSet, mapGet_append, mapGet_mapDelete_self, mapGet_cons_eq]; rfl

theorem mapGet_mapSet_ne {α : Type} (m : List (String × α)) (k k' : String) (v : α)
    (h : k' ≠ k) : mapGet (mapSet m k v) k' = mapGet m k' := by
  rw [mapSet, mapGet_append, mapGet_mapDelete_ne _ _ _ h, mapGet_cons_ne _ _ _ _ (Ne.symm h)]
  cases mapGet m k' <;> rfl

theorem mapGet_eq_none_iff {α : Type} (m : List (String × α)) (k : String) :
    mapGet m k = none ↔ ∀ e ∈ m, e.1 ≠ k := by
  induction m with
  | nil => simp [mapGet]
  | cons e rest ih =>
    obtain ⟨k0, v⟩ := e
    by_cases h0 : k0 = k
    · simp [mapGet, h0]
    · simp [mapGet, h0, ih]

theorem mapDelete_of_absent {α : Type} (m : List (String × α)) (k : String)
    (h : mapGet m k = none) : mapDelete m k = m := by
  rw [mapGet_eq_none_iff] at h
  simp only [mapDelete]
  rw [List.filter_eq_self]
  intro e he
  simpa using h e he

theorem mapLen_mapSet_of_absent {α : Type} (m : List (String × α)) (k : String) (v : α)
    (h : mapGet m k = none) : mapLen (mapSet m k v) = mapLen m + 1 := by
  simp [mapSet, mapLen, mapDelete_of_absent m k h]

theorem mapWF_mapDelete {α : Type} (m : List (String × α)) (k : String) (h : mapWF m) :
    mapWF (mapDelete m k) := by
  unfold mapWF mapDelete at *
  exact (List.filter_sublist m).map Prod.fst |>.nodup h

theorem mapWF_mapSet {α : Type} (m : List (String × α)) (k : String) (v : α) (h : mapWF m) :
    mapWF (mapSet m k v) := by
  have hd := mapWF_mapDelete m k h
  unfold mapWF mapSet at *
  rw [List.map_append, List.nodup_append]
  refine ⟨hd, by simp, ?_⟩
  intro a ha hb
  simp at hb
  subst hb
  simp [mapDelete] at ha

theorem GenerateAccessToken_eq {σ : Type} (lib : Lib) (secret userID role : String)
    (ttl : Duration) (w : World σ) :
    GenerateAccessToken lib secret userID role ttl w =
      match lib.jwtSign secret (accessClaims lib userID role ttl w.tick) with
      | .error err => (.error err, { w with tick := w.tick + 2 })
      | .ok signed => (.ok (signed, lib.clock w.tick + ttl), { w with tick := w.tick + 2 }) := by
  rfl

theorem GenerateRefreshToken_eq {σ : Type} (lib : Lib) (secret userID : String)
    (ttl : Duration) (w : World σ) :
    GenerateRefreshToken lib secret userID ttl w =
      match lib.jwtSign secret (refreshClaims lib userID ttl w.tick w.uuidIdx) with
      | .error err => (.error err, { w with tick := w.tick + 2, uuidIdx := w.uuidIdx + 1 })
      | .ok signed => (.ok (signed, lib.clock w.tick + ttl),
          { w with tick := w.tick + 2, uuidIdx := w.uuidIdx + 1 }) := by
  rfl

theorem issueTokens_memory_ok (lib : Lib) (cfg : Config) (userID role : String)
    (w : World memoryStore) (access refresh : String)
    (ha : lib.jwtSign cfg.AccessTokenSecret
      (accessClaims lib userID role cfg.AccessTokenTTL w.tick) = .ok access)
    (hr : lib.jwtSign cfg.RefreshTokenSecret
      (refreshClaims lib userID cfg.RefreshTokenTTL (w.tick + 2) w.uuidIdx) = .ok refresh) :
    AuthService.issueTokens lib cfg (memoryRepository lib) userID role w =
      (.ok { AccessToken := access, RefreshToken := refresh,
             ExpiresIn := wholeSeconds (lib.clock w.tick + cfg.AccessTokenTTL -
               lib.clock (w.tick + 4)) },
       issuedWorld lib cfg refresh w) := by
  simp only [AuthService.issueTokens, GenerateAccessToken_eq, ha, GenerateRefreshToken_eq, hr,
    memoryRepository, memoryRefreshRepo.Save, timeNow, issuedWorld, Nat.add_assoc, Nat.reduceAdd]

theorem issueTokens_memory_inv (lib : Lib) (cfg : Config) (userID role : String)
    (w w1 : World memoryStore) (tokens : TokenPair)
    (h : AuthService.issueTokens lib cfg (memoryRepository lib) userID role w = (.ok tokens, w1)) :
    lib.jwtSign cfg.AccessTokenSecret
      (accessClaims lib userID role cfg.AccessTokenTTL w.tick) = .ok tokens.AccessToken ∧
    lib.jwtSign cfg.RefreshTokenSecret
      (refreshClaims lib userID cfg.RefreshTokenTTL (w.tick + 2) w.uuidIdx)
        = .ok tokens.RefreshToken ∧
    tokens.ExpiresIn = wholeSeconds (lib.clock w.tick + cfg.AccessTokenTTL -
               lib.clock (w.tick + 4)) ∧
    w1 = issuedWorld lib cfg tokens.RefreshToken w := by
  cases ha : lib.jwtSign cfg.AccessTokenSecret
      (accessClaims lib userID role cfg.AccessTokenTTL w.tick) with
  | error err =>
    simp [AuthService.issueTokens, GenerateAccessToken_eq, ha] at h
  | ok access =>
    cases hr : lib.jwtSign cfg.RefreshTokenSecret
      (refreshClaims lib userID cfg.RefreshTokenTTL (w.tick + 2) w.uuidIdx) with
    | error err =>
      simp [AuthService.issueTokens, GenerateAccessToken_eq, ha, GenerateRefreshToken_eq, hr] at h
    | ok refresh =>
      rw [issueTokens_memory_ok lib cfg userID role w access refresh ha hr] at h
      simp only [Prod.mk.injEq, Except.ok.injEq] at h
      obtain ⟨h1, h2⟩ := h
      subst h1
      exact ⟨rfl, rfl, rfl, h2.symm⟩

/-- on failure nothing is stored -/
theorem issueTokens_memory_err (lib : Lib) (cfg : Config) (userID role : String)
    (w w1 : World memoryStore) (err : GoError)
    (h : AuthService.issueTokens lib cfg (memoryRepository lib) userID role w = (.error err, w1)) :
    w1.store = w.store ∧ w.uuidIdx ≤ w1.uuidIdx := by
  cases ha : lib.jwtSign cfg.AccessTokenSecret
      (accessClaims lib userID role cfg.AccessTokenTTL w.tick) with
  | error err =>
    simp [AuthService.issueTokens, GenerateAccessToken_eq, ha] at h
    obtain ⟨_, h2⟩ := h
    subst h2
    exact ⟨rfl, le_refl _⟩
  | ok access =>
    cases hr : lib.jwtSign cfg.RefreshTokenSecret
      (refreshClaims lib userID cfg.RefreshTokenTTL (w.tick + 2) w.uuidIdx) with
    | error err =>
      simp [AuthService.issueTokens, GenerateAccessToken_eq, ha, GenerateRefreshToken_eq, hr] at h
      obtain ⟨_, h2⟩ := h
      subst h2
      exact ⟨rfl, Nat.le_succ _⟩
    | ok refresh =>
      rw [issueTokens_memory_ok lib cfg userID role w access refresh ha hr] at h
      simp at h

/-! ## Verification and the record check -/

theorem NewNumericDate_le (t : Time) : NewNumericDate t ≤ t := by
  have h := Int.emod_nonneg t (show (1000000000 : Int) ≠ 0 by norm_num)
  change t - t % (1000000000 : Int) ≤ t
  exact Int.sub_le_self t h

theorem NewNumericDate_gt (t : Time) : t < NewNumericDate t + Second := by
  have h := Int.emod_lt_of_pos t (show (0 : Int) < 1000000000 by norm_num)
  change t < t - t % (1000000000 : Int) + (1000000000 : Int)
  linarith

theorem ParseToken_eq {σ : Type} (lib : Lib) (tokenStr secret : String) (w : World σ) :
    ParseToken lib tokenStr secret w =
      match lib.jwtDecode tokenStr secret with
      | .error err => (.error err, w)
      | .ok claims =>
        match claims.ExpiresAt with
        | none => (.ok claims, { w with tick := w.tick + 1 })
        | some exp =>
          if lib.clock w.tick < exp then (.ok claims, { w with tick := w.tick + 1 })
          else (.error ErrTokenExpired, { w with tick := w.tick + 1 }) := by
  unfold ParseToken jwtParseWithClaims timeNow
  cases lib.jwtDecode tokenStr secret with
  | error err => rfl
  | ok claims =>
    cases hexp : claims.ExpiresAt with
    | none => simp [hexp]
    | some exp =>
      by_cases h : lib.clock w.tick < exp <;> simp [hexp, h]

/-- A token that decodes and whose expiry the clock has not reached is accepted. -/
theorem ParseToken_ok {σ : Type} (lib : Lib) (tokenStr secret : String) (w : World σ)
    (claims : Claims) (hdec : lib.jwtDecode tokenStr secret = .ok claims)
    (hexp : ∀ exp, claims.ExpiresAt = some exp → lib.clock w.tick < exp) :
    ParseToken lib tokenStr secret w = (.ok claims, { w with tick := w.tick + 1 }) := by
  cases h : claims.ExpiresAt with
  | none => simp [ParseToken_eq, hdec, h]
  | some exp => simp [ParseToken_eq, hdec, h, hexp exp h]

/-- Whatever `ParseToken` answers, it leaves the store and the counters of uuids and
salts alone. -/
theorem ParseToken_world {σ : Type} (lib : Lib) (tokenStr secret : String) (w : World σ) :
    (ParseToken lib tokenStr secret w).2.store = w.store ∧
    (ParseToken lib tokenStr secret w).2.uuidIdx = w.uuidIdx ∧
    (ParseToken lib tokenStr secret w).2.saltIdx = w.saltIdx := by
  cases hd : lib.jwtDecode tokenStr secret with
  | error err => simp [ParseToken_eq, hd]
  | ok claims =>
    cases he : claims.ExpiresAt with
    | none => simp [ParseToken_eq, hd, he]
    | some exp => by_cases h : lib.clock w.tick < exp <;> simp [ParseToken_eq, hd, he, h]

/-- A success of `ParseToken` returns the decoded claims, one clock reading later,
and the reading was before the signed expiry. -/
theorem ParseToken_inv {σ : Type} (lib : Lib) (tokenStr secret : String) (w w1 : World σ)
    (claims : Claims) (h : ParseToken lib tokenStr secret w = (.ok claims, w1)) :
    lib.jwtDecode tokenStr secret = .ok claims ∧ w1 = { w with tick := w.tick + 1 } ∧
    ∀ exp, claims.ExpiresAt = some exp → lib.clock w.tick < exp := by
  cases hd : lib.jwtDecode tokenStr secret with
  | error err => simp [ParseToken_eq, hd] at h
  | ok c =>
    cases he : c.ExpiresAt with
    | none =>
      simp [ParseToken_eq, hd, he] at h
      obtain ⟨h1, h2⟩ := h
      subst h1
      exact ⟨rfl, h2.symm, fun exp hx => by simp [he] at hx⟩
    | some exp =>
      by_cases hlt : lib.clock w.tick < exp
      · simp [ParseToken_eq, hd, he, hlt] at h
        obtain ⟨h1, h2⟩ := h
        subst h1
        refine ⟨rfl, h2.symm, fun exp1 hx => ?_⟩
        rw [he] at hx
        simp at hx
        rw [← hx]; exact hlt
      · simp [ParseToken_eq, hd, he, hlt] at h

/-- An absent record answers false and nothing changes. -/
theorem Exists_absent (lib : Lib) (token : String) (w : World memoryStore)
    (h : mapGet w.store.refreshTokens token = none) :
    memoryRefreshRepo.Exists lib token w = (.ok false, w) := by
  simp [memoryRefreshRepo.Exists, h]

/-- A record whose expiry the clock has not passed answers true. -/
theorem Exists_live (lib : Lib) (token : String) (w : World memoryStore) (e : Time)
    (h : mapGet w.store.refreshTokens token = some e) (hnow : lib.clock w.tick ≤ e) :
    memoryRefreshRepo.Exists lib token w = (.ok true, { w with tick := w.tick + 1 }) := by
  have : ¬ (lib.clock w.tick > e) := not_lt.mpr hnow
  simp [memoryRefreshRepo.Exists, h, timeNow, this]

/-- When `Exists` answers true the record is there, unexpired, and stays. -/
theorem Exists_true_inv (lib : Lib) (token : String) (w w1 : World memoryStore)
    (h : memoryRefreshRepo.Exists lib token w = (.ok true, w1)) :
    (∃ e, mapGet w.store.refreshTokens token = some e ∧ lib.clock w.tick ≤ e) ∧
    w1 = { w with tick := w.tick + 1 } := by
  cases hg : mapGet w.store.refreshTokens token with
  | none => simp [memoryRefreshRepo.Exists, hg] at h
  | some e =>
    by_cases hlt : lib.clock w.tick > e
    · simp [memoryRefreshRepo.Exists, hg, timeNow, hlt] at h
    · simp [memoryRefreshRepo.Exists, hg, timeNow, hlt] at h
      exact ⟨⟨e, rfl, not_lt.mp hlt⟩, h.symm⟩

/-! ## Register, Login and Refresh over the in-memory repository -/

theorem users_any_false_iff (users : List (String × User)) (email : String) :
    users.any (fun e => decide (e.2.Email = email)) = false ↔ ∀ e ∈ users, e.2.Email ≠ email := by
  simp [List.any_eq_false]

/-- The call `Create` of a user without id whose email is not taken. -/
theorem Create_new_ok (lib : Lib) (email hashed : String) (role : Role) (w : World memoryStore)
    (hnone : ∀ e ∈ w.store.users, e.2.Email ≠ email) :
    memoryUserRepo.Create lib
        { ID := "", Email := email, PasswordHash := hashed, Role := role, CreatedAt := 0 } w =
      (.ok (createdUser lib email hashed role w), createdWorld lib email hashed role w) := by
  have h := (users_any_false_iff w.store.users email).mpr hnone
  simp [memoryUserRepo.Create, h, uuidNewString, timeNow, createdUser, createdWorld]

/-- The call `Create` of a user whose email is taken. -/
theorem Create_dup (lib : Lib) (user : User) (w : World memoryStore)
    (hdup : ∃ e ∈ w.store.users, e.2.Email = user.Email) :
    memoryUserRepo.Create lib user w = (.error (.New "user already exists"), w) := by
  have h : w.store.users.any (fun e => decide (e.2.Email = user.Email)) = true := by
    simpa [List.any_eq_true] using hdup
  simp [memoryUserRepo.Create, h]

/-- The call `Register` over the in-memory repository, when it succeeds. -/
theorem Register_memory_inv (lib : Lib) (cfg : Config) (email password : String)
    (w w1 : World memoryStore) (resp : AuthResponse)
    (h : AuthService.Register lib cfg (memoryRepository lib)
      { Email := email, Password := password } w = (.ok resp, w1)) :
    ∃ hashed, lib.bcryptGenerate password w.saltIdx = .ok hashed ∧
      (∀ e ∈ w.store.users, e.2.Email ≠ email) ∧
      resp.User = createdUser lib email hashed RoleUser w ∧
      AuthService.issueTokens lib cfg (memoryRepository lib) resp.User.ID RoleUser
        (createdWorld lib email hashed RoleUser (saltDrawn w)) = (.ok resp.TokenPair, w1) := by
  cases hb : lib.bcryptGenerate password w.saltIdx with
  | error err => simp [AuthService.Register, bcryptGenerateFromPassword, hb] at h
  | ok hashed =>
    by_cases hdup : ∃ e ∈ w.store.users, e.2.Email = email
    · have hc := Create_dup lib
        { ID := "", Email := email, PasswordHash := hashed, Role := RoleUser, CreatedAt := 0 }
        (saltDrawn w) hdup
      simp only [saltDrawn] at hc
      simp [AuthService.Register, bcryptGenerateFromPassword, hb, memoryRepository, hc] at h
    · push_neg at hdup
      have hc := Create_new_ok lib email hashed RoleUser (saltDrawn w) hdup
      refine ⟨hashed, rfl, hdup, ?_⟩
      simp only [saltDrawn] at hc
      simp only [AuthService.Register, bcryptGenerateFromPassword, hb, memoryRepository, hc] at h
      revert h
      generalize hi : AuthService.issueTokens lib cfg _ _ _ _ = r
      obtain ⟨res, w2⟩ := r
      cases res with
      | error err => intro h; simp at h
      | ok tokens =>
        intro h
        simp only [Prod.mk.injEq, Except.ok.injEq] at h
        obtain ⟨h1, h2⟩ := h
        subst h1 h2
        refine ⟨rfl, ?_⟩
        exact hi

/-- The call `Register` over the in-memory repository succeeds when hashing and signing do. -/
theorem Register_memory_ok (lib : Lib) (cfg : Config) (email password hashed : String)
    (w : World memoryStore) (hsign : lib.JwtSigns)
    (hb : lib.bcryptGenerate password w.saltIdx = .ok hashed)
    (hnone : ∀ e ∈ w.store.users, e.2.Email ≠ email) :
    ∃ tokens, AuthService.Register lib cfg (memoryRepository lib)
      { Email := email, Password := password } w =
        (.ok { User := createdUser lib email hashed RoleUser w, TokenPair := tokens },
         issuedWorld lib cfg tokens.RefreshToken
           (createdWorld lib email hashed RoleUser (saltDrawn w))) := by
  have hc := Create_new_ok lib email hashed RoleUser (saltDrawn w) hnone
  obtain ⟨access, ha⟩ := hsign cfg.AccessTokenSecret
    (accessClaims lib (lib.uuidNew w.uuidIdx) RoleUser cfg.AccessTokenTTL (w.tick + 1))
  obtain ⟨refresh, hr⟩ := hsign cfg.RefreshTokenSecret
    (refreshClaims lib (lib.uuidNew w.uuidIdx) cfg.RefreshTokenTTL (w.tick + 1 + 2)
      (w.uuidIdx + 1))
  have hi := issueTokens_memory_ok lib cfg (lib.uuidNew w.uuidIdx) RoleUser
    (createdWorld lib email hashed RoleUser (saltDrawn w)) access refresh ha hr
  have hreg : AuthService.Register lib cfg (memoryRepository lib)
      { Email := email, Password := password } w =
      (.ok { User := createdUser lib email hashed RoleUser w,
             TokenPair :=
              { AccessToken := access
                RefreshToken := refresh
                ExpiresIn := wholeSeconds
                  (lib.clock (w.tick + 1) + cfg.AccessTokenTTL - lib.clock (w.tick + 1 + 4)) } },
       issuedWorld lib cfg refresh (createdWorld lib email hashed RoleUser (saltDrawn w))) := by
    simp only [saltDrawn] at hc hi
    simp only [AuthService.Register, bcryptGenerateFromPassword, hb, memoryRepository, hc]
    simp only [memoryRepository] at hi
    simp only [createdUser, saltDrawn] at hi ⊢
    rw [hi]
    rfl
  exact ⟨_, hreg⟩

/-- The call `Login` over the in-memory repository, when it succeeds. -/
theorem Login_memory_inv (lib : Lib) (cfg : Config) (email password : String)
    (w w1 : World memoryStore) (resp : AuthResponse)
    (h : AuthService.Login lib cfg (memoryRepository lib) email password w = (.ok resp, w1)) :
    ∃ entry, w.store.users.find? (fun e => decide (e.2.Email = email)) = some entry ∧
      resp.User = entry.2 ∧
      lib.bcryptCompare entry.2.PasswordHash password = .ok () ∧
      AuthService.issueTokens lib cfg (memoryRepository lib) resp.User.ID resp.User.Role w =
        (.ok resp.TokenPair, w1) := by
  cases hf : w.store.users.find? (fun e => decide (e.2.Email = email)) with
  | none => simp [AuthService.Login, memoryRepository, memoryUserRepo.GetByEmail, hf] at h
  | some entry =>
    cases hb : lib.bcryptCompare entry.2.PasswordHash password with
    | error err =>
      simp [AuthService.Login, memoryRepository, memoryUserRepo.GetByEmail, hf, hb] at h
    | ok u =>
      refine ⟨entry, rfl, ?_⟩
      simp only [AuthService.Login, memoryRepository, memoryUserRepo.GetByEmail, hf, hb] at h
      revert h
      generalize hi : AuthService.issueTokens lib cfg _ _ _ _ = r
      obtain ⟨res, w2⟩ := r
      cases res with
      | error err => intro h; simp at h
      | ok tokens =>
        intro h
        simp only [Prod.mk.injEq, Except.ok.injEq] at h
        obtain ⟨h1, h2⟩ := h
        subst h1 h2
        exact ⟨rfl, hb, hi⟩

/-- The call `Login` over the in-memory repository succeeds for a stored user whose hash
verifies the password, when signing succeeds. -/
theorem Login_memory_ok (lib : Lib) (cfg : Config) (email password : String)
    (w : World memoryStore) (entry : String × User) (hsign : lib.JwtSigns)
    (hf : w.store.users.find? (fun e => decide (e.2.Email = email)) = some entry)
    (hb : lib.bcryptCompare entry.2.PasswordHash password = .ok ()) :
    ∃ tokens, AuthService.Login lib cfg (memoryRepository lib) email password w =
      (.ok { User := entry.2, TokenPair := tokens },
       issuedWorld lib cfg tokens.RefreshToken w) := by
  obtain ⟨access, ha⟩ := hsign cfg.AccessTokenSecret
    (accessClaims lib entry.2.ID entry.2.Role cfg.AccessTokenTTL w.tick)
  obtain ⟨refresh, hr⟩ := hsign cfg.RefreshTokenSecret
    (refreshClaims lib entry.2.ID cfg.RefreshTokenTTL (w.tick + 2) w.uuidIdx)
  have hi := issueTokens_memory_ok lib cfg entry.2.ID entry.2.Role w access refresh ha hr
  have hlog : AuthService.Login lib cfg (memoryRepository lib) email password w =
      (.ok { User := entry.2,
             TokenPair :=
              { AccessToken := access
                RefreshToken := refresh
                ExpiresIn := wholeSeconds
                  (lib.clock w.tick + cfg.AccessTokenTTL - lib.clock (w.tick + 4)) } },
       issuedWorld lib cfg refresh w) := by
    simp only [memoryRepository] at hi
    simp only [AuthService.Login, memoryRepository, memoryUserRepo.GetByEmail, hf, hb, hi]
  exact ⟨_, hlog⟩

/-- The call `Refresh` over the in-memory repository, when it succeeds. -/
theorem Refresh_memory_inv (lib : Lib) (cfg : Config) (R : String) (w w1 : World memoryStore)
    (tokens : TokenPair) (user : User)
    (h : AuthService.Refresh lib cfg (memoryRepository lib) R w = (.ok (tokens, user), w1)) :
    ∃ claims e, lib.jwtDecode R cfg.RefreshTokenSecret = .ok claims ∧
      (∀ exp, claims.ExpiresAt = some exp → lib.clock w.tick < exp) ∧
      mapGet w.store.refreshTokens (HashToken lib R) = some e ∧
      lib.clock (w.tick + 1) ≤ e ∧
      mapGet w.store.users claims.UserID = some user ∧
      lib.jwtSign cfg.RefreshTokenSecret
        (refreshClaims lib user.ID cfg.RefreshTokenTTL (w.tick + 4) w.uuidIdx) =
          .ok tokens.RefreshToken ∧
      w1 = rotatedWorld lib cfg R tokens.RefreshToken w := by
  unfold AuthService.Refresh at h
  revert h
  generalize hp : ParseToken lib R cfg.RefreshTokenSecret w = r1
  obtain ⟨res1, w2⟩ := r1
  cases res1 with
  | error err => intro h; simp at h
  | ok claims =>
    obtain ⟨hdec, hw2, hexp⟩ := ParseToken_inv lib R cfg.RefreshTokenSecret w w2 claims hp
    subst hw2
    simp only [memoryRepository]
    generalize hx : memoryRefreshRepo.Exists lib (HashToken lib R) _ = r2
    obtain ⟨res2, w3⟩ := r2
    cases res2 with
    | error err => intro h; simp at h
    | ok b =>
      cases b with
      | false => intro h; simp at h
      | true =>
        obtain ⟨⟨e, hrec, hnow⟩, hw3⟩ := Exists_true_inv lib _ _ _ hx
        subst hw3
        cases hu : mapGet w.store.users claims.UserID with
        | none => intro h; simp [memoryUserRepo.GetByID, hu] at h
        | some u =>
          simp only [memoryUserRepo.GetByID, hu]
          generalize hi : AuthService.issueTokens lib cfg _ _ _ _ = r3
          obtain ⟨res3, w4⟩ := r3
          cases res3 with
          | error err => intro h; simp at h
          | ok toks =>
            intro h
            simp only [memoryRefreshRepo.Delete, Prod.mk.injEq, Except.ok.injEq] at h
            obtain ⟨⟨h1, h2⟩, h3⟩ := h
            subst h1 h2
            have hinv := issueTokens_memory_inv lib cfg _ _ _ _ _ hi
            obtain ⟨_, hr, _, hw4⟩ := hinv
            subst hw4
            refine ⟨claims, e, hdec, hexp, hrec, hnow, hu, ?_, ?_⟩
            · simpa [Nat.add_assoc] using hr
            · rw [← h3]; simp [rotatedWorld, Nat.add_assoc]

/-- The call `Refresh` of a token that verifies but has no record. -/
theorem Refresh_memory_absent (lib : Lib) (cfg : Config) (R : String) (w : World memoryStore)
    (claims : Claims)
    (hdec : lib.jwtDecode R cfg.RefreshTokenSecret = .ok claims)
    (hexp : ∀ exp, claims.ExpiresAt = some exp → lib.clock w.tick < exp)
    (hrec : mapGet w.store.refreshTokens (HashToken lib R) = none) :
    AuthService.Refresh lib cfg (memoryRepository lib) R w =
      (.error (.New "refresh token not found"), { w with tick := w.tick + 1 }) := by
  have hp := ParseToken_ok lib R cfg.RefreshTokenSecret w claims hdec hexp
  have hx := Exists_absent lib (HashToken lib R) { w with tick := w.tick + 1 } hrec
  simp only [AuthService.Refresh, hp, memoryRepository, hx]

/-- The call `Refresh` of a token without record fails, whatever else holds. -/
theorem Refresh_memory_absent_fails (lib : Lib) (cfg : Config) (R : String)
    (w : World memoryStore)
    (hrec : mapGet w.store.refreshTokens (HashToken lib R) = none) :
    ∃ err w1, AuthService.Refresh lib cfg (memoryRepository lib) R w = (.error err, w1) := by
  cases hr : AuthService.Refresh lib cfg (memoryRepository lib) R w with
  | mk res w1 =>
    cases res with
    | error err => exact ⟨err, w1, rfl⟩
    | ok p =>
      obtain ⟨tokens, user⟩ := p
      obtain ⟨_, e, _, _, hrec1, _⟩ := Refresh_memory_inv lib cfg R w w1 tokens user hr
      rw [hrec] at hrec1
      simp at hrec1

theorem mapGet_some_mem {α : Type} (m : List (String × α)) (k : String) (v : α)
    (h : mapGet m k = some v) : (k, v) ∈ m := by
  induction m with
  | nil => simp [mapGet] at h
  | cons e rest ih =>
    obtain ⟨k0, v0⟩ := e
    by_cases h0 : k0 = k
    · subst h0
      rw [mapGet_cons_eq] at h
      simp at h
      subst h
      exact List.mem_cons_self _ _
    · rw [mapGet_cons_ne _ _ _ _ h0] at h
      exact List.mem_cons_of_mem _ (ih h)

/-- Tokens signed from different claims with one secret differ. -/
theorem jwtSign_injective (lib : Lib) (hrt : lib.JwtRoundTrip) (secret token : String)
    (c1 c2 : Claims) (h1 : lib.jwtSign secret c1 = .ok token)
    (h2 : lib.jwtSign secret c2 = .ok token) : c1 = c2 := by
  have e1 := hrt secret c1 token h1
  have e2 := hrt secret c2 token h2
  rw [e1] at e2
  simpa using e2

theorem demoDecField_enc (s rest : List Char) :
    demoDecField (demoEncField s ++ rest) = some (s, rest) := by
  induction s with
  | nil =>
    show demoDecField ('0' :: rest) = some ([], rest)
    rw [demoDecField.eq_def]
    simp
  | cons c cs ih =>
    show demoDecField ('1' :: c :: (demoEncField cs ++ rest)) = some (c :: cs, rest)
    rw [demoDecField.eq_def]
    simp [ih]

theorem demoBitsNat_bits (fuel n : Nat) (h : n ≤ fuel) :
    demoBitsNat (demoNatBits fuel n) = n := by
  induction fuel generalizing n with
  | zero =>
    have : n = 0 := by omega
    subst this
    simp [demoNatBits, demoBitsNat]
  | succ f ih =>
    by_cases h0 : n = 0
    · subst h0; simp [demoNatBits, demoBitsNat]
    · have hle : n / 2 ≤ f := by omega
      have hrec := ih (n / 2) hle
      by_cases h1 : n % 2 = 1
      · simp [demoNatBits, h0, h1, demoBitsNat, hrec]; omega
      · simp [demoNatBits, h0, h1, demoBitsNat, hrec]; omega

theorem neg_natAbs_of_neg (t : Int) (h : t < 0) : (-(t.natAbs : Int)) = t := by omega

theorem natAbs_of_not_neg (t : Int) (h : ¬ t < 0) : ((t.natAbs : Nat) : Int) = t := by omega

theorem demoDecTime_enc (t : Option Time) : demoDecTime (demoEncTime t) = some t := by
  cases t with
  | none => rfl
  | some t =>
    by_cases hneg : t < 0
    · simp only [demoEncTime, hneg, if_true, demoDecTime]
      rw [demoBitsNat_bits _ _ (le_refl _), neg_natAbs_of_neg t hneg]
      simp
    · simp only [demoEncTime, hneg, if_false, demoDecTime]
      rw [demoBitsNat_bits _ _ (le_refl _), natAbs_of_not_neg t hneg]
      simp

theorem demoClaims_enc (claims : Claims) :
    demoClaims (demoEncField claims.UserID.data ++
      (demoEncField claims.Role.data ++ (demoEncField claims.ID.data ++
      (demoEncField claims.Subject.data ++ (demoEncField (demoEncTime claims.ExpiresAt) ++
      demoEncField (demoEncTime claims.IssuedAt)))))) = some claims := by
  have hlast : demoDecField (demoEncField (demoEncTime claims.IssuedAt)) =
      some (demoEncTime claims.IssuedAt, []) := by
    have := demoDecField_enc (demoEncTime claims.IssuedAt) []
    simpa using this
  simp only [demoClaims, demoDecField_enc, hlast, demoDecTime_enc]

theorem demoDecode_sign (secret : String) (claims : Claims) :
    demoDecode (demoSign secret claims) secret = .ok claims := by
  simp only [demoDecode, demoSign, demoDecField_enc, demoClaims_enc]
  simp

theorem demoDecode_other (secret other : String) (claims : Claims) (h : other ≠ secret) :
    demoDecode (demoSign secret claims) other =
      .error (.New "token signature is invalid: signature is invalid") := by
  simp only [demoDecode, demoSign, demoDecField_enc]
  have : ¬ (String.mk secret.data = other) := fun h1 => h h1.symm
  simp [this]

theorem demoLib_roundtrip : demoLib.JwtRoundTrip := by
  intro secret claims token h
  simp only [demoLib, Except.ok.injEq] at h
  subst h
  exact demoDecode_sign secret claims

theorem demoLib_signs : demoLib.JwtSigns := fun secret claims => ⟨demoSign secret claims, rfl⟩

theorem demoLib_key_separation : demoLib.JwtKeySeparation := by
  intro secret other claims token h hne
  simp only [demoLib, Except.ok.injEq] at h
  subst h
  exact ⟨_, demoDecode_other secret other claims hne⟩

theorem demoLib_uuid_fresh : demoLib.UuidFresh := by
  intro a b h
  simp only [demoLib] at h
  have := congrArg (fun s => s.data.length) h
  simpa using this

theorem demoLib_collision_free : demoLib.HashCollisionFree := fun _ _ h => h

theorem demoLib_bcrypt_sound : demoLib.BcryptSound := by
  intro password n hashed h
  simp only [demoLib, Except.ok.injEq] at h
  subst h
  simp [demoLib]

/-- The registration of the concrete run succeeds with the stated answer and world. -/
theorem demo_register :
    AuthService.Register demoLib demoCfg (memoryRepository demoLib) demoRequest demoWorld =
      (.ok demoResponse, demoRegistered) := by
  decide!

/-! ## C5: register then login, and what a duplicate registration meets -/

theorem countP_email_mapSet (users : List (String × User)) (id : String) (user : User)
    (hnone : ∀ e ∈ users, e.2.Email ≠ user.Email) :
    (mapSet users id user).countP (fun e => decide (e.2.Email = user.Email)) = 1 := by
  have h0 : (mapDelete users id).countP (fun e => decide (e.2.Email = user.Email)) = 0 := by
    rw [List.countP_eq_zero]
    intro e he
    have : e ∈ users := List.mem_of_mem_filter he
    simpa using hnone e this
  simp [mapSet, List.countP_append, h0]

theorem find_email_mapSet (users : List (String × User)) (id : String) (user : User)
    (hnone : ∀ e ∈ users, e.2.Email ≠ user.Email) :
    (mapSet users id user).find? (fun e => decide (e.2.Email = user.Email)) = some (id, user) := by
  have h0 : (mapDelete users id).find? (fun e => decide (e.2.Email = user.Email)) = none := by
    rw [List.find?_eq_none]
    intro e he
    have : e ∈ users := List.mem_of_mem_filter he
    simpa using hnone e this
  simp [mapSet, List.find?_append, h0]

/-- The call `Register` of an email that is taken: the password is hashed, then `Create`
refuses. -/
theorem Register_memory_dup (lib : Lib) (cfg : Config) (email password hashed : String)
    (w : World memoryStore)
    (hb : lib.bcryptGenerate password w.saltIdx = .ok hashed)
    (hdup : ∃ e ∈ w.store.users, e.2.Email = email) :
    AuthService.Register lib cfg (memoryRepository lib)
      { Email := email, Password := password } w =
        (.error (.New "user already exists"), saltDrawn w) := by
  have hc := Create_dup lib ⟨"", email, hashed, RoleUser, 0⟩ (saltDrawn w) hdup
  simp only [saltDrawn] at hc
  simp [AuthService.Register, bcryptGenerateFromPassword, hb, memoryRepository, hc, saltDrawn]

/-- C5 (register then login).  Over the in-memory repository, when `Register(e, p)`
succeeds, signing succeeds and a bcrypt hash verifies the password it was made from,
the `Login(e, p)` that follows succeeds and returns the user `Register` returned, so
the same id. -/
theorem register_then_login (lib : Lib) (cfg : Config) (w0 w1 : World memoryStore)
    (e p : String) (resp : AuthResponse) (hsign : lib.JwtSigns) (hsound : lib.BcryptSound)
    (hreg : AuthService.Register lib cfg (memoryRepository lib)
      { Email := e, Password := p } w0 = (.ok resp, w1)) :
    ∃ resp2 w2, AuthService.Login lib cfg (memoryRepository lib) e p w1 = (.ok resp2, w2) ∧
      resp2.User = resp.User ∧ resp2.User.ID = resp.User.ID := by
  obtain ⟨hashed, hb, hnone, hu, hi⟩ := Register_memory_inv lib cfg e p w0 w1 resp hreg
  obtain ⟨_, _, _, hw1⟩ := issueTokens_memory_inv lib cfg _ _ _ _ _ hi
  have hf : w1.store.users.find? (fun en => decide (en.2.Email = e)) =
      some (lib.uuidNew w0.uuidIdx, resp.User) := by
    rw [hw1, hu]
    simp only [issuedWorld, createdWorld, saltDrawn]
    exact find_email_mapSet w0.store.users _ (createdUser lib e hashed RoleUser _) hnone
  have hcmp : lib.bcryptCompare resp.User.PasswordHash p = .ok () := by
    rw [hu]; exact hsound p _ hashed hb
  obtain ⟨tokens, hlogin⟩ := Login_memory_ok lib cfg e p w1 _ hsign hf hcmp
  exact ⟨_, _, hlogin, rfl, rfl⟩

/-- The theorem of C5 on the concrete run. -/
theorem register_then_login_witness :
    ∃ resp2 w2, AuthService.Login demoLib demoCfg (memoryRepository demoLib)
        "athlete@example.com" "Passw0rd!" demoRegistered = (.ok resp2, w2) ∧
      resp2.User = demoResponse.User ∧ resp2.User.ID = demoResponse.User.ID :=
  register_then_login demoLib demoCfg demoWorld demoRegistered "athlete@example.com" "Passw0rd!"
    demoResponse demoLib_signs demoLib_bcrypt_sound demo_register

/-! ## C7: access-token round trip -/

/-- Over any repository, the access token of an issued pair is the signature of the
access claims for that user and role. -/
theorem issueTokens_access_inv {σ : Type} (lib : Lib) (cfg : Config) (repo : Repository σ)
    (userID role : String) (w w1 : World σ) (tokens : TokenPair)
    (h : AuthService.issueTokens lib cfg repo userID role w = (.ok tokens, w1)) :
    lib.jwtSign cfg.AccessTokenSecret
      (accessClaims lib userID role cfg.AccessTokenTTL w.tick) = .ok tokens.AccessToken := by
  cases ha : lib.jwtSign cfg.AccessTokenSecret
      (accessClaims lib userID role cfg.AccessTokenTTL w.tick) with
  | error err => simp [AuthService.issueTokens, GenerateAccessToken_eq, ha] at h
  | ok access =>
    simp only [AuthService.issueTokens, GenerateAccessToken_eq, ha] at h
    revert h
    generalize GenerateRefreshToken lib cfg.RefreshTokenSecret userID cfg.RefreshTokenTTL _ = r
    obtain ⟨res, w2⟩ := r
    cases res with
    | error err => intro h; simp at h
    | ok p =>
      obtain ⟨refresh, refreshExp⟩ := p
      simp only []
      generalize repo.RefreshTokens.Save _ _ _ _ = r2
      obtain ⟨res2, w3⟩ := r2
      cases res2 with
      | error err => intro h; simp at h
      | ok u =>
        intro h
        simp only [timeNow, Prod.mk.injEq, Except.ok.injEq] at h
        rw [← h.1]

/-- C7, amended (access-token round trip).  When signing succeeds and a signed token
decodes to its claims, `GenerateAccessToken(secret, userID, role, ttl)` returns a
token and the expiry `now + ttl`; the token carries that expiry truncated to the
whole second, and `ParseToken(token, secret)` at any clock reading before that
signed expiry succeeds with `UserID = userID` and `Role = role`.  The same holds for
the access token of a pair that `issueTokens` issues to a user, over any
repository. -/
theorem access_token_round_trip {σ : Type} (lib : Lib) (secret userID role : String)
    (ttl : Duration) (w w2 : World σ) (hrt : lib.JwtRoundTrip) (hsign : lib.JwtSigns)
    (hbefore : lib.clock w2.tick < NewNumericDate (lib.clock w.tick + ttl)) :
    (∃ token w1,
      GenerateAccessToken lib secret userID role ttl w =
        (.ok (token, lib.clock w.tick + ttl), w1) ∧
      ∃ claims w3, ParseToken lib token secret w2 = (.ok claims, w3) ∧
        claims.UserID = userID ∧ claims.Role = role ∧
        claims.ExpiresAt = some (NewNumericDate (lib.clock w.tick + ttl))) ∧
    (∀ (cfg : Config) (repo : Repository σ) (tokens : TokenPair) (w1 : World σ),
      cfg.AccessTokenSecret = secret → cfg.AccessTokenTTL = ttl →
      AuthService.issueTokens lib cfg repo userID role w = (.ok tokens, w1) →
      ∃ claims w3, ParseToken lib tokens.AccessToken secret w2 = (.ok claims, w3) ∧
        claims.UserID = userID ∧ claims.Role = role) := by
  have hparse : ∀ token, lib.jwtSign secret (accessClaims lib userID role ttl w.tick) = .ok token →
      ParseToken lib token secret w2 =
        (.ok (accessClaims lib userID role ttl w.tick), { w2 with tick := w2.tick + 1 }) := by
    intro token hs
    apply ParseToken_ok lib token secret w2 _ (hrt _ _ _ hs)
    intro exp hexp
    simp only [accessClaims, Option.some.injEq] at hexp
    rw [← hexp]; exact hbefore
  constructor
  · obtain ⟨token, hs⟩ := hsign secret (accessClaims lib userID role ttl w.tick)
    refine ⟨token, { w with tick := w.tick + 2 }, ?_, _, _, hparse token hs, rfl, rfl, rfl⟩
    rw [GenerateAccessToken_eq, hs]
  · intro cfg repo tokens w1 hsec httl hi
    have hs := issueTokens_access_inv lib cfg repo userID role w w1 tokens hi
    rw [hsec, httl] at hs
    exact ⟨_, _, hparse _ hs, rfl, rfl⟩

/-- The theorem of C7, amended, on the concrete run. -/
theorem access_token_round_trip_witness :
    (∃ token w1,
      GenerateAccessToken demoLib "test-access-secret" "u" "user" (60 * Second) demoWorld =
        (.ok (token, demoLib.clock demoWorld.tick + 60 * Second), w1) ∧
      ∃ claims w3, ParseToken demoLib token "test-access-secret" demoRegistered = (.ok claims, w3) ∧
        claims.UserID = "u" ∧ claims.Role = "user" ∧
        claims.ExpiresAt = some (NewNumericDate (demoLib.clock demoWorld.tick + 60 * Second))) ∧
    (∀ (cfg : Config) (repo : Repository memoryStore) (tokens : TokenPair)
      (w1 : World memoryStore),
      cfg.AccessTokenSecret = "test-access-secret" → cfg.AccessTokenTTL = 60 * Second →
      AuthService.issueTokens demoLib cfg repo "u" "user" demoWorld = (.ok tokens, w1) →
      ∃ claims w3, ParseToken demoLib tokens.AccessToken "test-access-secret" demoRegistered =
        (.ok claims, w3) ∧ claims.UserID = "u" ∧ claims.Role = "user") :=
  access_token_round_trip demoLib "test-access-secret" "u" "user" (60 * Second) demoWorld
    demoRegistered demoLib_roundtrip demoLib_signs (by decide!)

/-! ## C6 and C8: login failures, token kinds -/

theorem bearer_header_ne_empty (token : String) : ("Bearer " ++ token) ≠ "" := by
  intro h
  have := congrArg String.length h
  simp [String.length_append] at this
  have h2 : "Bearer ".length = 7 := by decide
  omega

theorem stringsSplitN2_bearer (token : String) :
    stringsSplitN2 ("Bearer " ++ token) = ["Bearer", token] := by
  have h : ("Bearer " ++ token).data = 'B' :: 'e' :: 'a' :: 'r' :: 'e' :: 'r' :: ' ' :: token.data := by
    rw [String.data_append]; rfl
  simp only [stringsSplitN2, h, List.span, List.span.loop]
  simp

/-- With a header `Bearer <token>` the middleware does what `ParseToken` with the
access secret decides. -/
theorem WithAuth_bearer {σ : Type} (lib : Lib) (cfg : Config) (token : String) (w : World σ) :
    WithAuth lib cfg ("Bearer " ++ token) w =
      match ParseToken lib token cfg.AccessTokenSecret w with
      | (.error _, w1) => (.rejected 401 "invalid token", w1)
      | (.ok claims, w1) => (.next claims.UserID claims.Role, w1) := by
  have hfold : equalFoldBearer "Bearer" = true := by decide
  simp only [WithAuth, bearer_header_ne_empty, stringsSplitN2_bearer, hfold, if_true, if_false]

/-- What the `Login` handler writes for a failed login: status 401 and the message
of the service's error, replaced by `invalid credentials` only for `pgx.ErrNoRows`. -/
theorem AuthHandler_Login_error {σ : Type} (lib : Lib) (cfg : Config) (repo : Repository σ)
    (req : loginRequest) (w w1 : World σ) (err : GoError)
    (h : AuthService.Login lib cfg repo req.Email req.Password w = (.error err, w1)) :
    AuthHandler.Login lib cfg repo (.ok req) w =
      ({ status := 401,
         body := .ErrorResponse (if err = GoError.ErrNoRows then "invalid credentials"
           else err.Error) }, w1) := by
  by_cases hno : err = GoError.ErrNoRows
  · simp [AuthHandler.Login, h, isErrNoRows, hno, writeError, writeJSON, GoError.Error]
  · simp [AuthHandler.Login, h, isErrNoRows, hno, writeError, writeJSON]

/-- C6 (login failures are told apart).  On the store of the concrete run, a login
with the registered email and a wrong password and a login with an unknown email
both answer 401, but with different bodies, bcrypt's message and the repository's
`not found`, and neither body is `invalid credentials`. -/
theorem login_failures_distinguishable :
    (AuthHandler.Login demoLib demoCfg (memoryRepository demoLib)
        (.ok { Email := "athlete@example.com", Password := "wrong" }) demoRegistered).1 =
      { status := 401,
        body := .ErrorResponse
          "crypto/bcrypt: hashedPassword is not the hash of the given password" } ∧
    (AuthHandler.Login demoLib demoCfg (memoryRepository demoLib)
        (.ok { Email := "nobody@example.com", Password := "wrong" }) demoRegistered).1 =
      { status := 401, body := .ErrorResponse "not found" } ∧
    (AuthService.Login demoLib demoCfg (memoryRepository demoLib)
        "athlete@example.com" "wrong" demoRegistered).1 ≠
      (AuthService.Login demoLib demoCfg (memoryRepository demoLib)
        "nobody@example.com" "wrong" demoRegistered).1 := by
  decide!

/-- C8, as stated, fails: with one secret configured for both kinds, the refresh
token `GenerateRefreshToken` makes is accepted by `WithAuth` as an access token, and
the access token `GenerateAccessToken` makes passes the verification step of
`Refresh`. -/
theorem token_kinds_interchangeable_with_one_secret :
    (∃ token exp w1,
      GenerateRefreshToken demoLib sharedSecretCfg.RefreshTokenSecret "u"
        sharedSecretCfg.RefreshTokenTTL demoWorld = (.ok (token, exp), w1) ∧
      (WithAuth demoLib sharedSecretCfg ("Bearer " ++ token) w1).1 = .next "u" "") ∧
    (∃ token exp w1 claims,
      GenerateAccessToken demoLib sharedSecretCfg.AccessTokenSecret "u" "user"
        sharedSecretCfg.AccessTokenTTL demoWorld = (.ok (token, exp), w1) ∧
      (ParseToken demoLib token sharedSecretCfg.RefreshTokenSecret w1).1 = .ok claims) := by
  constructor
  · refine ⟨_, _, _, rfl, ?_⟩
    rw [WithAuth_bearer]
    decide!
  · refine ⟨_, _, _, accessClaims demoLib "u" "user" sharedSecretCfg.AccessTokenTTL 0, rfl, ?_⟩
    decide!

/-- C8, amended.  When the two configured secrets differ and a token does not verify
under a secret other than its own, a refresh token made by `GenerateRefreshToken` is
answered 401 `invalid token` by `WithAuth`, and `Refresh` of an access token made by
`GenerateAccessToken` returns the decoding error of `ParseToken` with the world
unchanged, over any repository: no repository call is made.  The rejection comes
from the secret alone. -/
theorem token_kinds_separated_by_secret {σ : Type} (lib : Lib) (cfg : Config)
    (userID role : String) (w w2 : World σ)
    (hne : cfg.AccessTokenSecret ≠ cfg.RefreshTokenSecret) (hsep : lib.JwtKeySeparation) :
    (∀ token exp w1,
      GenerateRefreshToken lib cfg.RefreshTokenSecret userID cfg.RefreshTokenTTL w =
        (.ok (token, exp), w1) →
      WithAuth lib cfg ("Bearer " ++ token) w2 = (.rejected 401 "invalid token", w2)) ∧
    (∀ token exp w1 (repo : Repository σ),
      GenerateAccessToken lib cfg.AccessTokenSecret userID role cfg.AccessTokenTTL w =
        (.ok (token, exp), w1) →
      ∃ err, lib.jwtDecode token cfg.RefreshTokenSecret = .error err ∧
        AuthService.Refresh lib cfg repo token w2 = (.error err, w2)) := by
  constructor
  · intro token exp w1 hgen
    rw [GenerateRefreshToken_eq] at hgen
    cases hs : lib.jwtSign cfg.RefreshTokenSecret
        (refreshClaims lib userID cfg.RefreshTokenTTL w.tick w.uuidIdx) with
    | error err => simp [hs] at hgen
    | ok signed =>
      simp only [hs, Prod.mk.injEq, Except.ok.injEq] at hgen
      obtain ⟨⟨h1, _⟩, _⟩ := hgen
      subst h1
      obtain ⟨err, herr⟩ := hsep _ cfg.AccessTokenSecret _ _ hs hne
      rw [WithAuth_bearer, ParseToken_eq, herr]
  · intro token exp w1 repo hgen
    rw [GenerateAccessToken_eq] at hgen
    cases hs : lib.jwtSign cfg.AccessTokenSecret
        (accessClaims lib userID role cfg.AccessTokenTTL w.tick) with
    | error err => simp [hs] at hgen
    | ok signed =>
      simp only [hs, Prod.mk.injEq, Except.ok.injEq] at hgen
      obtain ⟨⟨h1, _⟩, _⟩ := hgen
      subst h1
      obtain ⟨err, herr⟩ := hsep _ cfg.RefreshTokenSecret _ _ hs (Ne.symm hne)
      refine ⟨err, herr, ?_⟩
      simp only [AuthService.Refresh, ParseToken_eq, herr]

/-- The theorem of C8, amended, on the concrete run. -/
theorem token_kinds_separated_by_secret_witness :
    (∀ token exp w1,
      GenerateRefreshToken demoLib demoCfg.RefreshTokenSecret "u" demoCfg.RefreshTokenTTL
        demoWorld = (.ok (token, exp), w1) →
      WithAuth demoLib demoCfg ("Bearer " ++ token) demoRegistered =
        (.rejected 401 "invalid token", demoRegistered)) ∧
    (∀ token exp w1 (repo : Repository memoryStore),
      GenerateAccessToken demoLib demoCfg.AccessTokenSecret "u" "user" demoCfg.AccessTokenTTL
        demoWorld = (.ok (token, exp), w1) →
      ∃ err, demoLib.jwtDecode token demoCfg.RefreshTokenSecret = .error err ∧
        AuthService.Refresh demoLib demoCfg repo token demoRegistered =
          (.error err, demoRegistered)) :=
  token_kinds_separated_by_secret demoLib demoCfg "u" "user" demoWorld demoRegistered
    (by decide) demoLib_key_separation

/-! ## What every auth call preserves -/

theorem ParseToken_tick {σ : Type} (lib : Lib) (tokenStr secret : String) (w : World σ) :
    w.tick ≤ (ParseToken lib tokenStr secret w).2.tick := by
  cases hd : lib.jwtDecode tokenStr secret with
  | error err => simp [ParseToken_eq, hd]
  | ok claims =>
    cases he : claims.ExpiresAt with
    | none => simp [ParseToken_eq, hd, he]
    | some exp => by_cases h : lib.clock w.tick < exp <;> simp [ParseToken_eq, hd, he, h]

theorem issueTokens_memory_err_tick (lib : Lib) (cfg : Config) (userID role : String)
    (w w1 : World memoryStore) (err : GoError)
    (h : AuthService.issueTokens lib cfg (memoryRepository lib) userID role w = (.error err, w1)) :
    w.tick ≤ w1.tick := by
  cases ha : lib.jwtSign cfg.AccessTokenSecret
      (accessClaims lib userID role cfg.AccessTokenTTL w.tick) with
  | error err =>
    simp [AuthService.issueTokens, GenerateAccessToken_eq, ha] at h
    obtain ⟨_, h2⟩ := h
    subst h2
    simp
  | ok access =>
    cases hr : lib.jwtSign cfg.RefreshTokenSecret
      (refreshClaims lib userID cfg.RefreshTokenTTL (w.tick + 2) w.uuidIdx) with
    | error err =>
      simp [AuthService.issueTokens, GenerateAccessToken_eq, ha, GenerateRefreshToken_eq, hr] at h
      obtain ⟨_, h2⟩ := h
      subst h2
      simp only []
      omega
    | ok refresh =>
      rw [issueTokens_memory_ok lib cfg userID role w access refresh ha hr] at h
      simp at h

theorem Evolves_refl (lib : Lib) (cfg : Config) (w : World memoryStore) : Evolves lib cfg w w :=
  ⟨le_refl _, le_refl _, id, fun _ _ h => Or.inl h⟩

theorem Minted_mono (lib : Lib) (cfg : Config) (lo hi lo1 hi1 : Nat) (k : String)
    (hlo : lo1 ≤ lo) (hhi : hi ≤ hi1) (h : Minted lib cfg lo hi k) : Minted lib cfg lo1 hi1 k := by
  obtain ⟨token, claims, i, hk, hs, hid, h1, h2⟩ := h
  exact ⟨token, claims, i, hk, hs, hid, le_trans hlo h1, lt_of_lt_of_le h2 hhi⟩

theorem Evolves_trans (lib : Lib) (cfg : Config) (w w1 w2 : World memoryStore)
    (h1 : Evolves lib cfg w w1) (h2 : Evolves lib cfg w1 w2) : Evolves lib cfg w w2 := by
  obtain ⟨ht1, hi1, hwf1, hk1⟩ := h1
  obtain ⟨ht2, hi2, hwf2, hk2⟩ := h2
  refine ⟨le_trans ht1 ht2, le_trans hi1 hi2, fun h => hwf2 (hwf1 h), ?_⟩
  intro k e hk
  rcases hk2 k e hk with h | h
  · rcases hk1 k e h with h0 | h0
    · exact Or.inl h0
    · exact Or.inr (Minted_mono lib cfg _ _ _ _ k (le_refl _) hi2 h0)
  · exact Or.inr (Minted_mono lib cfg _ _ _ _ k hi1 (le_refl _) h)

/-- A step that keeps the refresh-token records. -/
theorem Evolves_of_same (lib : Lib) (cfg : Config) (w w1 : World memoryStore)
    (hrt : w1.store.refreshTokens = w.store.refreshTokens) (htick : w.tick ≤ w1.tick)
    (hidx : w.uuidIdx ≤ w1.uuidIdx) : Evolves lib cfg w w1 :=
  ⟨htick, hidx, fun h => by rw [hrt]; exact h, fun k e h => Or.inl (by rw [hrt] at h; exact h)⟩

/-- A step that deletes one record. -/
theorem Evolves_of_delete (lib : Lib) (cfg : Config) (w w1 : World memoryStore) (k : String)
    (hrt : w1.store.refreshTokens = mapDelete w.store.refreshTokens k)
    (htick : w.tick ≤ w1.tick) (hidx : w.uuidIdx ≤ w1.uuidIdx) : Evolves lib cfg w w1 := by
  refine ⟨htick, hidx, fun h => by rw [hrt]; exact mapWF_mapDelete _ _ h, fun k1 e h => Or.inl ?_⟩
  rw [hrt] at h
  by_cases hk : k1 = k
  · subst hk; rw [mapGet_mapDelete_self] at h; simp at h
  · rwa [mapGet_mapDelete_ne _ _ _ hk] at h

/-- A successful issuance: the record saved is minted with the uuid just drawn. -/
theorem Evolves_issued (lib : Lib) (cfg : Config) (w : World memoryStore) (userID token : String)
    (hs : lib.jwtSign cfg.RefreshTokenSecret
      (refreshClaims lib userID cfg.RefreshTokenTTL (w.tick + 2) w.uuidIdx) = .ok token) :
    Evolves lib cfg w (issuedWorld lib cfg token w) := by
  refine ⟨by simp [issuedWorld], Nat.le_succ _, fun h => mapWF_mapSet _ _ _ h, fun k e h => ?_⟩
  by_cases hk : k = HashToken lib token
  · exact Or.inr ⟨token, _, w.uuidIdx, hk, hs, rfl, le_refl _, Nat.lt_succ_self _⟩
  · left
    simp only [issuedWorld] at h
    rwa [mapGet_mapSet_ne _ _ _ _ hk] at h

theorem issueTokens_evolves (lib : Lib) (cfg : Config) (userID role : String)
    (w : World memoryStore) :
    Evolves lib cfg w (AuthService.issueTokens lib cfg (memoryRepository lib) userID role w).2 := by
  cases h : AuthService.issueTokens lib cfg (memoryRepository lib) userID role w with
  | mk res w1 =>
    cases res with
    | error err =>
      obtain ⟨hst, hidx⟩ := issueTokens_memory_err lib cfg userID role w w1 err h
      exact Evolves_of_same lib cfg w w1 (by rw [hst])
        (issueTokens_memory_err_tick lib cfg userID role w w1 err h) hidx
    | ok tokens =>
      obtain ⟨_, hs, _, hw1⟩ := issueTokens_memory_inv lib cfg userID role w w1 tokens h
      simp only [hw1]
      exact Evolves_issued lib cfg w userID _ hs

theorem Exists_evolves (lib : Lib) (cfg : Config) (k : String) (w : World memoryStore) :
    Evolves lib cfg w (memoryRefreshRepo.Exists lib k w).2 := by
  cases hg : mapGet w.store.refreshTokens k with
  | none => rw [Exists_absent lib k w hg]; exact Evolves_refl lib cfg w
  | some e =>
    by_cases hlt : lib.clock w.tick > e
    · simp only [memoryRefreshRepo.Exists, hg, timeNow, hlt, if_true]
      exact Evolves_of_delete lib cfg w _ k rfl (Nat.le_succ _) (le_refl _)
    · simp only [memoryRefreshRepo.Exists, hg, timeNow, hlt, if_false]
      exact Evolves_of_same lib cfg w _ rfl (Nat.le_succ _) (le_refl _)

theorem Logout_evolves (lib : Lib) (cfg : Config) (R : String) (w : World memoryStore) :
    Evolves lib cfg w (AuthService.Logout lib (memoryRepository lib) R w).2 :=
  Evolves_of_delete lib cfg w _ (HashToken lib R) rfl (le_refl _) (le_refl _)

theorem Login_evolves (lib : Lib) (cfg : Config) (email password : String)
    (w : World memoryStore) :
    Evolves lib cfg w (AuthService.Login lib cfg (memoryRepository lib) email password w).2 := by
  cases hf : w.store.users.find? (fun e => decide (e.2.Email = email)) with
  | none =>
    simp only [AuthService.Login, memoryRepository, memoryUserRepo.GetByEmail, hf]
    exact Evolves_refl lib cfg w
  | some entry =>
    cases hb : lib.bcryptCompare entry.2.PasswordHash password with
    | error err =>
      simp only [AuthService.Login, memoryRepository, memoryUserRepo.GetByEmail, hf, hb]
      exact Evolves_refl lib cfg w
    | ok u =>
      have hi := issueTokens_evolves lib cfg entry.2.ID entry.2.Role w
      simp only [AuthService.Login, memoryRepository, memoryUserRepo.GetByEmail, hf, hb]
      simp only [memoryRepository] at hi
      revert hi
      generalize AuthService.issueTokens lib cfg _ _ _ _ = r
      obtain ⟨res, w2⟩ := r
      cases res <;> exact fun hi => hi

theorem Register_evolves (lib : Lib) (cfg : Config) (req : RegisterRequest)
    (w : World memoryStore) :
    Evolves lib cfg w (AuthService.Register lib cfg (memoryRepository lib) req w).2 := by
  cases hb : lib.bcryptGenerate req.Password w.saltIdx with
  | error err =>
    simp only [AuthService.Register, bcryptGenerateFromPassword, hb]
    exact Evolves_refl lib cfg w
  | ok hashed =>
    by_cases hdup : ∃ e ∈ w.store.users, e.2.Email = req.Email
    · rw [Register_memory_dup lib cfg req.Email req.Password hashed w hb hdup]
      exact Evolves_of_same lib cfg w _ rfl (le_refl _) (le_refl _)
    · push_neg at hdup
      have hc := Create_new_ok lib req.Email hashed RoleUser (saltDrawn w) hdup
      have h1 : Evolves lib cfg w (createdWorld lib req.Email hashed RoleUser (saltDrawn w)) :=
        Evolves_of_same lib cfg w _ rfl (Nat.le_succ _) (Nat.le_succ _)
      have hi := issueTokens_evolves lib cfg (lib.uuidNew w.uuidIdx) RoleUser
        (createdWorld lib req.Email hashed RoleUser (saltDrawn w))
      simp only [saltDrawn] at hc
      simp only [AuthService.Register, bcryptGenerateFromPassword, hb, memoryRepository, hc]
      simp only [memoryRepository, saltDrawn] at hi h1
      revert hi
      simp only [createdUser]
      generalize AuthService.issueTokens lib cfg _ _ _ _ = r
      obtain ⟨res, w2⟩ := r
      cases res <;> exact fun hi => Evolves_trans lib cfg _ _ _ h1 hi

theorem Refresh_evolves (lib : Lib) (cfg : Config) (R : String) (w : World memoryStore) :
    Evolves lib cfg w (AuthService.Refresh lib cfg (memoryRepository lib) R w).2 := by
  have hp := ParseToken_world lib R cfg.RefreshTokenSecret w
  have ht := ParseToken_tick lib R cfg.RefreshTokenSecret w
  unfold AuthService.Refresh
  revert hp ht
  generalize ParseToken lib R cfg.RefreshTokenSecret w = r1
  obtain ⟨res1, w1⟩ := r1
  intro hp ht
  have h1 : Evolves lib cfg w w1 :=
    Evolves_of_same lib cfg w w1 (by rw [hp.1]) ht (by rw [hp.2.1])
  cases res1 with
  | error err => exact h1
  | ok claims =>
    simp only [memoryRepository]
    have hx := Exists_evolves lib cfg (HashToken lib R) w1
    revert hx
    generalize hxe : memoryRefreshRepo.Exists lib (HashToken lib R) w1 = r2
    obtain ⟨res2, w2⟩ := r2
    intro hx
    have h2 := Evolves_trans lib cfg _ _ _ h1 hx
    cases res2 with
    | error err => exact h2
    | ok b =>
      cases b with
      | false => exact h2
      | true =>
        cases hu : mapGet w2.store.users claims.UserID with
        | none => simp only [memoryUserRepo.GetByID, hu]; exact h2
        | some u =>
          simp only [memoryUserRepo.GetByID, hu]
          have hi := issueTokens_evolves lib cfg u.ID u.Role w2
          simp only [memoryRepository] at hi
          revert hi
          generalize AuthService.issueTokens lib cfg _ _ _ _ = r3
          obtain ⟨res3, w4⟩ := r3
          intro hi
          have h4 := Evolves_trans lib cfg _ _ _ h2 hi
          cases res3 with
          | error err => exact h4
          | ok tokens =>
            exact Evolves_trans lib cfg _ _ _ h4
              (Evolves_of_delete lib cfg w4 _ (HashToken lib R) rfl (le_refl _) (le_refl _))

theorem step_evolves (lib : Lib) (cfg : Config) (op : AuthOp) (w : World memoryStore) :
    Evolves lib cfg w (op.step lib cfg (memoryRepository lib) w) := by
  cases op with
  | register email password => exact Register_evolves lib cfg _ w
  | login email password => exact Login_evolves lib cfg email password w
  | refresh R => exact Refresh_evolves lib cfg R w
  | logout R => exact Logout_evolves lib cfg R w

theorem runOps_evolves (lib : Lib) (cfg : Config) (ops : List AuthOp) (w : World memoryStore) :
    Evolves lib cfg w (runOps lib cfg (memoryRepository lib) ops w) := by
  induction ops generalizing w with
  | nil => exact Evolves_refl lib cfg w
  | cons op ops ih =>
    exact Evolves_trans lib cfg _ _ _ (step_evolves lib cfg op w) (ih _)

/-! ## C2 and C10: no replay, rotation keeps the record count -/

/-- A fingerprint is not minted twice from disjoint ranges of uuids. -/
theorem minted_unique (lib : Lib) (cfg : Config) (hrt : lib.JwtRoundTrip) (hfresh : lib.UuidFresh)
    (hcf : lib.HashCollisionFree) (k : String) (lo hi lo1 hi1 : Nat)
    (h1 : Minted lib cfg lo hi k) (h2 : Minted lib cfg lo1 hi1 k) (hle : hi ≤ lo1) : False := by
  obtain ⟨t1, c1, i, hk1, hs1, hid1, _, hi1⟩ := h1
  obtain ⟨t2, c2, j, hk2, hs2, hid2, hj1, _⟩ := h2
  have ht : t1 = t2 := hcf (by rw [HashToken] at hk1 hk2; rw [← hk1, ← hk2])
  subst ht
  have hc := jwtSign_injective lib hrt _ _ _ _ hs1 hs2
  subst hc
  have hij : i = j := hfresh (by rw [← hid1, ← hid2])
  omega

/-- In a world reached from one without sessions every record is minted. -/
theorem present_minted (lib : Lib) (cfg : Config) (w0 wa : World memoryStore)
    (h0 : w0.store.refreshTokens = []) (hev : Evolves lib cfg w0 wa) (k : String) (e : Time)
    (hp : mapGet wa.store.refreshTokens k = some e) : Minted lib cfg w0.uuidIdx wa.uuidIdx k := by
  rcases hev.2.2.2 k e hp with h | h
  · rw [h0] at h; simp [mapGet] at h
  · exact h

/-- A fingerprint minted earlier and absent now stays absent. -/
theorem dead_stays_absent (lib : Lib) (cfg : Config) (hrt : lib.JwtRoundTrip)
    (hfresh : lib.UuidFresh) (hcf : lib.HashCollisionFree) (lo hi : Nat)
    (wb wc : World memoryStore) (k : String)
    (hm : Minted lib cfg lo hi k) (hab : hi ≤ wb.uuidIdx)
    (habsent : mapGet wb.store.refreshTokens k = none) (hev : Evolves lib cfg wb wc) :
    mapGet wc.store.refreshTokens k = none := by
  cases hg : mapGet wc.store.refreshTokens k with
  | none => rfl
  | some e =>
    rcases hev.2.2.2 k e hg with h | h
    · rw [habsent] at h; simp at h
    · exact (minted_unique lib cfg hrt hfresh hcf k _ _ _ _ hm h hab).elim

/-- C2 (no replay).  Over the in-memory repository, when a signed token decodes to
its claims, uuids do not repeat and distinct tokens have distinct fingerprints, take
any world reached by auth calls from a world without refresh-token records.  (1) Once
`Refresh(R)` has succeeded there, after every later sequence of `Register`, `Login`,
`Refresh` and `Logout` calls the fingerprint of `R` is absent and `Refresh(R)` fails.
(2) The same holds once a record of `R` that was present has gone, by `Logout` or
otherwise.  (3) A record of `R` whose expiry a clock reading has passed is never live
again while the clock does not go back: every later `Refresh(R)` fails. -/
theorem no_replay (lib : Lib) (cfg : Config) (hrt : lib.JwtRoundTrip) (hfresh : lib.UuidFresh)
    (hcf : lib.HashCollisionFree) (w0 : World memoryStore)
    (h0 : w0.store.refreshTokens = []) (before : List AuthOp) (R : String) :
    (∀ tokens user w1,
      AuthService.Refresh lib cfg (memoryRepository lib) R
        (runOps lib cfg (memoryRepository lib) before w0) = (.ok (tokens, user), w1) →
      ∀ later,
        mapGet (runOps lib cfg (memoryRepository lib) later w1).store.refreshTokens
          (HashToken lib R) = none ∧
        ∃ err w3, AuthService.Refresh lib cfg (memoryRepository lib) R
          (runOps lib cfg (memoryRepository lib) later w1) = (.error err, w3)) ∧
    (∀ e mid,
      mapGet (runOps lib cfg (memoryRepository lib) before w0).store.refreshTokens
        (HashToken lib R) = some e →
      mapGet (runOps lib cfg (memoryRepository lib) mid
        (runOps lib cfg (memoryRepository lib) before w0)).store.refreshTokens
        (HashToken lib R) = none →
      ∀ later,
        mapGet (runOps lib cfg (memoryRepository lib) later
          (runOps lib cfg (memoryRepository lib) mid
            (runOps lib cfg (memoryRepository lib) before w0))).store.refreshTokens
          (HashToken lib R) = none ∧
        ∃ err w3, AuthService.Refresh lib cfg (memoryRepository lib) R
          (runOps lib cfg (memoryRepository lib) later
            (runOps lib cfg (memoryRepository lib) mid
              (runOps lib cfg (memoryRepository lib) before w0))) = (.error err, w3)) ∧
    (∀ e n,
      mapGet (runOps lib cfg (memoryRepository lib) before w0).store.refreshTokens
        (HashToken lib R) = some e →
      n ≤ (runOps lib cfg (memoryRepository lib) before w0).tick → e < lib.clock n →
      Monotone lib.clock →
      ∀ later, ∃ err w3, AuthService.Refresh lib cfg (memoryRepository lib) R
        (runOps lib cfg (memoryRepository lib) later
          (runOps lib cfg (memoryRepository lib) before w0)) = (.error err, w3)) := by
  have hev0 := runOps_evolves lib cfg before w0
  generalize runOps lib cfg (memoryRepository lib) before w0 = wa at hev0 ⊢
  refine ⟨?_, ?_, ?_⟩
  · intro tokens user w1 hok later
    obtain ⟨claims, e, _, _, hrec, _, _, _, hw1⟩ := Refresh_memory_inv lib cfg R wa w1 tokens user hok
    have hm := present_minted lib cfg w0 wa h0 hev0 _ e hrec
    have hev1 : Evolves lib cfg wa w1 := by
      have := Refresh_evolves lib cfg R wa
      rw [hok] at this
      exact this
    have habs1 : mapGet w1.store.refreshTokens (HashToken lib R) = none := by
      rw [hw1]; simp only [rotatedWorld]; exact mapGet_mapDelete_self _ _
    have habs := dead_stays_absent lib cfg hrt hfresh hcf _ _ w1 _ _ hm hev1.2.1 habs1
      (runOps_evolves lib cfg later w1)
    exact ⟨habs, Refresh_memory_absent_fails lib cfg R _ habs⟩
  · intro e mid hrec habs1 later
    have hm := present_minted lib cfg w0 wa h0 hev0 _ e hrec
    have hev1 := runOps_evolves lib cfg mid wa
    have habs := dead_stays_absent lib cfg hrt hfresh hcf _ _ _ _ _ hm hev1.2.1 habs1
      (runOps_evolves lib cfg later _)
    exact ⟨habs, Refresh_memory_absent_fails lib cfg R _ habs⟩
  · intro e n hrec hn hpast hmono later
    have hm := present_minted lib cfg w0 wa h0 hev0 _ e hrec
    have hev1 := runOps_evolves lib cfg later wa
    generalize runOps lib cfg (memoryRepository lib) later wa = wc at hev1 ⊢
    cases hr : AuthService.Refresh lib cfg (memoryRepository lib) R wc with
    | mk res w3 =>
      cases res with
      | error err => exact ⟨err, w3, rfl⟩
      | ok p =>
        exfalso
        obtain ⟨tokens, user⟩ := p
        obtain ⟨_, e1, _, _, hrec1, hnow, _⟩ := Refresh_memory_inv lib cfg R wc w3 tokens user hr
        rcases hev1.2.2.2 _ e1 hrec1 with h | h
        · rw [hrec] at h
          simp only [Option.some.injEq] at h
          subst h
          have h1 : lib.clock n ≤ lib.clock (wc.tick + 1) :=
            hmono (le_trans hn (le_trans hev1.1 (Nat.le_succ _)))
          exact absurd (lt_of_lt_of_le hpast (le_trans h1 hnow)) (lt_irrefl _)
        · exact minted_unique lib cfg hrt hfresh hcf _ _ _ _ _ hm h (le_refl _)

/-- The refresh of the concrete run succeeds with the stated pair and world. -/
theorem demo_refresh :
    AuthService.Refresh demoLib demoCfg (memoryRepository demoLib) demoRefreshToken
      demoRegistered = (.ok (demoRotatedTokens, demoUser), demoRotated) := by
  decide!

/-- The theorem of C2 on the concrete run. -/
theorem no_replay_witness :
    mapGet (runOps demoLib demoCfg (memoryRepository demoLib)
        [.login "athlete@example.com" "Passw0rd!", .logout demoRefreshToken,
         .register "other@example.com" "secret"] demoRotated).store.refreshTokens
      (HashToken demoLib demoRefreshToken) = none ∧
    ∃ err w3, AuthService.Refresh demoLib demoCfg (memoryRepository demoLib) demoRefreshToken
      (runOps demoLib demoCfg (memoryRepository demoLib)
        [.login "athlete@example.com" "Passw0rd!", .logout demoRefreshToken,
         .register "other@example.com" "secret"] demoRotated) = (.error err, w3) :=
  (no_replay demoLib demoCfg demoLib_roundtrip demoLib_uuid_fresh demoLib_collision_free
    demoWorld rfl [.register "athlete@example.com" "Passw0rd!"] demoRefreshToken).1
    demoRotatedTokens demoUser demoRotated
    (by
      have h : runOps demoLib demoCfg (memoryRepository demoLib)
          [.register "athlete@example.com" "Passw0rd!"] demoWorld = demoRegistered := by
        decide!
      rw [h]; exact demo_refresh)
    [.login "athlete@example.com" "Passw0rd!", .logout demoRefreshToken,
     .register "other@example.com" "secret"]

/-- C9 (one record per issuance).  Over the in-memory repository, when a signed
token decodes to its claims, a successful `Login` or `Register` changes the
refresh-token records by exactly one assignment: the key is `HashToken` of the
returned refresh token and the value is the expiry returned with that token,
`RefreshTokenTTL` after the clock reading taken when it was made, whose truncation
to the whole second is the expiry signed into the token; every other key keeps its
record; and when that key was not present the number of records grows by one. -/
theorem one_record_per_issuance (lib : Lib) (cfg : Config) (w0 w1 : World memoryStore)
    (email password : String) (resp : AuthResponse) (hrt : lib.JwtRoundTrip)
    (hissued :
      AuthService.Login lib cfg (memoryRepository lib) email password w0 = (.ok resp, w1) ∨
      AuthService.Register lib cfg (memoryRepository lib)
        { Email := email, Password := password } w0 = (.ok resp, w1)) :
    ∃ e n claims, n + 3 = w1.tick ∧ e = lib.clock n + cfg.RefreshTokenTTL ∧
      w1.store.refreshTokens =
        mapSet w0.store.refreshTokens (HashToken lib resp.TokenPair.RefreshToken) e ∧
      mapGet w1.store.refreshTokens (HashToken lib resp.TokenPair.RefreshToken) = some e ∧
      (∀ k, k ≠ HashToken lib resp.TokenPair.RefreshToken →
        mapGet w1.store.refreshTokens k = mapGet w0.store.refreshTokens k) ∧
      lib.jwtDecode resp.TokenPair.RefreshToken cfg.RefreshTokenSecret = .ok claims ∧
      claims.ExpiresAt = some (NewNumericDate e) ∧
      (mapGet w0.store.refreshTokens (HashToken lib resp.TokenPair.RefreshToken) = none →
        mapLen w1.store.refreshTokens = mapLen w0.store.refreshTokens + 1) := by
  have hpre : ∃ wpre : World memoryStore,
      wpre.store.refreshTokens = w0.store.refreshTokens ∧
      AuthService.issueTokens lib cfg (memoryRepository lib) resp.User.ID resp.User.Role wpre =
        (.ok resp.TokenPair, w1) := by
    rcases hissued with h | h
    · obtain ⟨_, _, _, _, hi⟩ := Login_memory_inv lib cfg email password w0 w1 resp h
      exact ⟨w0, rfl, hi⟩
    · obtain ⟨hashed, _, _, hu, hi⟩ := Register_memory_inv lib cfg email password w0 w1 resp h
      refine ⟨createdWorld lib email hashed RoleUser (saltDrawn w0), rfl, ?_⟩
      rw [hu] at hi ⊢
      exact hi
  obtain ⟨wpre, hsame, hi⟩ := hpre
  obtain ⟨_, hsig, _, hw1⟩ := issueTokens_memory_inv lib cfg _ _ _ _ _ hi
  have hstore : w1.store.refreshTokens =
      mapSet w0.store.refreshTokens (HashToken lib resp.TokenPair.RefreshToken)
        (lib.clock (wpre.tick + 2) + cfg.RefreshTokenTTL) := by
    rw [hw1, ← hsame]; rfl
  refine ⟨_, wpre.tick + 2, _, ?_, rfl, hstore, ?_, ?_, hrt _ _ _ hsig, rfl, ?_⟩
  · rw [hw1]; simp [issuedWorld]
  · rw [hstore]; exact mapGet_mapSet_self _ _ _
  · intro k hk
    rw [hstore]; exact mapGet_mapSet_ne _ _ _ _ hk
  · intro habs
    rw [hstore]; exact mapLen_mapSet_of_absent _ _ _ habs

/-- The theorem of C9 on the concrete run. -/
theorem one_record_per_issuance_witness :
    ∃ e n claims, n + 3 = demoRegistered.tick ∧ e = demoLib.clock n + demoCfg.RefreshTokenTTL ∧
      demoRegistered.store.refreshTokens =
        mapSet demoWorld.store.refreshTokens
          (HashToken demoLib demoResponse.TokenPair.RefreshToken) e ∧
      mapGet demoRegistered.store.refreshTokens
        (HashToken demoLib demoResponse.TokenPair.RefreshToken) = some e ∧
      (∀ k, k ≠ HashToken demoLib demoResponse.TokenPair.RefreshToken →
        mapGet demoRegistered.store.refreshTokens k = mapGet demoWorld.store.refreshTokens k) ∧
      demoLib.jwtDecode demoResponse.TokenPair.RefreshToken demoCfg.RefreshTokenSecret =
        .ok claims ∧
      claims.ExpiresAt = some (NewNumericDate e) ∧
      (mapGet demoWorld.store.refreshTokens
          (HashToken demoLib demoResponse.TokenPair.RefreshToken) = none →
        mapLen demoRegistered.store.refreshTokens =
          mapLen demoWorld.store.refreshTokens + 1) :=
  one_record_per_issuance demoLib demoCfg demoWorld demoRegistered "athlete@example.com"
    "Passw0rd!" demoResponse demoLib_roundtrip (Or.inr demo_register)

/-! ## C11 and C12: logout -/

theorem mapDelete_idem {α : Type} (m : List (String × α)) (k : String) :
    mapDelete (mapDelete m k) k = mapDelete m k :=
  mapDelete_of_absent _ _ (mapGet_mapDelete_self m k)

/-- C11 (logout is idempotent and reports no `not found`).  Over every repository,
`Logout(t)` returns exactly what the repository's `Delete(HashToken(t))` returns, so
no error when `Delete` succeeds.  Over the in-memory repository, for every string `t`
and every world, `Logout(t)` returns no error, whether or not a record of `t`
exists, and a second `Logout(t)` returns no error and leaves the world the first one
left. -/
theorem logout_idempotent (lib : Lib) (t : String) (w : World memoryStore) :
    (∀ (σ : Type) (repo : Repository σ) (v : World σ),
      AuthService.Logout lib repo t v = repo.RefreshTokens.Delete (HashToken lib t) v) ∧
    AuthService.Logout lib (memoryRepository lib) t w =
      (.ok (), { w with store := { w.store with
        refreshTokens := mapDelete w.store.refreshTokens (HashToken lib t) } }) ∧
    AuthService.Logout lib (memoryRepository lib) t
        (AuthService.Logout lib (memoryRepository lib) t w).2 =
      (.ok (), (AuthService.Logout lib (memoryRepository lib) t w).2) := by
  refine ⟨fun _ _ _ => rfl, rfl, ?_⟩
  simp only [AuthService.Logout, memoryRepository, memoryRefreshRepo.Delete, mapDelete_idem]

/-- What the `Logout` handler writes, over every repository: 400 with the error
message when the body does not decode or `Delete` fails, 204 without body
otherwise. -/
theorem AuthHandler_Logout_eq {σ : Type} (lib : Lib) (repo : Repository σ)
    (decoded : Except GoError refreshRequest) (w : World σ) :
    AuthHandler.Logout lib repo decoded w =
      match decoded with
      | .error err => ({ status := 400, body := .ErrorResponse err.Error }, w)
      | .ok req =>
        match repo.RefreshTokens.Delete (HashToken lib req.RefreshToken) w with
        | (.error err, w1) => ({ status := 400, body := .ErrorResponse err.Error }, w1)
        | (.ok _, w1) => ({ status := 204, body := .empty }, w1) := by
  cases decoded with
  | error err => rfl
  | ok req =>
    simp only [AuthHandler.Logout, AuthService.Logout]
    cases repo.RefreshTokens.Delete (HashToken lib req.RefreshToken) w with
    | mk res w1 => cases res <;> rfl

/-- C12, as stated, fails: a body that does not decode is answered 400 with the
decoding error, and so is a request whose `Delete` fails; neither is answered 204. -/
theorem logout_handler_answers_400 :
    AuthHandler.Logout demoLib (memoryRepository demoLib) (.error (.New "unexpected EOF"))
        demoRegistered =
      ({ status := 400, body := .ErrorResponse "unexpected EOF" }, demoRegistered) ∧
    AuthHandler.Logout demoLib (failingDeleteRepository demoLib)
        (.ok { RefreshToken := demoRefreshToken }) demoRegistered =
      ({ status := 400, body := .ErrorResponse "connection refused" }, demoRegistered) := by
  constructor <;> rfl

/-- C12, amended.  Over every repository, the `Logout` handler answers 204 with an
empty body whenever the body decodes and the repository's `Delete` returns no error;
over the in-memory repository that is every request whose body decodes, whatever the
token. -/
theorem logout_handler_answers_204 {σ : Type} (lib : Lib) (repo : Repository σ)
    (req : refreshRequest) (w w1 : World σ)
    (hdel : repo.RefreshTokens.Delete (HashToken lib req.RefreshToken) w = (.ok (), w1)) :
    AuthHandler.Logout lib repo (.ok req) w = ({ status := 204, body := .empty }, w1) ∧
    ∀ (r : refreshRequest) (v : World memoryStore),
      (AuthHandler.Logout lib (memoryRepository lib) (.ok r) v).1 =
        { status := 204, body := .empty } := by
  constructor
  · rw [AuthHandler_Logout_eq]; simp only [hdel]
  · intro r v; rfl

/-- The amended C12 on the concrete run. -/
theorem logout_handler_answers_204_witness :
    AuthHandler.Logout demoLib (memoryRepository demoLib) (.ok { RefreshToken := "garbage" })
        demoRegistered = ({ status := 204, body := .empty }, demoRegistered) ∧
    ∀ (r : refreshRequest) (v : World memoryStore),
      (AuthHandler.Logout demoLib (memoryRepository demoLib) (.ok r) v).1 =
        { status := 204, body := .empty } :=
  logout_handler_answers_204 demoLib (memoryRepository demoLib) { RefreshToken := "garbage" }
    demoRegistered demoRegistered (by decide!)

/-! ## C13, C14, C15: the bootstrap administrator -/

theorem CountAdmins_memory (w : World memoryStore) :
    memoryUserRepo.CountAdmins w =
      (.ok ((w.store.users.countP (fun e => decide (e.2.Role = RoleAdmin)) : Nat) : Int), w) :=
  rfl

/-- C14 (`EnsureAdminExists` is a no-op when an administrator exists).  Over every
repository, when `CountAdmins` returns a count greater than 0, `EnsureAdminExists`
returns no error, the only call it makes on the repository is that `CountAdmins`
(no `Create`, nor any other call), and the world is the one `CountAdmins` left.
Over the in-memory repository `CountAdmins` changes nothing, so users and
refresh-token records are unchanged. -/
theorem ensure_admin_noop {σ : Type} (lib : Lib) (cfg : Config) (repo : Repository σ)
    (w : World (Traced σ)) (count : Int) (w1 : World σ)
    (hcount : repo.Users.CountAdmins (Traced.lower w) = (.ok count, w1)) (hpos : 0 < count) :
    AuthService.EnsureAdminExists lib cfg (tracedRepository repo) w =
      (.ok (), Traced.lift (w.store.calls ++ [.UsersCountAdmins]) w1) ∧
    AuthService.EnsureAdminExists lib cfg repo (Traced.lower w) = (.ok (), w1) ∧
    ∀ (v : World memoryStore) (c : Int), (memoryUserRepo.CountAdmins v).1 = .ok c → 0 < c →
      AuthService.EnsureAdminExists lib cfg (memoryRepository lib) v = (.ok (), v) := by
  refine ⟨?_, ?_, ?_⟩
  · simp [AuthService.EnsureAdminExists, tracedRepository, traced, hcount, hpos]
  · simp [AuthService.EnsureAdminExists, hcount, hpos]
  · intro v c hc hc0
    rw [CountAdmins_memory] at hc
    simp only [Except.ok.injEq] at hc
    subst hc
    simp [AuthService.EnsureAdminExists, memoryRepository, CountAdmins_memory, hc0]

/-- The theorem of C14 on the bootstrapped store of the concrete run. -/
theorem ensure_admin_noop_witness :
    AuthService.EnsureAdminExists demoLib demoCfg (tracedRepository (memoryRepository demoLib))
        (Traced.lift [] demoBootstrapped) =
      (.ok (), Traced.lift ([] ++ [.UsersCountAdmins]) demoBootstrapped) ∧
    AuthService.EnsureAdminExists demoLib demoCfg (memoryRepository demoLib)
      (Traced.lower (Traced.lift [] demoBootstrapped)) = (.ok (), demoBootstrapped) ∧
    ∀ (v : World memoryStore) (c : Int), (memoryUserRepo.CountAdmins v).1 = .ok c → 0 < c →
      AuthService.EnsureAdminExists demoLib demoCfg (memoryRepository demoLib) v = (.ok (), v) :=
  ensure_admin_noop demoLib demoCfg (memoryRepository demoLib) (Traced.lift [] demoBootstrapped)
    1 demoBootstrapped (by decide!) (by decide)

theorem CallsExtend_refl {σ : Type} (P : RepoCall → Prop) (w : World (Traced σ)) :
    CallsExtend P w w :=
  ⟨[], by simp, by simp⟩

theorem CallsExtend_trans {σ : Type} (P : RepoCall → Prop) (w w1 w2 : World (Traced σ))
    (h1 : CallsExtend P w w1) (h2 : CallsExtend P w1 w2) : CallsExtend P w w2 := by
  obtain ⟨n1, e1, p1⟩ := h1
  obtain ⟨n2, e2, p2⟩ := h2
  refine ⟨n1 ++ n2, by rw [e2, e1, List.append_assoc], ?_⟩
  intro c hc
  rcases List.mem_append.mp hc with h | h
  · exact p1 c h
  · exact p2 c h

/-- A step that leaves the store alone makes no call. -/
theorem CallsExtend_of_store {σ : Type} (P : RepoCall → Prop) (w w1 : World (Traced σ))
    (h : w1.store = w.store) : CallsExtend P w w1 :=
  ⟨[], by simp [h], by simp⟩

/-- One recorded repository operation makes exactly its own call. -/
theorem CallsExtend_traced {σ α : Type} (P : RepoCall → Prop) (call : RepoCall)
    (op : World σ → Except GoError α × World σ) (w : World (Traced σ)) (h : P call) :
    CallsExtend P w (traced call op w).2 :=
  ⟨[call], rfl, by simpa using h⟩

theorem GenerateAccessToken_store {σ : Type} (lib : Lib) (secret userID role : String)
    (ttl : Duration) (w : World σ) :
    (GenerateAccessToken lib secret userID role ttl w).2.store = w.store := by
  rw [GenerateAccessToken_eq]
  cases lib.jwtSign secret (accessClaims lib userID role ttl w.tick) <;> rfl

theorem GenerateRefreshToken_store {σ : Type} (lib : Lib) (secret userID : String)
    (ttl : Duration) (w : World σ) :
    (GenerateRefreshToken lib secret userID ttl w).2.store = w.store := by
  rw [GenerateRefreshToken_eq]
  cases lib.jwtSign secret (refreshClaims lib userID ttl w.tick w.uuidIdx) <;> rfl

/-- A refresh token that `GenerateRefreshToken` returns is signed with the secret. -/
theorem GenerateRefreshToken_signed {σ : Type} (lib : Lib) (secret userID : String)
    (ttl : Duration) (w w1 : World σ) (token : String) (exp : Time)
    (h : GenerateRefreshToken lib secret userID ttl w = (.ok (token, exp), w1)) :
    lib.jwtSign secret (refreshClaims lib userID ttl w.tick w.uuidIdx) = .ok token := by
  rw [GenerateRefreshToken_eq] at h
  cases hs : lib.jwtSign secret (refreshClaims lib userID ttl w.tick w.uuidIdx) with
  | error err => simp [hs] at h
  | ok signed =>
    simp only [hs, Prod.mk.injEq, Except.ok.injEq] at h
    rw [h.1.1]

/-- The calls of `issueTokens`, over every repository: at most one, a `Save` whose
key is the fingerprint of the refresh token just signed, with the user id it was
called with. -/
theorem issueTokens_calls {σ : Type} (lib : Lib) (cfg : Config) (repo : Repository σ)
    (P : RepoCall → Prop) (userID role : String) (w : World (Traced σ))
    (hP : ∀ token claims exp, lib.jwtSign cfg.RefreshTokenSecret claims = .ok token →
      P (.RefreshTokensSave (HashToken lib token) userID exp)) :
    CallsExtend P w
      (AuthService.issueTokens lib cfg (tracedRepository repo) userID role w).2 := by
  unfold AuthService.issueTokens
  have h1 := GenerateAccessToken_store lib cfg.AccessTokenSecret userID role cfg.AccessTokenTTL w
  revert h1
  generalize GenerateAccessToken lib cfg.AccessTokenSecret userID role cfg.AccessTokenTTL w = r1
  obtain ⟨res1, w1⟩ := r1
  intro h1
  have e1 := CallsExtend_of_store P w w1 h1
  cases res1 with
  | error err => exact e1
  | ok p1 =>
    obtain ⟨access, accessExp⟩ := p1
    simp only []
    have h2 := GenerateRefreshToken_store lib cfg.RefreshTokenSecret userID cfg.RefreshTokenTTL w1
    revert h2
    generalize hg : GenerateRefreshToken lib cfg.RefreshTokenSecret userID
      cfg.RefreshTokenTTL w1 = r2
    obtain ⟨res2, w2⟩ := r2
    intro h2
    have e2 := CallsExtend_trans P _ _ _ e1 (CallsExtend_of_store P w1 w2 h2)
    cases res2 with
    | error err => exact e2
    | ok p2 =>
      obtain ⟨refresh, refreshExp⟩ := p2
      have hs := GenerateRefreshToken_signed lib _ _ _ _ _ _ _ hg
      have e3 := CallsExtend_traced P (.RefreshTokensSave (HashToken lib refresh) userID refreshExp)
        (repo.RefreshTokens.Save (HashToken lib refresh) userID refreshExp) w2
        (hP refresh _ refreshExp hs)
      simp only [tracedRepository]
      revert e3
      generalize traced (RepoCall.RefreshTokensSave (HashToken lib refresh) userID refreshExp)
        (repo.RefreshTokens.Save (HashToken lib refresh) userID refreshExp) w2 = r3
      obtain ⟨res3, w3⟩ := r3
      intro e3
      have e4 := CallsExtend_trans P _ _ _ e2 e3
      cases res3 with
      | error err => exact e4
      | ok u =>
        exact CallsExtend_trans P _ _ _ e4 (CallsExtend_of_store P _ _ rfl)

/-- The calls of `Logout`, over every repository: one `Delete` of the fingerprint. -/
theorem Logout_calls {σ : Type} (lib : Lib) (repo : Repository σ) (t : String)
    (w : World (Traced σ)) :
    (AuthService.Logout lib (tracedRepository repo) t w).2.store.calls =
      w.store.calls ++ [.RefreshTokensDelete (HashToken lib t)] :=
  rfl

/-- The calls of `Login`, over every repository: `GetByEmail`, then those of
`issueTokens`. -/
theorem Login_calls {σ : Type} (lib : Lib) (cfg : Config) (repo : Repository σ)
    (P : RepoCall → Prop) (email password : String) (w : World (Traced σ))
    (hget : P (.UsersGetByEmail email))
    (hP : ∀ token claims userID exp, lib.jwtSign cfg.RefreshTokenSecret claims = .ok token →
      P (.RefreshTokensSave (HashToken lib token) userID exp)) :
    CallsExtend P w (AuthService.Login lib cfg (tracedRepository repo) email password w).2 := by
  unfold AuthService.Login
  have e1 := CallsExtend_traced P (.UsersGetByEmail email) (repo.Users.GetByEmail email) w hget
  simp only [tracedRepository]
  revert e1
  generalize traced (RepoCall.UsersGetByEmail email) (repo.Users.GetByEmail email) w = r1
  obtain ⟨res1, w1⟩ := r1
  intro e1
  cases res1 with
  | error err => exact e1
  | ok user =>
    simp only []
    cases lib.bcryptCompare user.PasswordHash password with
    | error err => exact e1
    | ok u =>
      have e2 := issueTokens_calls lib cfg repo P user.ID user.Role w1
        (fun token claims exp hs => hP token claims user.ID exp hs)
      simp only [tracedRepository] at e2
      revert e2
      generalize AuthService.issueTokens lib cfg _ user.ID user.Role w1 = r2
      obtain ⟨res2, w2⟩ := r2
      intro e2
      cases res2 <;> exact CallsExtend_trans P _ _ _ e1 e2

/-- The calls of `Register`, over every repository: `Create` of a user with the
requested email, role `user` and no id, then those of `issueTokens`. -/
theorem Register_calls {σ : Type} (lib : Lib) (cfg : Config) (repo : Repository σ)
    (P : RepoCall → Prop) (req : RegisterRequest) (w : World (Traced σ))
    (hcreate : ∀ hashed, P (.UsersCreate
      { ID := "", Email := req.Email, PasswordHash := hashed, Role := RoleUser, CreatedAt := 0 }))
    (hP : ∀ token claims userID exp, lib.jwtSign cfg.RefreshTokenSecret claims = .ok token →
      P (.RefreshTokensSave (HashToken lib token) userID exp)) :
    CallsExtend P w (AuthService.Register lib cfg (tracedRepository repo) req w).2 := by
  unfold AuthService.Register bcryptGenerateFromPassword
  cases lib.bcryptGenerate req.Password w.saltIdx with
  | error err => exact CallsExtend_refl P w
  | ok hashed =>
    simp only []
    have e0 : CallsExtend P w { w with saltIdx := w.saltIdx + 1 } :=
      CallsExtend_of_store P _ _ rfl
    have e1 := CallsExtend_traced P _ (repo.Users.Create
      { ID := "", Email := req.Email, PasswordHash := hashed, Role := RoleUser, CreatedAt := 0 })
      { w with saltIdx := w.saltIdx + 1 } (hcreate hashed)
    simp only [tracedRepository]
    revert e1
    generalize traced _ (repo.Users.Create _) _ = r1
    obtain ⟨res1, w1⟩ := r1
    intro e1
    have e01 := CallsExtend_trans P _ _ _ e0 e1
    cases res1 with
    | error err => exact e01
    | ok user1 =>
      have e2 := issueTokens_calls lib cfg repo P user1.ID user1.Role w1
        (fun token claims exp hs => hP token claims user1.ID exp hs)
      simp only [tracedRepository] at e2
      simp only []
      revert e2
      generalize AuthService.issueTokens lib cfg _ user1.ID user1.Role w1 = r2
      obtain ⟨res2, w2⟩ := r2
      intro e2
      cases res2 <;> exact CallsExtend_trans P _ _ _ e01 e2

/-- The calls of `Refresh`, over every repository: none when verification fails;
else `Exists` of the fingerprint, `GetByID`, those of `issueTokens`, and `Delete`
of the fingerprint. -/
theorem Refresh_calls {σ : Type} (lib : Lib) (cfg : Config) (repo : Repository σ)
    (P : RepoCall → Prop) (R : String) (w : World (Traced σ))
    (hexists : P (.RefreshTokensExists (HashToken lib R)))
    (hget : ∀ id, P (.UsersGetByID id))
    (hP : ∀ token claims userID exp, lib.jwtSign cfg.RefreshTokenSecret claims = .ok token →
      P (.RefreshTokensSave (HashToken lib token) userID exp))
    (hdelete : P (.RefreshTokensDelete (HashToken lib R))) :
    CallsExtend P w (AuthService.Refresh lib cfg (tracedRepository repo) R w).2 := by
  unfold AuthService.Refresh
  have h1 := (ParseToken_world lib R cfg.RefreshTokenSecret w).1
  revert h1
  generalize ParseToken lib R cfg.RefreshTokenSecret w = r1
  obtain ⟨res1, w1⟩ := r1
  intro h1
  have e1 := CallsExtend_of_store P w w1 h1
  cases res1 with
  | error err => exact e1
  | ok claims =>
    simp only [tracedRepository]
    have e2 := CallsExtend_traced P _ (repo.RefreshTokens.Exists (HashToken lib R)) w1 hexists
    revert e2
    generalize traced _ (repo.RefreshTokens.Exists (HashToken lib R)) w1 = r2
    obtain ⟨res2, w2⟩ := r2
    intro e2
    have e12 := CallsExtend_trans P _ _ _ e1 e2
    cases res2 with
    | error err => exact e12
    | ok b =>
      cases b with
      | false => exact e12
      | true =>
        simp only []
        have e3 := CallsExtend_traced P _ (repo.Users.GetByID claims.UserID) w2
          (hget claims.UserID)
        revert e3
        generalize traced _ (repo.Users.GetByID claims.UserID) w2 = r3
        obtain ⟨res3, w3⟩ := r3
        intro e3
        have e13 := CallsExtend_trans P _ _ _ e12 e3
        cases res3 with
        | error err => exact e13
        | ok user =>
          have e4 := issueTokens_calls lib cfg repo P user.ID user.Role w3
            (fun token claims exp hs => hP token claims user.ID exp hs)
          simp only [tracedRepository] at e4
          simp only []
          revert e4
          generalize AuthService.issueTokens lib cfg _ user.ID user.Role w3 = r4
          obtain ⟨res4, w4⟩ := r4
          intro e4
          have e14 := CallsExtend_trans P _ _ _ e13 e4
          cases res4 with
          | error err => exact e14
          | ok tokens =>
            simp only []
            have e5 := CallsExtend_traced P _ (repo.RefreshTokens.Delete (HashToken lib R)) w4
              hdelete
            revert e5
            generalize traced _ (repo.RefreshTokens.Delete (HashToken lib R)) w4 = r5
            obtain ⟨res5, w5⟩ := r5
            intro e5
            cases res5 <;> exact CallsExtend_trans P _ _ _ e14 e5

theorem traced_calls {σ α : Type} (call : RepoCall) (op : World σ → Except GoError α × World σ)
    (w w1 : World (Traced σ)) (res : Except GoError α) (h : traced call op w = (res, w1)) :
    w1.store.calls = w.store.calls ++ [call] := by
  simp only [traced, Prod.mk.injEq] at h
  rw [← h.2]; rfl

/-- A successful `issueTokens`, over every repository, makes exactly one call: the
`Save` of the fingerprint of the refresh token it returns. -/
theorem issueTokens_calls_ok {σ : Type} (lib : Lib) (cfg : Config) (repo : Repository σ)
    (userID role : String) (w w1 : World (Traced σ)) (tokens : TokenPair)
    (h : AuthService.issueTokens lib cfg (tracedRepository repo) userID role w =
      (.ok tokens, w1)) :
    ∃ exp, w1.store.calls = w.store.calls ++
      [.RefreshTokensSave (HashToken lib tokens.RefreshToken) userID exp] := by
  unfold AuthService.issueTokens at h
  have h1 := GenerateAccessToken_store lib cfg.AccessTokenSecret userID role cfg.AccessTokenTTL w
  revert h h1
  generalize GenerateAccessToken lib cfg.AccessTokenSecret userID role cfg.AccessTokenTTL w = r1
  obtain ⟨res1, v1⟩ := r1
  intro h h1
  cases res1 with
  | error err => simp at h
  | ok p1 =>
    obtain ⟨access, accessExp⟩ := p1
    simp only [] at h
    have h2 := GenerateRefreshToken_store lib cfg.RefreshTokenSecret userID cfg.RefreshTokenTTL v1
    revert h h2
    generalize GenerateRefreshToken lib cfg.RefreshTokenSecret userID cfg.RefreshTokenTTL v1 = r2
    obtain ⟨res2, v2⟩ := r2
    intro h h2
    cases res2 with
    | error err => simp at h
    | ok p2 =>
      obtain ⟨refresh, refreshExp⟩ := p2
      simp only [tracedRepository] at h
      revert h
      generalize h3 : traced (RepoCall.RefreshTokensSave (HashToken lib refresh) userID refreshExp)
        (repo.RefreshTokens.Save (HashToken lib refresh) userID refreshExp) v2 = r3
      obtain ⟨res3, v3⟩ := r3
      intro h
      cases res3 with
      | error err => simp at h
      | ok u =>
        simp only [timeNow, Prod.mk.injEq, Except.ok.injEq] at h
        obtain ⟨ht, hw⟩ := h
        have hc := traced_calls _ _ _ _ _ h3
        refine ⟨refreshExp, ?_⟩
        rw [← hw, ← ht]
        simp only [] at h1 h2
        simp only [hc, h2, h1]

/-- The calls a successful `Login`, `Register` or `Refresh` makes, over every
repository, in order. -/
theorem successful_calls {σ : Type} (lib : Lib) (cfg : Config) (repo : Repository σ)
    (w w1 : World (Traced σ)) :
    (∀ email password resp,
      AuthService.Login lib cfg (tracedRepository repo) email password w = (.ok resp, w1) →
      ∃ exp, w1.store.calls = w.store.calls ++
        [.UsersGetByEmail email,
         .RefreshTokensSave (HashToken lib resp.TokenPair.RefreshToken) resp.User.ID exp]) ∧
    (∀ req resp,
      AuthService.Register lib cfg (tracedRepository repo) req w = (.ok resp, w1) →
      ∃ hashed exp, w1.store.calls = w.store.calls ++
        [.UsersCreate { ID := "", Email := req.Email, PasswordHash := hashed,
                        Role := RoleUser, CreatedAt := 0 },
         .RefreshTokensSave (HashToken lib resp.TokenPair.RefreshToken) resp.User.ID exp]) ∧
    (∀ R tokens user,
      AuthService.Refresh lib cfg (tracedRepository repo) R w = (.ok (tokens, user), w1) →
      ∃ id exp, w1.store.calls = w.store.calls ++
        [.RefreshTokensExists (HashToken lib R), .UsersGetByID id,
         .RefreshTokensSave (HashToken lib tokens.RefreshToken) user.ID exp,
         .RefreshTokensDelete (HashToken lib R)]) := by
  refine ⟨?_, ?_, ?_⟩
  · intro email password resp h
    unfold AuthService.Login at h
    simp only [tracedRepository] at h
    revert h
    generalize h1 : traced (RepoCall.UsersGetByEmail email) (repo.Users.GetByEmail email) w = r1
    obtain ⟨res1, v1⟩ := r1
    intro h
    cases res1 with
    | error err => simp at h
    | ok user =>
      simp only [] at h
      cases hb : lib.bcryptCompare user.PasswordHash password with
      | error err => simp [hb] at h
      | ok u =>
        simp only [hb] at h
        revert h
        generalize h2 : AuthService.issueTokens lib cfg _ user.ID user.Role v1 = r2
        obtain ⟨res2, v2⟩ := r2
        intro h
        cases res2 with
        | error err => simp at h
        | ok tokens =>
          simp only [Prod.mk.injEq, Except.ok.injEq] at h
          obtain ⟨hr, hw⟩ := h
          subst hr hw
          obtain ⟨exp, hc⟩ := issueTokens_calls_ok lib cfg repo _ _ _ _ _ h2
          refine ⟨exp, ?_⟩
          rw [hc, traced_calls _ _ _ _ _ h1]
          simp
  · intro req resp h
    unfold AuthService.Register bcryptGenerateFromPassword at h
    cases hb : lib.bcryptGenerate req.Password w.saltIdx with
    | error err => simp [hb] at h
    | ok hashed =>
      simp only [hb, tracedRepository] at h
      revert h
      generalize h1 : traced _ (repo.Users.Create _) _ = r1
      obtain ⟨res1, v1⟩ := r1
      intro h
      cases res1 with
      | error err => simp at h
      | ok user1 =>
        simp only [] at h
        revert h
        generalize h2 : AuthService.issueTokens lib cfg _ user1.ID user1.Role v1 = r2
        obtain ⟨res2, v2⟩ := r2
        intro h
        cases res2 with
        | error err => simp at h
        | ok tokens =>
          simp only [Prod.mk.injEq, Except.ok.injEq] at h
          obtain ⟨hr, hw⟩ := h
          subst hr hw
          obtain ⟨exp, hc⟩ := issueTokens_calls_ok lib cfg repo _ _ _ _ _ h2
          refine ⟨hashed, exp, ?_⟩
          rw [hc, traced_calls _ _ _ _ _ h1]
          simp
  · intro R tokens user h
    unfold AuthService.Refresh at h
    have hp := (ParseToken_world lib R cfg.RefreshTokenSecret w).1
    revert h hp
    generalize ParseToken lib R cfg.RefreshTokenSecret w = r1
    obtain ⟨res1, v1⟩ := r1
    intro h hp
    cases res1 with
    | error err => simp at h
    | ok claims =>
      simp only [tracedRepository] at h
      revert h
      generalize h2 : traced _ (repo.RefreshTokens.Exists (HashToken lib R)) v1 = r2
      obtain ⟨res2, v2⟩ := r2
      intro h
      cases res2 with
      | error err => simp at h
      | ok b =>
        cases b with
        | false => simp at h
        | true =>
          simp only [] at h
          revert h
          generalize h3 : traced _ (repo.Users.GetByID claims.UserID) v2 = r3
          obtain ⟨res3, v3⟩ := r3
          intro h
          cases res3 with
          | error err => simp at h
          | ok u =>
            simp only [] at h
            revert h
            generalize h4 : AuthService.issueTokens lib cfg _ u.ID u.Role v3 = r4
            obtain ⟨res4, v4⟩ := r4
            intro h
            cases res4 with
            | error err => simp at h
            | ok toks =>
              simp only [] at h
              revert h
              generalize h5 : traced _ (repo.RefreshTokens.Delete (HashToken lib R)) v4 = r5
              obtain ⟨res5, v5⟩ := r5
              intro h
              cases res5 with
              | error err => simp at h
              | ok un =>
                simp only [Prod.mk.injEq, Except.ok.injEq] at h
                obtain ⟨⟨ht, hu⟩, hw⟩ := h
                subst ht hu hw
                obtain ⟨exp, hc⟩ := issueTokens_calls_ok lib cfg repo _ _ _ _ _ h4
                refine ⟨claims.UserID, exp, ?_⟩
                rw [traced_calls _ _ _ _ _ h5, hc, traced_calls _ _ _ _ _ h3,
                  traced_calls _ _ _ _ _ h2]
                simp only [] at hp
                rw [hp]
                simp

/-! ## C20: only the fingerprint reaches the store -/

/-- C20 (only the fingerprint reaches the store).  Over every repository, with every
call recorded: in a `Register`, `Login`, `Refresh` or `Logout`, whatever it returns,
each `Save` has as key `HashToken` of a refresh token signed in that call, each
`Exists` and `Delete` has as key `HashToken` of the token the operation was called
on, and `DeleteByUser` is not called.  When `Login`, `Register` or `Refresh`
succeeds, the `Save` key is `HashToken` of the refresh token returned.  `HashToken`
is the hex SHA-256 digest, a function of the token alone, so the same token gives
the same key in `Save`, `Exists` and `Delete`; the key is not the raw token wherever
the digest of a token differs from the token. -/
theorem only_fingerprint_reaches_store {σ : Type} (lib : Lib) (cfg : Config)
    (repo : Repository σ) (op : AuthOp) (w : World (Traced σ)) :
    CallsExtend (keyIsFingerprint lib cfg op.token) w
      (op.step lib cfg (tracedRepository repo) w) ∧
    (∀ w1 email password resp,
      AuthService.Login lib cfg (tracedRepository repo) email password w = (.ok resp, w1) →
      ∃ exp, w1.store.calls = w.store.calls ++
        [.UsersGetByEmail email,
         .RefreshTokensSave (HashToken lib resp.TokenPair.RefreshToken) resp.User.ID exp]) ∧
    (∀ w1 req resp,
      AuthService.Register lib cfg (tracedRepository repo) req w = (.ok resp, w1) →
      ∃ hashed exp, w1.store.calls = w.store.calls ++
        [.UsersCreate { ID := "", Email := req.Email, PasswordHash := hashed,
                        Role := RoleUser, CreatedAt := 0 },
         .RefreshTokensSave (HashToken lib resp.TokenPair.RefreshToken) resp.User.ID exp]) ∧
    (∀ w1 R tokens user,
      AuthService.Refresh lib cfg (tracedRepository repo) R w = (.ok (tokens, user), w1) →
      ∃ id exp, w1.store.calls = w.store.calls ++
        [.RefreshTokensExists (HashToken lib R), .UsersGetByID id,
         .RefreshTokensSave (HashToken lib tokens.RefreshToken) user.ID exp,
         .RefreshTokensDelete (HashToken lib R)]) ∧
    (∀ t, (AuthService.Logout lib (tracedRepository repo) t w).2.store.calls =
      w.store.calls ++ [.RefreshTokensDelete (HashToken lib t)]) ∧
    (∀ t, HashToken lib t = lib.sha256Hex t) ∧
    (∀ t, lib.sha256Hex t ≠ t → HashToken lib t ≠ t) := by
  refine ⟨?_, fun w1 => (successful_calls lib cfg repo w w1).1,
    fun w1 => (successful_calls lib cfg repo w w1).2.1,
    fun w1 => (successful_calls lib cfg repo w w1).2.2, fun t => Logout_calls lib repo t w,
    fun _ => rfl, fun _ h => h⟩
  have hsave : ∀ (arg : Option String) token claims userID exp,
      lib.jwtSign cfg.RefreshTokenSecret claims = .ok token →
      keyIsFingerprint lib cfg arg (.RefreshTokensSave (HashToken lib token) userID exp) :=
    fun _ token claims _ _ hs => ⟨token, claims, hs, rfl⟩
  cases op with
  | register email password =>
    exact Register_calls lib cfg repo _ _ w (fun _ => trivial) (hsave none)
  | login email password =>
    exact Login_calls lib cfg repo _ email password w trivial (hsave none)
  | refresh R =>
    exact Refresh_calls lib cfg repo _ R w ⟨R, rfl, rfl⟩ (fun _ => trivial) (hsave (some R))
      ⟨R, rfl, rfl⟩
  | logout R =>
    exact ⟨[.RefreshTokensDelete (HashToken lib R)], Logout_calls lib repo R w,
      by simp [keyIsFingerprint, AuthOp.token]⟩

/-! ## C16: registration never grants admin -/

theorem mem_mapDelete {α : Type} (m : List (String × α)) (k : String) (e : String × α)
    (h : e ∈ mapDelete m k) : e ∈ m := by
  simp only [mapDelete, List.mem_filter] at h
  exact h.1

theorem mem_mapSet {α : Type} (m : List (String × α)) (k : String) (v : α) (e : String × α)
    (h : e ∈ mapSet m k v) : e ∈ m ∨ e = (k, v) := by
  simp only [mapSet, List.mem_append, List.mem_singleton] at h
  rcases h with h | h
  · exact Or.inl (mem_mapDelete m k e h)
  · exact Or.inr h

/-- Whatever `issueTokens` answers over the in-memory repository, the users stay. -/
theorem issueTokens_memory_users (lib : Lib) (cfg : Config) (userID role : String)
    (w : World memoryStore) :
    (AuthService.issueTokens lib cfg (memoryRepository lib) userID role w).2.store.users =
      w.store.users := by
  generalize h : AuthService.issueTokens lib cfg (memoryRepository lib) userID role w = r
  obtain ⟨res, w1⟩ := r
  cases res with
  | error err => rw [(issueTokens_memory_err lib cfg userID role w w1 err h).1]
  | ok tokens =>
    rw [(issueTokens_memory_inv lib cfg userID role w w1 tokens h).2.2.2]
    rfl

/-- Whatever `Register` answers over the in-memory repository, a user of the world it
leaves was there before or has the role `user`. -/
theorem Register_memory_users (lib : Lib) (cfg : Config) (req : RegisterRequest)
    (w : World memoryStore) :
    ∀ e ∈ (AuthService.Register lib cfg (memoryRepository lib) req w).2.store.users,
      e ∈ w.store.users ∨ e.2.Role = RoleUser := by
  unfold AuthService.Register bcryptGenerateFromPassword
  cases hb : lib.bcryptGenerate req.Password w.saltIdx with
  | error err => intro e he; exact Or.inl he
  | ok hashed =>
    by_cases hdup : ∃ e ∈ w.store.users, e.2.Email = req.Email
    · have hc := Create_dup lib
        { ID := "", Email := req.Email, PasswordHash := hashed, Role := RoleUser,
          CreatedAt := 0 } (saltDrawn w) hdup
      simp only [saltDrawn] at hc
      simp only [memoryRepository, hc]
      intro e he; exact Or.inl he
    · push_neg at hdup
      have hc := Create_new_ok lib req.Email hashed RoleUser (saltDrawn w) hdup
      simp only [saltDrawn] at hc
      simp only [memoryRepository, hc]
      have hu := issueTokens_memory_users lib cfg
        (createdUser lib req.Email hashed RoleUser { w with saltIdx := w.saltIdx + 1 }).ID
        (createdUser lib req.Email hashed RoleUser { w with saltIdx := w.saltIdx + 1 }).Role
        (createdWorld lib req.Email hashed RoleUser { w with saltIdx := w.saltIdx + 1 })
      simp only [memoryRepository] at hu
      revert hu
      generalize AuthService.issueTokens lib cfg _ _ _ _ = r
      obtain ⟨res, w2⟩ := r
      intro hu e he
      have he2 : e ∈ w2.store.users := by
        cases res <;> exact he
      simp only [] at hu
      rw [hu] at he2
      rcases mem_mapSet _ _ _ _ he2 with h | h
      · exact Or.inl h
      · right; rw [h]; rfl

/-- C16 (registration never grants admin).  Whenever `Register` succeeds over the
in-memory repository, the user returned has role `user` (not `admin`), that user is
the one stored under its id, and the access token of the returned pair is the
signature of claims with that user's id and role `user`, so that `ParseToken` of it
before its signed expiry gives role `user`.  Whatever `Register` answers, every user
with role `admin` in the world it leaves was there before.  Over every repository,
with every call recorded, each `Users.Create` that `Register` makes passes a user
with role `user`, and on success the access token is signed with the role of the
user the repository returned. -/
theorem registration_never_grants_admin (lib : Lib) (cfg : Config) (req : RegisterRequest)
    (w w1 : World memoryStore) (resp : AuthResponse)
    (h : AuthService.Register lib cfg (memoryRepository lib) req w = (.ok resp, w1)) :
    resp.User.Role = RoleUser ∧ resp.User.Role ≠ RoleAdmin ∧
    resp.User.Email = req.Email ∧
    mapGet w1.store.users resp.User.ID = some resp.User ∧
    lib.jwtSign cfg.AccessTokenSecret
      (accessClaims lib resp.User.ID RoleUser cfg.AccessTokenTTL (w.tick + 1)) =
        .ok resp.TokenPair.AccessToken ∧
    (lib.JwtRoundTrip → ∀ w2 : World memoryStore,
      lib.clock w2.tick < NewNumericDate (lib.clock (w.tick + 1) + cfg.AccessTokenTTL) →
      ∃ claims w3, ParseToken lib resp.TokenPair.AccessToken cfg.AccessTokenSecret w2 =
        (.ok claims, w3) ∧ claims.Role = RoleUser ∧ claims.UserID = resp.User.ID) ∧
    (∀ (req1 : RegisterRequest) (v : World memoryStore),
      ∀ e ∈ (AuthService.Register lib cfg (memoryRepository lib) req1 v).2.store.users,
        e.2.Role = RoleAdmin → e ∈ v.store.users) ∧
    (∀ (σ : Type) (repo : Repository σ) (req1 : RegisterRequest) (v : World (Traced σ)),
      CallsExtend (fun c => ∀ u, c = .UsersCreate u → u.Role = RoleUser) v
        (AuthService.Register lib cfg (tracedRepository repo) req1 v).2) := by
  obtain ⟨hashed, hb, hnone, huser, hi⟩ :=
    Register_memory_inv lib cfg req.Email req.Password w w1 resp h
  have hrole : resp.User.Role = RoleUser := by rw [huser]; rfl
  have hsig := issueTokens_access_inv lib cfg (memoryRepository lib) _ _ _ _ _ hi
  have htick : (createdWorld lib req.Email hashed RoleUser (saltDrawn w)).tick = w.tick + 1 := rfl
  rw [htick] at hsig
  refine ⟨hrole, ?_, ?_, ?_, hsig, ?_, ?_, ?_⟩
  · rw [hrole]; decide
  · rw [huser]; rfl
  · rw [(issueTokens_memory_inv lib cfg _ _ _ _ _ hi).2.2.2, huser]
    simp only [issuedWorld, createdWorld, createdUser, saltDrawn]
    exact mapGet_mapSet_self _ _ _
  · intro hrt w2 hbefore
    refine ⟨_, _, ParseToken_ok lib _ _ w2 _ (hrt _ _ _ hsig) ?_, rfl, rfl⟩
    intro exp hexp
    simp only [accessClaims, Option.some.injEq] at hexp
    rw [← hexp]; exact hbefore
  · intro req1 v e he hadmin
    rcases Register_memory_users lib cfg req1 v e he with h1 | h1
    · exact h1
    · rw [h1] at hadmin; exact absurd hadmin (by decide)
  · intro σ repo req1 v
    apply Register_calls lib cfg repo _ req1 v
    · intro hashed1 u hu
      simp only [RepoCall.UsersCreate.injEq] at hu
      rw [← hu]
    · intro token claims userID exp _ u hu
      simp at hu

/-- The theorem of C16 on the concrete run. -/
theorem registration_never_grants_admin_witness :
    demoResponse.User.Role = RoleUser ∧ demoResponse.User.Role ≠ RoleAdmin ∧
    demoResponse.User.Email = demoRequest.Email ∧
    mapGet demoRegistered.store.users demoResponse.User.ID = some demoResponse.User ∧
    demoLib.jwtSign demoCfg.AccessTokenSecret
      (accessClaims demoLib demoResponse.User.ID RoleUser demoCfg.AccessTokenTTL
        (demoWorld.tick + 1)) = .ok demoResponse.TokenPair.AccessToken ∧
    (demoLib.JwtRoundTrip → ∀ w2 : World memoryStore,
      demoLib.clock w2.tick <
        NewNumericDate (demoLib.clock (demoWorld.tick + 1) + demoCfg.AccessTokenTTL) →
      ∃ claims w3, ParseToken demoLib demoResponse.TokenPair.AccessToken
        demoCfg.AccessTokenSecret w2 = (.ok claims, w3) ∧
        claims.Role = RoleUser ∧ claims.UserID = demoResponse.User.ID) ∧
    (∀ (req1 : RegisterRequest) (v : World memoryStore),
      ∀ e ∈ (AuthService.Register demoLib demoCfg (memoryRepository demoLib) req1 v).2.store.users,
        e.2.Role = RoleAdmin → e ∈ v.store.users) ∧
    (∀ (σ : Type) (repo : Repository σ) (req1 : RegisterRequest) (v : World (Traced σ)),
      CallsExtend (fun c => ∀ u, c = .UsersCreate u → u.Role = RoleUser) v
        (AuthService.Register demoLib demoCfg (tracedRepository repo) req1 v).2) :=
  registration_never_grants_admin demoLib demoCfg demoRequest demoWorld demoRegistered
    demoResponse demo_register

/-! ## C17: refresh returns the owner -/

/-- The call `Refresh` over any repository, when it succeeds: the token decoded, the
repository answered that the record exists and returned the user for the decoded
id, and the pair was issued to the id and role of that user. -/
theorem Refresh_inv {σ : Type} (lib : Lib) (cfg : Config) (repo : Repository σ) (R : String)
    (w w1 : World σ) (tokens : TokenPair) (user : User)
    (h : AuthService.Refresh lib cfg repo R w = (.ok (tokens, user), w1)) :
    ∃ claims w2 w3 w4, lib.jwtDecode R cfg.RefreshTokenSecret = .ok claims ∧
      repo.RefreshTokens.Exists (HashToken lib R) { w with tick := w.tick + 1 } = (.ok true, w2) ∧
      repo.Users.GetByID claims.UserID w2 = (.ok user, w3) ∧
      AuthService.issueTokens lib cfg repo user.ID user.Role w3 = (.ok tokens, w4) := by
  suffices key : ∀ Q : Prop, (∀ claims w2 w3 w4,
      lib.jwtDecode R cfg.RefreshTokenSecret = .ok claims →
      repo.RefreshTokens.Exists (HashToken lib R) { w with tick := w.tick + 1 } = (.ok true, w2) →
      repo.Users.GetByID claims.UserID w2 = (.ok user, w3) →
      AuthService.issueTokens lib cfg repo user.ID user.Role w3 = (.ok tokens, w4) → Q) → Q from
    key _ (fun claims w2 w3 w4 a b c d => ⟨claims, w2, w3, w4, a, b, c, d⟩)
  intro Q hq
  unfold AuthService.Refresh at h
  generalize hp : ParseToken lib R cfg.RefreshTokenSecret w = r1 at h
  obtain ⟨res1, v1⟩ := r1
  cases res1 with
  | error err => simp at h
  | ok claims =>
    obtain ⟨hdec, hv1, _⟩ := ParseToken_inv lib R cfg.RefreshTokenSecret w v1 claims hp
    subst hv1
    simp only [] at h
    generalize h2 : repo.RefreshTokens.Exists (HashToken lib R) _ = r2 at h
    obtain ⟨res2, v2⟩ := r2
    cases res2 with
    | error err => simp at h
    | ok b =>
      cases b with
      | false => simp at h
      | true =>
        simp only [] at h
        generalize h3 : repo.Users.GetByID claims.UserID v2 = r3 at h
        obtain ⟨res3, v3⟩ := r3
        cases res3 with
        | error err => simp at h
        | ok u =>
          simp only [] at h
          generalize h4 : AuthService.issueTokens lib cfg repo u.ID u.Role v3 = r4 at h
          obtain ⟨res4, v4⟩ := r4
          cases res4 with
          | error err => simp at h
          | ok toks =>
            simp only [] at h
            generalize h5 : repo.RefreshTokens.Delete (HashToken lib R) v4 = r5 at h
            obtain ⟨res5, v5⟩ := r5
            cases res5 with
            | error err => simp at h
            | ok un =>
              simp only [Prod.mk.injEq, Except.ok.injEq] at h
              obtain ⟨⟨ht, hu⟩, _⟩ := h
              subst ht hu
              exact hq claims v2 v3 v4 hdec h2 h3 h4

/-- C17 (refresh returns the owner).  Let `R` be a refresh token issued to user `u`
(the signature, with the refresh secret, of claims whose `UserID` is `u`), let a
signed token decode to its claims, and let every stored user be stored under its own
id.  When `Refresh(R)` succeeds over the in-memory repository, the user returned is
the record stored under `u` at refresh time, its `ID` is `u`, it is still stored
afterwards, and the new access token is the signature of claims with `UserID = u`
and `Role` the role of that record, so `ParseToken` of it before its signed expiry
gives exactly these; the new refresh token is issued to `u` too.  Over every
repository, a successful `Refresh(R)` returns the user that `Users.GetByID(u)`
returned and signs the access token for the id and role of that user. -/
theorem refresh_returns_owner (lib : Lib) (cfg : Config) (R u : String) (claimsR : Claims)
    (w w1 : World memoryStore) (tokens : TokenPair) (user : User)
    (hrt : lib.JwtRoundTrip)
    (hissued : lib.jwtSign cfg.RefreshTokenSecret claimsR = .ok R)
    (hu : claimsR.UserID = u)
    (hkeyed : usersKeyedByID w.store.users)
    (h : AuthService.Refresh lib cfg (memoryRepository lib) R w = (.ok (tokens, user), w1)) :
    mapGet w.store.users u = some user ∧ user.ID = u ∧
    mapGet w1.store.users u = some user ∧
    lib.jwtSign cfg.AccessTokenSecret
      (accessClaims lib u user.Role cfg.AccessTokenTTL (w.tick + 2)) = .ok tokens.AccessToken ∧
    (∀ w2 : World memoryStore,
      lib.clock w2.tick < NewNumericDate (lib.clock (w.tick + 2) + cfg.AccessTokenTTL) →
      ∃ claims w3, ParseToken lib tokens.AccessToken cfg.AccessTokenSecret w2 =
        (.ok claims, w3) ∧ claims.UserID = u ∧ claims.Role = user.Role) ∧
    lib.jwtSign cfg.RefreshTokenSecret
      (refreshClaims lib u cfg.RefreshTokenTTL (w.tick + 4) w.uuidIdx) =
        .ok tokens.RefreshToken ∧
    (∀ (σ : Type) (repo : Repository σ) (v v1 : World σ) (tokens1 : TokenPair) (user1 : User),
      AuthService.Refresh lib cfg repo R v = (.ok (tokens1, user1), v1) →
      ∃ v2 v3, repo.Users.GetByID u v2 = (.ok user1, v3) ∧
        lib.jwtSign cfg.AccessTokenSecret
          (accessClaims lib user1.ID user1.Role cfg.AccessTokenTTL v3.tick) =
            .ok tokens1.AccessToken) := by
  have hdecR := hrt _ _ _ hissued
  obtain ⟨claims, e, hdec, _, _, _, huser, hnew, hw1⟩ :=
    Refresh_memory_inv lib cfg R w w1 tokens user h
  rw [hdecR] at hdec
  simp only [Except.ok.injEq] at hdec
  subst hdec
  rw [hu] at huser
  have hid : user.ID = u := (hkeyed (u, user) (mapGet_some_mem _ _ _ huser)).symm
  obtain ⟨claims2, w2, w3, w4, hdec2, hx, hg, hi⟩ :=
    Refresh_inv lib cfg (memoryRepository lib) R w w1 tokens user h
  rw [hdecR] at hdec2
  simp only [Except.ok.injEq] at hdec2
  subst hdec2
  obtain ⟨_, hw2⟩ := Exists_true_inv lib _ _ _ hx
  subst hw2
  have hw3 : w3.tick = w.tick + 2 := by
    simp only [memoryRepository, memoryUserRepo.GetByID, hu, huser, Prod.mk.injEq] at hg
    rw [← hg.2]
  have hsig := issueTokens_access_inv lib cfg (memoryRepository lib) _ _ _ _ _ hi
  rw [hw3, hid] at hsig
  rw [hid] at hnew
  refine ⟨huser, hid, ?_, hsig, ?_, hnew, ?_⟩
  · rw [hw1]; exact huser
  · intro v hbefore
    refine ⟨_, _, ParseToken_ok lib _ _ v _ (hrt _ _ _ hsig) ?_, rfl, rfl⟩
    intro exp hexp
    simp only [accessClaims, Option.some.injEq] at hexp
    rw [← hexp]; exact hbefore
  · intro σ repo v v1 tokens1 user1 h1
    obtain ⟨claims3, v2, v3, v4, hdec3, _, hg3, hi3⟩ := Refresh_inv lib cfg repo R v v1 tokens1 user1 h1
    rw [hdecR] at hdec3
    simp only [Except.ok.injEq] at hdec3
    subst hdec3
    rw [hu] at hg3
    exact ⟨v2, v3, hg3, issueTokens_access_inv lib cfg repo _ _ _ _ _ hi3⟩

/-- The theorem of C17 on the concrete run. -/
theorem refresh_returns_owner_witness :
    mapGet demoRegistered.store.users "u" = some demoUser ∧ demoUser.ID = "u" ∧
    mapGet demoRotated.store.users "u" = some demoUser ∧
    demoLib.jwtSign demoCfg.AccessTokenSecret
      (accessClaims demoLib "u" demoUser.Role demoCfg.AccessTokenTTL (demoRegistered.tick + 2)) =
        .ok demoRotatedTokens.AccessToken ∧
    (∀ w2 : World memoryStore,
      demoLib.clock w2.tick <
        NewNumericDate (demoLib.clock (demoRegistered.tick + 2) + demoCfg.AccessTokenTTL) →
      ∃ claims w3, ParseToken demoLib demoRotatedTokens.AccessToken demoCfg.AccessTokenSecret w2 =
        (.ok claims, w3) ∧ claims.UserID = "u" ∧ claims.Role = demoUser.Role) ∧
    demoLib.jwtSign demoCfg.RefreshTokenSecret
      (refreshClaims demoLib "u" demoCfg.RefreshTokenTTL (demoRegistered.tick + 4)
        demoRegistered.uuidIdx) = .ok demoRotatedTokens.RefreshToken ∧
    (∀ (σ : Type) (repo : Repository σ) (v v1 : World σ) (tokens1 : TokenPair) (user1 : User),
      AuthService.Refresh demoLib demoCfg repo demoRefreshToken v = (.ok (tokens1, user1), v1) →
      ∃ v2 v3, repo.Users.GetByID "u" v2 = (.ok user1, v3) ∧
        demoLib.jwtSign demoCfg.AccessTokenSecret
          (accessClaims demoLib user1.ID user1.Role demoCfg.AccessTokenTTL v3.tick) =
            .ok tokens1.AccessToken) :=
  refresh_returns_owner demoLib demoCfg demoRefreshToken "u" demoRefreshClaims demoRegistered
    demoRotated demoRotatedTokens demoUser demoLib_roundtrip rfl rfl
    (by intro e he; simp [demoRegistered] at he; subst he; rfl) demo_refresh

/-! ## C19: refresh without a live record -/

/-- A record whose expiry the clock has passed answers false and is deleted. -/
theorem Exists_expired (lib : Lib) (token : String) (w : World memoryStore) (e : Time)
    (h : mapGet w.store.refreshTokens token = some e) (hnow : e < lib.clock w.tick) :
    memoryRefreshRepo.Exists lib token w =
      (.ok false, { w with
        tick := w.tick + 1
        store := { w.store with refreshTokens := mapDelete w.store.refreshTokens token } }) := by
  have : lib.clock w.tick > e := hnow
  simp [memoryRefreshRepo.Exists, h, timeNow, this]

/-- A token whose signed expiry the clock has reached fails verification in
`Refresh`, over every repository, before the repository is asked. -/
theorem Refresh_token_expired {σ : Type} (lib : Lib) (cfg : Config) (repo : Repository σ)
    (R : String) (w : World σ) (claims : Claims) (exp : Time)
    (hdec : lib.jwtDecode R cfg.RefreshTokenSecret = .ok claims)
    (hexp : claims.ExpiresAt = some exp) (hpast : ¬ lib.clock w.tick < exp) :
    AuthService.Refresh lib cfg repo R w =
      (.error ErrTokenExpired, { w with tick := w.tick + 1 }) := by
  simp [AuthService.Refresh, ParseToken_eq, hdec, hexp, hpast]

/-- C19, as the code has it: a naturally expired record is not answered with
`refresh token not found`.  On the concrete run with a clock that jumps past the
hour after the registration, the registration stores the record of its refresh
token with expiry `1700003600003000000`; at the next clock reading that instant has
passed, and `Refresh` of the token fails with the expiry error of verification,
which is not the error `refresh token not found` that the same token gets on the
fresh store, where its record was never saved. -/
theorem expired_record_answers_token_expired :
    AuthService.Register (jumpLib 6) demoCfg (memoryRepository (jumpLib 6)) demoRequest
      demoWorld = (.ok demoResponse, demoRegistered) ∧
    (jumpLib 6).jwtSign demoCfg.RefreshTokenSecret demoRefreshClaims =
      .ok demoResponse.TokenPair.RefreshToken ∧
    mapGet demoRegistered.store.refreshTokens
      (HashToken (jumpLib 6) demoResponse.TokenPair.RefreshToken) =
        some 1700003600003000000 ∧
    1700003600003000000 < (jumpLib 6).clock demoRegistered.tick ∧
    AuthService.Refresh (jumpLib 6) demoCfg (memoryRepository (jumpLib 6))
      demoResponse.TokenPair.RefreshToken demoRegistered =
        (.error ErrTokenExpired, { demoRegistered with tick := 7 }) ∧
    ErrTokenExpired.Error = "token has invalid claims: token is expired" ∧
    ErrTokenExpired ≠ GoError.New "refresh token not found" ∧
    AuthService.Refresh (jumpLib 6) demoCfg (memoryRepository (jumpLib 6))
      demoResponse.TokenPair.RefreshToken demoWorld =
        (.error (.New "refresh token not found"), { demoWorld with tick := 1 }) := by
  refine ⟨by decide!, rfl, by decide!, by decide!, by decide!, rfl, by decide, by decide!⟩

/-- C19, amended.  Let `R` decode under the refresh secret and let the clock
reading at which `Refresh` verifies it be before its signed expiry.  Then
`Refresh(R)` over the in-memory repository fails with the one error
`refresh token not found` whether `R` has no record or its record has an expiry
that has passed when the store is asked, and afterwards `R` has no record.  A
`Logout(R)` and the rotation of `R` each leave `R` without record.  A token whose
signed expiry has been reached fails with the expiry error of verification instead,
over every repository. -/
theorem refresh_without_live_record (lib : Lib) (cfg : Config) (R : String) (claims : Claims)
    (w : World memoryStore)
    (hdec : lib.jwtDecode R cfg.RefreshTokenSecret = .ok claims)
    (hexp : ∀ exp, claims.ExpiresAt = some exp → lib.clock w.tick < exp)
    (hdead : mapGet w.store.refreshTokens (HashToken lib R) = none ∨
      ∃ e, mapGet w.store.refreshTokens (HashToken lib R) = some e ∧
        e < lib.clock (w.tick + 1)) :
    (∃ w1, AuthService.Refresh lib cfg (memoryRepository lib) R w =
        (.error (.New "refresh token not found"), w1) ∧
      mapGet w1.store.refreshTokens (HashToken lib R) = none ∧
      w1.store.users = w.store.users) ∧
    (∀ v : World memoryStore,
      mapGet (AuthService.Logout lib (memoryRepository lib) R v).2.store.refreshTokens
        (HashToken lib R) = none) ∧
    (∀ (v : World memoryStore) (new : String),
      mapGet (rotatedWorld lib cfg R new v).store.refreshTokens (HashToken lib R) = none) ∧
    (∀ (σ : Type) (repo : Repository σ) (v : World σ) (exp : Time),
      claims.ExpiresAt = some exp → ¬ lib.clock v.tick < exp →
      AuthService.Refresh lib cfg repo R v =
        (.error ErrTokenExpired, { v with tick := v.tick + 1 })) := by
  refine ⟨?_, fun v => mapGet_mapDelete_self _ _, fun v new => mapGet_mapDelete_self _ _,
    fun σ repo v exp he hp => Refresh_token_expired lib cfg repo R v claims exp hdec he hp⟩
  rcases hdead with hnone | ⟨e, hrec, hpast⟩
  · exact ⟨_, Refresh_memory_absent lib cfg R w claims hdec hexp hnone, hnone, rfl⟩
  · have hp := ParseToken_ok lib R cfg.RefreshTokenSecret w claims hdec hexp
    have hx := Exists_expired lib (HashToken lib R) { w with tick := w.tick + 1 } e hrec hpast
    have href : AuthService.Refresh lib cfg (memoryRepository lib) R w =
        (.error (.New "refresh token not found"),
         { w with
           tick := w.tick + 1 + 1
           store := { w.store with
             refreshTokens := mapDelete w.store.refreshTokens (HashToken lib R) } }) := by
      simp only [AuthService.Refresh, hp, memoryRepository, hx]
    exact ⟨_, href, mapGet_mapDelete_self _ _, rfl⟩

/-- The theorem of C19, amended, on the concrete run with a clock that jumps past the
hour between the verification of the token and the question to the store. -/
theorem refresh_without_live_record_witness :
    (∃ w1, AuthService.Refresh (jumpLib 7) demoCfg (memoryRepository (jumpLib 7))
        demoRefreshToken demoRegistered = (.error (.New "refresh token not found"), w1) ∧
      mapGet w1.store.refreshTokens (HashToken (jumpLib 7) demoRefreshToken) = none ∧
      w1.store.users = demoRegistered.store.users) ∧
    (∀ v : World memoryStore,
      mapGet (AuthService.Logout (jumpLib 7) (memoryRepository (jumpLib 7)) demoRefreshToken
        v).2.store.refreshTokens (HashToken (jumpLib 7) demoRefreshToken) = none) ∧
    (∀ (v : World memoryStore) (new : String),
      mapGet (rotatedWorld (jumpLib 7) demoCfg demoRefreshToken new v).store.refreshTokens
        (HashToken (jumpLib 7) demoRefreshToken) = none) ∧
    (∀ (σ : Type) (repo : Repository σ) (v : World σ) (exp : Time),
      demoRefreshClaims.ExpiresAt = some exp → ¬ (jumpLib 7).clock v.tick < exp →
      AuthService.Refresh (jumpLib 7) demoCfg repo demoRefreshToken v =
        (.error ErrTokenExpired, { v with tick := v.tick + 1 })) :=
  refresh_without_live_record (jumpLib 7) demoCfg demoRefreshToken demoRefreshClaims
    demoRegistered (by decide!)
    (by intro exp he; simp only [demoRefreshClaims, Option.some.injEq] at he; rw [← he]; decide!)
    (Or.inr ⟨1700003600003000000, by decide!, by decide!⟩)

/-! ## C18: expiresIn -/

theorem roundHalfEven_div (M D sec P : Nat) (hD : 0 < D)
    (hlo : sec * P * D ≤ M) (hhi : 2 * M + D < 2 * ((sec + 1) * P) * D) :
    roundHalfEven M D / P = sec := by
  have hdm : D * (M / D) + M % D = M := Nat.div_add_mod M D
  have hr : M % D < D := Nat.mod_lt M hD
  have hq : sec * P ≤ M / D := (Nat.le_div_iff_mul_le hD).mpr hlo
  have hval : sec * P ≤ roundHalfEven M D ∧ roundHalfEven M D < (sec + 1) * P := by
    have h4 : 2 * ((sec + 1) * P) * D = 2 * ((sec + 1) * P * D) := by ring
    have hlt : M / D < (sec + 1) * P := by
      by_contra hc
      push_neg at hc
      have h1 : M / D * D ≤ M := Nat.div_mul_le_self M D
      have h2 : (sec + 1) * P * D ≤ M / D * D := Nat.mul_le_mul_right D hc
      omega
    have hup : D ≤ 2 * (M % D) → M / D + 1 < (sec + 1) * P := by
      intro h2
      by_contra hc
      push_neg at hc
      have h3 : (sec + 1) * P * D ≤ (M / D + 1) * D := Nat.mul_le_mul_right D hc
      have h5 : (M / D + 1) * D = D * (M / D) + D := by ring
      omega
    unfold roundHalfEven
    simp only []
    split_ifs with h1 h2 h3
    · exact ⟨hq, hlt⟩
    · exact ⟨Nat.le_succ_of_le hq, hup (le_of_lt h2)⟩
    · exact ⟨hq, hlt⟩
    · exact ⟨Nat.le_succ_of_le hq, hup (not_lt.mp h1)⟩
  exact Nat.div_eq_of_lt_le hval.1 hval.2

theorem log2Fuel_le (fuel n k : Nat) (h : n < 2 ^ (k + 1)) : log2Fuel fuel n ≤ k := by
  induction fuel generalizing n k with
  | zero => simp [log2Fuel]
  | succ fuel ih =>
    unfold log2Fuel
    split_ifs with h2
    · exact Nat.zero_le k
    · cases k with
      | zero => simp at h; omega
      | succ k =>
        have : n / 2 < 2 ^ (k + 1) := by
          rw [Nat.div_lt_iff_lt_mul (by decide)]
          rw [pow_succ] at h
          exact h
        exact Nat.succ_le_succ (ih (n / 2) k this)

/-- The first rounding: `float64(nsec)/1e9` is a fraction below `1 - 2^-30`. -/
theorem float64Round_nsec (nsec : Nat) (h : nsec < 1000000000) :
    0 < (float64Round nsec 1000000000).2 ∧
    (float64Round nsec 1000000000).1 * 2 ^ 30 + (float64Round nsec 1000000000).2 <
      2 ^ 30 * (float64Round nsec 1000000000).2 := by
  unfold float64Round
  by_cases h0 : nsec = 0
  · simp [h0]
  · have hnot : ¬ 1000000000 ≤ nsec := not_le.mpr h
    simp only [h0, hnot, if_false]
    generalize hj : (if 1000000000 ≤ nsec * 2 ^ log2Floor (1000000000 / nsec)
      then log2Floor (1000000000 / nsec) else log2Floor (1000000000 / nsec) + 1) = j
    have hj1 : 1 ≤ j := by
      rw [← hj]
      split_ifs with hc
      · by_contra hz
        push_neg at hz
        have hz0 : log2Floor (1000000000 / nsec) = 0 := by omega
        rw [hz0] at hc
        simp at hc
        omega
      · omega
    have hP : 2 ^ 53 ≤ 2 ^ (52 + j) := Nat.pow_le_pow_right (by decide) (by omega)
    generalize 2 ^ (52 + j) = P at hP ⊢
    have hPpos : 0 < P := lt_of_lt_of_le (by decide) hP
    refine ⟨hPpos, ?_⟩
    have hq : nsec * P / 1000000000 * 1000000000 ≤ nsec * P := Nat.div_mul_le_self _ _
    have hn : nsec * P ≤ 999999999 * P := Nat.mul_le_mul_right P (by omega)
    have hr : roundHalfEven (nsec * P) 1000000000 ≤ nsec * P / 1000000000 + 1 := by
      unfold roundHalfEven
      simp only []
      split_ifs <;> omega
    norm_num at hP ⊢
    omega

/-- The second rounding and the truncation: below `2^24` seconds the whole seconds
come out exactly. -/
theorem float64Round_sum (sec f1 D : Nat) (hsec : sec < 2 ^ 24) (hD : 0 < D)
    (hf : f1 * 2 ^ 30 + D < 2 ^ 30 * D) :
    (float64Round (sec * D + f1) D).1 / (float64Round (sec * D + f1) D).2 = sec := by
  have hf1 : f1 < D := by
    by_contra hc
    push_neg at hc
    have : D * 2 ^ 30 ≤ f1 * 2 ^ 30 := Nat.mul_le_mul_right _ hc
    omega
  have key : ∀ s, 29 ≤ s →
      roundHalfEven ((sec * D + f1) * 2 ^ s) D / 2 ^ s = sec := by
    intro s hs
    apply roundHalfEven_div _ _ _ _ hD
    · have : sec * 2 ^ s * D = sec * D * 2 ^ s := by ring
      rw [this]
      exact Nat.mul_le_mul_right _ (Nat.le_add_right _ _)
    · obtain ⟨t, rfl⟩ : ∃ t, s = 29 + t := ⟨s - 29, by omega⟩
      have hT : 0 < 2 ^ t := Nat.pos_of_ne_zero (by positivity)
      have e1 : (2:Nat) ^ (29 + t) = 536870912 * 2 ^ t := by rw [pow_add]; norm_num
      rw [e1]
      generalize 2 ^ t = T at hT
      have hmul : (f1 * 2 ^ 30 + D) * T < 2 ^ 30 * D * T := Nat.mul_lt_mul_of_pos_right hf hT
      have hDT : D ≤ D * T := Nat.le_mul_of_pos_right D hT
      have l1 : 2 * ((sec * D + f1) * (536870912 * T)) + D =
          1073741824 * (sec * D * T) + 1073741824 * (f1 * T) + D := by ring
      have l2 : 2 * ((sec + 1) * (536870912 * T)) * D =
          1073741824 * (sec * D * T) + 1073741824 * (D * T) := by ring
      have l3 : (f1 * 2 ^ 30 + D) * T = 1073741824 * (f1 * T) + D * T := by ring
      have l4 : 2 ^ 30 * D * T = 1073741824 * (D * T) := by ring
      rw [l3, l4] at hmul
      rw [l1, l2]
      omega
  have hND : sec * D ≤ sec * D + f1 := Nat.le_add_right _ _
  unfold float64Round
  by_cases h0 : sec * D + f1 = 0
  · have hs0 : sec = 0 := by
      have : sec * D = 0 := by omega
      rcases Nat.mul_eq_zero.mp this with h | h
      · exact h
      · omega
    have hf0 : f1 = 0 := by omega
    simp [hs0, hf0]
  · simp only [h0, if_false]
    by_cases hle : D ≤ sec * D + f1
    · have hdiv : (sec * D + f1) / D = sec :=
        Nat.div_eq_of_lt_le hND (by rw [Nat.add_mul, Nat.one_mul]; omega)
      have he : log2Floor sec ≤ 23 := log2Fuel_le sec sec 23 hsec
      have he52 : log2Floor sec ≤ 52 := by omega
      simp only [hle, if_true, hdiv, he52]
      exact key _ (by omega)
    · simp only [hle, if_false]
      exact key _ (by omega)

/-- Below `2^24` seconds in magnitude, `int64(d.Seconds())` is the exact number of
whole seconds in `d`, truncated toward zero. -/
theorem wholeSeconds_exact (d : Duration) (h : d.natAbs < 2 ^ 24 * 1000000000) :
    wholeSeconds d = Int.tdiv d Second := by
  have hsec : d.natAbs / 1000000000 < 2 ^ 24 := by
    rw [Nat.div_lt_iff_lt_mul (by decide)]
    exact h
  have hns : d.natAbs % 1000000000 < 1000000000 := Nat.mod_lt _ (by decide)
  obtain ⟨hD, hf⟩ := float64Round_nsec (d.natAbs % 1000000000) hns
  have hx := float64Round_sum (d.natAbs / 1000000000) _ _ hsec hD hf
  unfold wholeSeconds int64OfFloat64 Duration.Seconds
  simp only []
  revert hx
  generalize float64Round (d.natAbs / 1000000000 *
    (float64Round (d.natAbs % 1000000000) 1000000000).2 +
    (float64Round (d.natAbs % 1000000000) 1000000000).1)
    (float64Round (d.natAbs % 1000000000) 1000000000).2 = x
  intro hx
  by_cases hneg : d < 0
  · simp only [hneg, if_true]
    rw [Int.neg_tdiv, ← Int.ofNat_tdiv, hx]
    have h1 : (d.natAbs : Int) = -d := Int.ofNat_natAbs_of_nonpos (le_of_lt hneg)
    have hd : d = -(d.natAbs : Int) := by rw [h1, neg_neg]
    conv_rhs => rw [hd]
    rw [Int.neg_tdiv]
    rfl
  · simp only [hneg, if_false]
    rw [← Int.ofNat_tdiv, hx]
    have hd : d = (d.natAbs : Int) := (Int.natAbs_of_nonneg (not_lt.mp hneg)).symm
    conv_rhs => rw [hd]
    rfl

theorem jumpLib_clock_mono (k m n : Nat) (h : m ≤ n) :
    (jumpLib k).clock m ≤ (jumpLib k).clock n := by
  simp only [jumpLib, demoLib]
  have hmn : (m : Int) ≤ (n : Int) := Int.ofNat_le.mpr h
  split_ifs with h1 h2 h2
  · linarith
  · linarith
  · omega
  · linarith

theorem demoLib_clock_mono (m n : Nat) (h : m ≤ n) : demoLib.clock m ≤ demoLib.clock n := by
  simp only [demoLib]
  have hmn : (m : Int) ≤ (n : Int) := Int.ofNat_le.mpr h
  linarith

/-- C18, as the code has it.  First: with the access lifetime of one minute and a
clock that never goes back but shows, from its fourth reading on, an instant an hour
later, `issueTokens` succeeds with `ExpiresIn = -3541`, below zero.  Second: with
an access lifetime of `16777217.003999999` seconds on the steady clock of the run,
the duration between the reading when the pair is built and the expiry instant is
`16777216.999999999` seconds, which has `16777216` whole seconds, and `issueTokens`
succeeds with `ExpiresIn = 16777217`, because `Duration.Seconds` is a `float64`. -/
theorem expires_in_negative_or_rounded_up :
    (0 ≤ demoCfg.AccessTokenTTL ∧
      (∀ m n, m ≤ n → (jumpLib 3).clock m ≤ (jumpLib 3).clock n) ∧
      ∃ tokens w1,
        AuthService.issueTokens (jumpLib 3) demoCfg (memoryRepository (jumpLib 3)) "u" "user"
          demoWorld = (.ok tokens, w1) ∧
        tokens.ExpiresIn = -3541 ∧ tokens.ExpiresIn < 0) ∧
    (0 ≤ longLivedCfg.AccessTokenTTL ∧
      (∀ m n, m ≤ n → demoLib.clock m ≤ demoLib.clock n) ∧
      ∃ tokens w1,
        AuthService.issueTokens demoLib longLivedCfg (memoryRepository demoLib) "u" "user"
          demoWorld = (.ok tokens, w1) ∧
        demoLib.clock demoWorld.tick + longLivedCfg.AccessTokenTTL -
          demoLib.clock (demoWorld.tick + 4) = 16777216999999999 ∧
        Int.tdiv (demoLib.clock demoWorld.tick + longLivedCfg.AccessTokenTTL -
          demoLib.clock (demoWorld.tick + 4)) Second = 16777216 ∧
        tokens.ExpiresIn = 16777217) := by
  refine ⟨⟨by decide, jumpLib_clock_mono 3, ?_⟩, ⟨by decide, demoLib_clock_mono, ?_⟩⟩
  · refine ⟨_, _, issueTokens_memory_ok (jumpLib 3) demoCfg "u" "user" demoWorld _ _ rfl rfl,
      ?_, ?_⟩ <;> decide!
  · refine ⟨_, _, issueTokens_memory_ok demoLib longLivedCfg "u" "user" demoWorld _ _ rfl rfl,
      ?_, ?_, ?_⟩ <;> decide!

/-! ## C21: protected routes require a valid bearer token -/

theorem span_until_space (a rest : List Char) (h : ∀ c ∈ a, c ≠ ' ') :
    (a ++ ' ' :: rest).span (fun c => decide (c ≠ ' ')) = (a, ' ' :: rest) := by
  rw [List.span_eq_take_drop]
  induction a with
  | nil => simp [List.takeWhile, List.dropWhile]
  | cons x xs ih =>
    have hx : x ≠ ' ' := h x (List.mem_cons_self _ _)
    have ih2 := ih (fun c hc => h c (List.mem_cons_of_mem _ hc))
    simp only [Prod.mk.injEq] at ih2
    have hp : (fun c => decide (c ≠ ' ')) x = true := by simpa using hx
    rw [List.cons_append,
      List.takeWhile_cons_of_pos (p := fun c => decide (c ≠ ' ')) hp,
      List.dropWhile_cons_of_pos (p := fun c => decide (c ≠ ' ')) hp, ih2.1, ih2.2]

/-- The call `strings.SplitN(header, " ", 2)` gives two parts exactly when the
header has a space, and then the parts are the text before the first space and the
text after it. -/
theorem stringsSplitN2_pair (header scheme token : String) :
    stringsSplitN2 header = [scheme, token] ↔
      header = scheme ++ " " ++ token ∧ ∀ c ∈ scheme.data, c ≠ ' ' := by
  constructor
  · intro h
    unfold stringsSplitN2 at h
    rw [List.span_eq_take_drop] at h
    have hsplit := List.takeWhile_append_dropWhile (fun c => decide (c ≠ ' ')) header.data
    have hall : ∀ c ∈ header.data.takeWhile (fun c => decide (c ≠ ' ')), c ≠ ' ' := by
      intro c hc
      simpa using List.mem_takeWhile_imp hc
    revert h hsplit
    cases hd : header.data.dropWhile (fun c => decide (c ≠ ' ')) with
    | nil => intro h; simp at h
    | cons x rest =>
      intro h hsplit
      simp only [List.cons.injEq, and_true] at h
      obtain ⟨h1, h2⟩ := h
      have hx : x = ' ' := by
        have := List.head_dropWhile_not (fun c => decide (c ≠ ' ')) header.data
          (by rw [hd]; simp)
        simp only [hd, List.head_cons] at this
        simpa using this
      subst hx
      refine ⟨?_, ?_⟩
      · apply String.ext
        rw [String.data_append, String.data_append, ← h1, ← h2]
        exact hsplit.symm.trans (by simp)
      · rw [← h1]; exact hall
  · rintro ⟨h, hns⟩
    have hdata : header.data = scheme.data ++ ' ' :: token.data := by
      rw [h, String.data_append, String.data_append]; simp
    unfold stringsSplitN2
    rw [hdata, span_until_space _ _ hns]

theorem equalFoldBearer_no_space (scheme : String) (h : equalFoldBearer scheme = true) :
    ∀ c ∈ scheme.data, c ≠ ' ' := by
  intro c hc hsp
  simp only [equalFoldBearer, decide_eq_true_eq] at h
  have hm : c.toLower ∈ scheme.data.map Char.toLower := List.mem_map_of_mem _ hc
  rw [h, hsp] at hm
  revert hm
  decide

theorem header_with_space_ne_empty (scheme token : String) : scheme ++ " " ++ token ≠ "" := by
  intro h
  have := congrArg String.length h
  simp [String.length_append] at this
  have h2 : " ".length = 1 := by decide
  omega

/-- C21 (protected routes require a valid bearer token).  For every header value and
every world, `WithAuth` calls the next handler if and only if the `Authorization`
header is `scheme ++ " " ++ token` with `scheme` equal to `Bearer` up to the case of
its letters and `ParseToken(token, AccessTokenSecret)` succeeds; it then passes on
the `UserID` and `Role` of the claims.  In every other case, the absent (empty)
header included, it answers 401 and does not call the next handler. -/
theorem protected_routes_need_bearer {σ : Type} (lib : Lib) (cfg : Config) (header : String)
    (w : World σ) :
    ((∃ userID role w1, WithAuth lib cfg header w = (.next userID role, w1)) ↔
      ∃ scheme token claims w1, header = scheme ++ " " ++ token ∧
        equalFoldBearer scheme = true ∧
        ParseToken lib token cfg.AccessTokenSecret w = (.ok claims, w1)) ∧
    (∀ scheme token claims w1, header = scheme ++ " " ++ token →
      equalFoldBearer scheme = true →
      ParseToken lib token cfg.AccessTokenSecret w = (.ok claims, w1) →
      WithAuth lib cfg header w = (.next claims.UserID claims.Role, w1)) ∧
    ((∃ userID role w1, WithAuth lib cfg header w = (.next userID role, w1)) ∨
      ∃ message w1, WithAuth lib cfg header w = (.rejected 401 message, w1)) ∧
    WithAuth lib cfg "" w = (.rejected 401 "missing authorization header", w) := by
  have hfwd : ∀ scheme token claims w1, header = scheme ++ " " ++ token →
      equalFoldBearer scheme = true →
      ParseToken lib token cfg.AccessTokenSecret w = (.ok claims, w1) →
      WithAuth lib cfg header w = (.next claims.UserID claims.Role, w1) := by
    intro scheme token claims w1 hh hf hp
    have hsplit := (stringsSplitN2_pair header scheme token).mpr
      ⟨hh, equalFoldBearer_no_space scheme hf⟩
    have hne : header ≠ "" := by rw [hh]; exact header_with_space_ne_empty scheme token
    simp only [WithAuth, hne, if_false, hsplit, hf, if_true, hp]
  have hcases : (∃ scheme token claims w1, header = scheme ++ " " ++ token ∧
        equalFoldBearer scheme = true ∧
        ParseToken lib token cfg.AccessTokenSecret w = (.ok claims, w1)) ∨
      ∃ message w1, WithAuth lib cfg header w = (.rejected 401 message, w1) := by
    unfold WithAuth
    by_cases hne : header = ""
    · right
      refine ⟨"missing authorization header", w, ?_⟩
      simp [hne]
    · simp only [hne, if_false]
      cases hs : stringsSplitN2 header with
      | nil => right; exact ⟨_, _, rfl⟩
      | cons scheme tl =>
        cases tl with
        | nil => right; exact ⟨_, _, rfl⟩
        | cons token tl2 =>
          cases tl2 with
          | cons x xs => right; exact ⟨_, _, rfl⟩
          | nil =>
            simp only []
            by_cases hf : equalFoldBearer scheme = true
            · simp only [hf, if_true]
              cases hp : ParseToken lib token cfg.AccessTokenSecret w with
              | mk res w1 =>
                cases res with
                | error err => right; exact ⟨_, _, rfl⟩
                | ok claims =>
                  left
                  exact ⟨scheme, token, claims, w1,
                    ((stringsSplitN2_pair header scheme token).mp hs).1, hf, hp⟩
            · right
              simp only [hf]
              exact ⟨_, _, rfl⟩
  refine ⟨⟨?_, ?_⟩, hfwd, ?_, by simp [WithAuth]⟩
  · rintro ⟨userID, role, w1, hn⟩
    rcases hcases with h | ⟨message, w2, hr⟩
    · exact h
    · rw [hn] at hr; simp at hr
  · rintro ⟨scheme, token, claims, w1, hh, hf, hp⟩
    exact ⟨_, _, _, hfwd scheme token claims w1 hh hf hp⟩
  · rcases hcases with ⟨scheme, token, claims, w1, hh, hf, hp⟩ | h
    · left; exact ⟨_, _, _, hfwd scheme token claims w1 hh hf hp⟩
    · right; exact h

/-! ## C22: two concurrent refreshes of one token -/

/-- A `Refresh` call run alone, step by step, is `AuthService.Refresh`: after its five
steps it has returned what `AuthService.Refresh` returns, in the same world. -/
theorem RefreshThread_run_alone {σ : Type} (lib : Lib) (cfg : Config) (repo : Repository σ)
    (R : String) (w : World σ) :
    RefreshThread.run lib cfg repo R 5 (.start, w) =
      (.returned (AuthService.Refresh lib cfg repo R w).1,
       (AuthService.Refresh lib cfg repo R w).2) := by
  simp only [RefreshThread.run, AuthService.Refresh]
  cases h1 : ParseToken lib R cfg.RefreshTokenSecret w with
  | mk res1 w1 =>
    cases res1 with
    | error err => simp [RefreshThread.step, h1]
    | ok claims =>
      cases h2 : repo.RefreshTokens.Exists (HashToken lib R) w1 with
      | mk res2 w2 =>
        cases res2 with
        | error err => simp [RefreshThread.step, h1, h2]
        | ok b =>
          cases b with
          | false => simp [RefreshThread.step, h1, h2]
          | true =>
            cases h3 : repo.Users.GetByID claims.UserID w2 with
            | mk res3 w3 =>
              cases res3 with
              | error err => simp [RefreshThread.step, h1, h2, h3]
              | ok user =>
                cases h4 : AuthService.issueTokens lib cfg repo user.ID user.Role w3 with
                | mk res4 w4 =>
                  cases res4 with
                  | error err => simp [RefreshThread.step, h1, h2, h3, h4]
                  | ok tokens =>
                    cases h5 : repo.RefreshTokens.Delete (HashToken lib R) w4 with
                    | mk res5 w5 =>
                      cases res5 with
                      | error err => simp [RefreshThread.step, h1, h2, h3, h4, h5]
                      | ok u => simp [RefreshThread.step, h1, h2, h3, h4, h5]

/-- C22 (two concurrent refreshes of one token), as the code has it.  `Refresh` asks
the store whether the record exists and deletes it only after the new pair is
issued, in separate calls on the repository.  On the store of the concrete run,
where the refresh token of the registration is live, two `Refresh` calls on that
token whose steps are interleaved so that both have asked `Exists` before either
has called `Delete` both return a token pair, and both new refresh-token records are
in the store afterwards; neither call fails with `refresh token not found`.  When
one call runs to its end before the other starts, the first succeeds and the second
fails with that error.  Run alone, the steps of a call are `AuthService.Refresh`. -/
theorem concurrent_refresh_both_succeed :
    (RefreshThread.interleave demoLib demoCfg (memoryRepository demoLib)
        demoRefreshToken demoRefreshToken
        [true, true, false, false, true, true, true, false, false, false]
        (.start, .start, demoRegistered)).1.succeeded = true ∧
    (RefreshThread.interleave demoLib demoCfg (memoryRepository demoLib)
        demoRefreshToken demoRefreshToken
        [true, true, false, false, true, true, true, false, false, false]
        (.start, .start, demoRegistered)).2.1.succeeded = true ∧
    mapLen (RefreshThread.interleave demoLib demoCfg (memoryRepository demoLib)
        demoRefreshToken demoRefreshToken
        [true, true, false, false, true, true, true, false, false, false]
        (.start, .start, demoRegistered)).2.2.store.refreshTokens = 2 ∧
    mapGet demoRegistered.store.refreshTokens (HashToken demoLib demoRefreshToken) =
      some 1700003600003000000 ∧
    (RefreshThread.interleave demoLib demoCfg (memoryRepository demoLib)
        demoRefreshToken demoRefreshToken
        [true, true, true, true, true, false, false, false, false, false]
        (.start, .start, demoRegistered)).1.succeeded = true ∧
    (RefreshThread.interleave demoLib demoCfg (memoryRepository demoLib)
        demoRefreshToken demoRefreshToken
        [true, true, true, true, true, false, false, false, false, false]
        (.start, .start, demoRegistered)).2.1.failedWith
          (.New "refresh token not found") = true ∧
    (∀ (σ : Type) (repo : Repository σ) (R : String) (w : World σ),
      RefreshThread.run demoLib demoCfg repo R 5 (.start, w) =
        (.returned (AuthService.Refresh demoLib demoCfg repo R w).1,
         (AuthService.Refresh demoLib demoCfg repo R w).2)) := by
  refine ⟨by decide!, by decide!, by decide!, by decide!, by decide!, by decide!,
    fun σ repo R w => RefreshThread_run_alone demoLib demoCfg repo R w⟩

theorem interleave_first_alone {σ : Type} (lib : Lib) (cfg : Config) (repo : Repository σ)
    (RA RB : String) (n : Nat) (schedule : List Bool) (a b : RefreshThread) (w : World σ) :
    RefreshThread.interleave lib cfg repo RA RB (List.replicate n true ++ schedule) (a, b, w) =
      RefreshThread.interleave lib cfg repo RA RB schedule
        ((RefreshThread.run lib cfg repo RA n (a, w)).1, b,
         (RefreshThread.run lib cfg repo RA n (a, w)).2) := by
  induction n generalizing a w with
  | zero => rfl
  | succ n ih =>
    rw [List.replicate_succ, List.cons_append, RefreshThread.interleave, ih]
    rfl

theorem interleave_second_alone {σ : Type} (lib : Lib) (cfg : Config) (repo : Repository σ)
    (RA RB : String) (n : Nat) (schedule : List Bool) (a b : RefreshThread) (w : World σ) :
    RefreshThread.interleave lib cfg repo RA RB (List.replicate n false ++ schedule) (a, b, w) =
      RefreshThread.interleave lib cfg repo RA RB schedule
        (a, (RefreshThread.run lib cfg repo RB n (b, w)).1,
         (RefreshThread.run lib cfg repo RB n (b, w)).2) := by
  induction n generalizing b w with
  | zero => rfl
  | succ n ih =>
    rw [List.replicate_succ, List.cons_append, RefreshThread.interleave, ih]
    rfl

/-! ## C25 and C26: what a failing refresh leaves alone -/

/-- C25 (garbage tokens never touch the store).  Over every repository, when
`ParseToken(t, RefreshTokenSecret)` fails, `Refresh(t)` returns that error in the
world `ParseToken` left, whose store is the store before the call.  With the calls
on the repository recorded, the log after the call is the log before it: no
`Exists`, `GetByID`, `Save` or `Delete`, nor any other call, is made. -/
theorem garbage_token_never_touches_store {σ : Type} (lib : Lib) (cfg : Config)
    (repo : Repository σ) (t : String) (w w1 : World (Traced σ)) (err : GoError)
    (hfail : ParseToken lib t cfg.RefreshTokenSecret w = (.error err, w1)) :
    AuthService.Refresh lib cfg (tracedRepository repo) t w = (.error err, w1) ∧
    w1.store.calls = w.store.calls ∧ w1.store.inner = w.store.inner ∧
    (∀ (v v1 : World σ) (err1 : GoError),
      ParseToken lib t cfg.RefreshTokenSecret v = (.error err1, v1) →
      AuthService.Refresh lib cfg repo t v = (.error err1, v1) ∧ v1.store = v.store) := by
  have hst : w1.store = w.store := by
    have := (ParseToken_world lib t cfg.RefreshTokenSecret w).1
    rw [hfail] at this
    exact this
  refine ⟨by simp only [AuthService.Refresh, hfail], by rw [hst], by rw [hst], ?_⟩
  intro v v1 err1 hv
  refine ⟨by simp only [AuthService.Refresh, hv], ?_⟩
  have := (ParseToken_world lib t cfg.RefreshTokenSecret v).1
  rw [hv] at this
  exact this

/-- The theorem of C25 on the concrete run, for a token that does not decode. -/
theorem garbage_token_never_touches_store_witness :
    AuthService.Refresh demoLib demoCfg (tracedRepository (memoryRepository demoLib)) "garbage"
        (Traced.lift [] demoRegistered) =
      (.error (.New "token is malformed"), Traced.lift [] demoRegistered) ∧
    (Traced.lift [] demoRegistered).store.calls = (Traced.lift [] demoRegistered).store.calls ∧
    (Traced.lift [] demoRegistered).store.inner = (Traced.lift [] demoRegistered).store.inner ∧
    (∀ (v v1 : World memoryStore) (err1 : GoError),
      ParseToken demoLib "garbage" demoCfg.RefreshTokenSecret v = (.error err1, v1) →
      AuthService.Refresh demoLib demoCfg (memoryRepository demoLib) "garbage" v =
        (.error err1, v1) ∧ v1.store = v.store) :=
  garbage_token_never_touches_store demoLib demoCfg (memoryRepository demoLib) "garbage"
    (Traced.lift [] demoRegistered) (Traced.lift [] demoRegistered) (.New "token is malformed")
    (by decide!)

/-- Whatever `Refresh` returns as an error over the in-memory repository, a record of
the token that has not expired when the store is asked is left as it was, with the
whole store. -/
theorem Refresh_memory_error_store (lib : Lib) (cfg : Config) (R : String)
    (v v1 : World memoryStore) (e : Time) (err : GoError)
    (h : AuthService.Refresh lib cfg (memoryRepository lib) R v = (.error err, v1))
    (hrec : mapGet v.store.refreshTokens (HashToken lib R) = some e)
    (hlive : lib.clock (v.tick + 1) ≤ e) : v1.store = v.store := by
  unfold AuthService.Refresh at h
  generalize hp : ParseToken lib R cfg.RefreshTokenSecret v = r1 at h
  obtain ⟨res1, w1⟩ := r1
  cases res1 with
  | error err1 =>
    simp only [Prod.mk.injEq] at h
    have := (ParseToken_world lib R cfg.RefreshTokenSecret v).1
    rw [hp] at this
    rw [← h.2]; exact this
  | ok claims =>
    obtain ⟨_, hw1, _⟩ := ParseToken_inv lib R cfg.RefreshTokenSecret v w1 claims hp
    subst hw1
    have hx := Exists_live lib (HashToken lib R) { v with tick := v.tick + 1 } e hrec hlive
    simp only [memoryRepository, hx] at h
    cases hu : mapGet v.store.users claims.UserID with
    | none =>
      simp only [memoryUserRepo.GetByID, hu, Prod.mk.injEq] at h
      rw [← h.2]
    | some u =>
      simp only [memoryUserRepo.GetByID, hu] at h
      generalize hi : AuthService.issueTokens lib cfg _ u.ID u.Role _ = r3 at h
      obtain ⟨res3, w4⟩ := r3
      cases res3 with
      | error err3 =>
        simp only [Prod.mk.injEq] at h
        have := (issueTokens_memory_err lib cfg u.ID u.Role _ w4 err3 hi).1
        rw [← h.2, this]
      | ok tokens => simp [memoryRefreshRepo.Delete] at h

/-- C26 (a failed refresh does not consume the token).  Over every repository, with
its calls recorded: when `Refresh(R)` has verified `R`, the store has answered that
the record exists, and then `GetByID` fails or `issueTokens` fails, `Refresh`
returns that error and none of the calls it made is a `RefreshTokens.Delete`.  Over
the in-memory repository, whenever `Refresh(R)` returns an error, a record of `R`
that has not expired when the store is asked is in the store afterwards with the
same expiry, and the whole store is as before. -/
theorem failed_refresh_keeps_token {σ : Type} (lib : Lib) (cfg : Config)
    (repo : Repository σ) (R : String) (w w1 w2 w3 : World (Traced σ)) (claims : Claims)
    (err : GoError)
    (hp : ParseToken lib R cfg.RefreshTokenSecret w = (.ok claims, w1))
    (hx : (tracedRepository repo).RefreshTokens.Exists (HashToken lib R) w1 = (.ok true, w2))
    (hfail : (tracedRepository repo).Users.GetByID claims.UserID w2 = (.error err, w3) ∨
      ∃ user wu, (tracedRepository repo).Users.GetByID claims.UserID w2 = (.ok user, wu) ∧
        AuthService.issueTokens lib cfg (tracedRepository repo) user.ID user.Role wu =
          (.error err, w3)) :
    AuthService.Refresh lib cfg (tracedRepository repo) R w = (.error err, w3) ∧
    CallsExtend (fun c => ∀ k, c ≠ .RefreshTokensDelete k) w w3 ∧
    (∀ (v v1 : World memoryStore) (e : Time) (err1 : GoError),
      AuthService.Refresh lib cfg (memoryRepository lib) R v = (.error err1, v1) →
      mapGet v.store.refreshTokens (HashToken lib R) = some e →
      lib.clock (v.tick + 1) ≤ e →
      v1.store = v.store ∧ mapGet v1.store.refreshTokens (HashToken lib R) = some e) := by
  have c1 : CallsExtend (fun c => ∀ k, c ≠ .RefreshTokensDelete k) w w1 := by
    apply CallsExtend_of_store
    have := (ParseToken_world lib R cfg.RefreshTokenSecret w).1
    rw [hp] at this
    exact this
  have c2 : CallsExtend (fun c => ∀ k, c ≠ .RefreshTokensDelete k) w1 w2 := by
    have := CallsExtend_traced (fun c => ∀ k, c ≠ .RefreshTokensDelete k)
      (.RefreshTokensExists (HashToken lib R)) (repo.RefreshTokens.Exists (HashToken lib R)) w1
      (by intro k; simp)
    simp only [tracedRepository] at hx
    rw [hx] at this
    exact this
  have cget : ∀ (res : Except GoError User) (wu : World (Traced σ)),
      (tracedRepository repo).Users.GetByID claims.UserID w2 = (res, wu) →
      CallsExtend (fun c => ∀ k, c ≠ .RefreshTokensDelete k) w2 wu := by
    intro res wu hg
    have := CallsExtend_traced (fun c => ∀ k, c ≠ .RefreshTokensDelete k)
      (.UsersGetByID claims.UserID) (repo.Users.GetByID claims.UserID) w2 (by intro k; simp)
    simp only [tracedRepository] at hg
    rw [hg] at this
    exact this
  have c12 := CallsExtend_trans _ _ _ _ c1 c2
  refine ⟨?_, ?_, ?_⟩
  · rcases hfail with hg | ⟨user, wu, hg, hi⟩
    · simp only [AuthService.Refresh, hp, hx, hg]
    · simp only [AuthService.Refresh, hp, hx, hg, hi]
  · rcases hfail with hg | ⟨user, wu, hg, hi⟩
    · exact CallsExtend_trans _ _ _ _ c12 (cget _ _ hg)
    · have c4 := issueTokens_calls lib cfg repo (fun c => ∀ k, c ≠ .RefreshTokensDelete k)
        user.ID user.Role wu (by intro token cl exp _ k; simp)
      rw [hi] at c4
      exact CallsExtend_trans _ _ _ _ (CallsExtend_trans _ _ _ _ c12 (cget _ _ hg)) c4
  · intro v v1 e err1 h hrec hlive
    have hst := Refresh_memory_error_store lib cfg R v v1 e err1 h hrec hlive
    exact ⟨hst, by rw [hst]; exact hrec⟩

/-- The theorem of C26 on the concrete run, for a token whose user is gone. -/
theorem failed_refresh_keeps_token_witness :
    AuthService.Refresh demoLib demoCfg (tracedRepository (memoryRepository demoLib))
        demoRefreshToken (Traced.lift [] demoOrphaned) =
      (.error (.New "not found"),
       Traced.lift [.RefreshTokensExists (HashToken demoLib demoRefreshToken), .UsersGetByID "u"]
         { demoOrphaned with tick := 8 }) ∧
    CallsExtend (fun c => ∀ k, c ≠ .RefreshTokensDelete k) (Traced.lift [] demoOrphaned)
      (Traced.lift [.RefreshTokensExists (HashToken demoLib demoRefreshToken), .UsersGetByID "u"]
         { demoOrphaned with tick := 8 }) ∧
    (∀ (v v1 : World memoryStore) (e : Time) (err1 : GoError),
      AuthService.Refresh demoLib demoCfg (memoryRepository demoLib) demoRefreshToken v =
        (.error err1, v1) →
      mapGet v.store.refreshTokens (HashToken demoLib demoRefreshToken) = some e →
      demoLib.clock (v.tick + 1) ≤ e →
      v1.store = v.store ∧
        mapGet v1.store.refreshTokens (HashToken demoLib demoRefreshToken) = some e) :=
  failed_refresh_keeps_token demoLib demoCfg (memoryRepository demoLib) demoRefreshToken
    (Traced.lift [] demoOrphaned) (Traced.lift [] { demoOrphaned with tick := 7 })
    (Traced.lift [.RefreshTokensExists (HashToken demoLib demoRefreshToken)]
      { demoOrphaned with tick := 8 })
    (Traced.lift [.RefreshTokensExists (HashToken demoLib demoRefreshToken), .UsersGetByID "u"]
      { demoOrphaned with tick := 8 })
    demoRefreshClaims (.New "not found") (by decide!) (by decide!) (Or.inl (by decide!))

/-! ## C27: auth operations touch only their own token's record -/

theorem Kept_refl (lib : Lib) (cfg : Config) (own : Option String) (w : World memoryStore) :
    Kept lib cfg own w w :=
  ⟨le_refl _, fun _ _ _ h => Or.inl h⟩

theorem Kept_trans (lib : Lib) (cfg : Config) (own : Option String) (w w1 w2 : World memoryStore)
    (h1 : Kept lib cfg own w w1) (h2 : Kept lib cfg own w1 w2) : Kept lib cfg own w w2 := by
  obtain ⟨hi1, hk1⟩ := h1
  obtain ⟨hi2, hk2⟩ := h2
  refine ⟨le_trans hi1 hi2, fun k e hown hk => ?_⟩
  rcases hk1 k e hown hk with h | ⟨hm, e1, he1⟩
  · rcases hk2 k e hown h with h' | ⟨hm', he'⟩
    · exact Or.inl h'
    · exact Or.inr ⟨Minted_mono lib cfg _ _ _ _ k hi1 (le_refl _) hm', he'⟩
  · right
    refine ⟨Minted_mono lib cfg _ _ _ _ k (le_refl _) hi2 hm, ?_⟩
    rcases hk2 k e1 hown he1 with h' | ⟨_, he'⟩
    · exact ⟨e1, h'⟩
    · exact he'

theorem Kept_of_same (lib : Lib) (cfg : Config) (own : Option String) (w w1 : World memoryStore)
    (hrt : w1.store.refreshTokens = w.store.refreshTokens) (hidx : w.uuidIdx ≤ w1.uuidIdx) :
    Kept lib cfg own w w1 :=
  ⟨hidx, fun k e _ h => Or.inl (by rw [hrt]; exact h)⟩

/-- A step that deletes the record of the token the operation was called on. -/
theorem Kept_of_delete (lib : Lib) (cfg : Config) (t : String) (w w1 : World memoryStore)
    (hrt : w1.store.refreshTokens = mapDelete w.store.refreshTokens (HashToken lib t))
    (hidx : w.uuidIdx ≤ w1.uuidIdx) : Kept lib cfg (some t) w w1 := by
  refine ⟨hidx, fun k e hown h => Or.inl ?_⟩
  rw [hrt, mapGet_mapDelete_ne _ _ _ (hown t rfl)]
  exact h

theorem Kept_issued (lib : Lib) (cfg : Config) (own : Option String) (w : World memoryStore)
    (userID token : String)
    (hs : lib.jwtSign cfg.RefreshTokenSecret
      (refreshClaims lib userID cfg.RefreshTokenTTL (w.tick + 2) w.uuidIdx) = .ok token) :
    Kept lib cfg own w (issuedWorld lib cfg token w) := by
  refine ⟨Nat.le_succ _, fun k e _ h => ?_⟩
  by_cases hk : k = HashToken lib token
  · right
    refine ⟨⟨token, _, w.uuidIdx, hk, hs, rfl, le_refl _, Nat.lt_succ_self _⟩,
      lib.clock (w.tick + 2) + cfg.RefreshTokenTTL, ?_⟩
    rw [hk]
    simp only [issuedWorld]
    exact mapGet_mapSet_self _ _ _
  · left
    simp only [issuedWorld]
    rwa [mapGet_mapSet_ne _ _ _ _ hk]

theorem issueTokens_kept (lib : Lib) (cfg : Config) (own : Option String) (userID role : String)
    (w : World memoryStore) :
    Kept lib cfg own w
      (AuthService.issueTokens lib cfg (memoryRepository lib) userID role w).2 := by
  cases h : AuthService.issueTokens lib cfg (memoryRepository lib) userID role w with
  | mk res w1 =>
    cases res with
    | error err =>
      obtain ⟨hst, hidx⟩ := issueTokens_memory_err lib cfg userID role w w1 err h
      exact Kept_of_same lib cfg own w w1 (by rw [hst]) hidx
    | ok tokens =>
      obtain ⟨_, hs, _, hw1⟩ := issueTokens_memory_inv lib cfg userID role w w1 tokens h
      simp only [hw1]
      exact Kept_issued lib cfg own w userID _ hs

theorem Exists_kept (lib : Lib) (cfg : Config) (t : String) (w : World memoryStore) :
    Kept lib cfg (some t) w (memoryRefreshRepo.Exists lib (HashToken lib t) w).2 := by
  cases hg : mapGet w.store.refreshTokens (HashToken lib t) with
  | none => rw [Exists_absent lib _ w hg]; exact Kept_refl lib cfg _ w
  | some e =>
    by_cases hlt : lib.clock w.tick > e
    · simp only [memoryRefreshRepo.Exists, hg, timeNow, hlt, if_true]
      exact Kept_of_delete lib cfg t w _ rfl (le_refl _)
    · simp only [memoryRefreshRepo.Exists, hg, timeNow, hlt, if_false]
      exact Kept_of_same lib cfg _ w _ rfl (le_refl _)

theorem Logout_kept (lib : Lib) (cfg : Config) (t : String) (w : World memoryStore) :
    Kept lib cfg (some t) w (AuthService.Logout lib (memoryRepository lib) t w).2 :=
  Kept_of_delete lib cfg t w _ rfl (le_refl _)

theorem Login_kept (lib : Lib) (cfg : Config) (email password : String)
    (w : World memoryStore) :
    Kept lib cfg none w (AuthService.Login lib cfg (memoryRepository lib) email password w).2 := by
  cases hf : w.store.users.find? (fun e => decide (e.2.Email = email)) with
  | none =>
    simp only [AuthService.Login, memoryRepository, memoryUserRepo.GetByEmail, hf]
    exact Kept_refl lib cfg _ w
  | some entry =>
    cases hb : lib.bcryptCompare entry.2.PasswordHash password with
    | error err =>
      simp only [AuthService.Login, memoryRepository, memoryUserRepo.GetByEmail, hf, hb]
      exact Kept_refl lib cfg _ w
    | ok u =>
      have hi := issueTokens_kept lib cfg none entry.2.ID entry.2.Role w
      simp only [AuthService.Login, memoryRepository, memoryUserRepo.GetByEmail, hf, hb]
      simp only [memoryRepository] at hi
      revert hi
      generalize AuthService.issueTokens lib cfg _ _ _ _ = r
      obtain ⟨res, w2⟩ := r
      cases res <;> exact fun hi => hi

theorem Register_kept (lib : Lib) (cfg : Config) (req : RegisterRequest)
    (w : World memoryStore) :
    Kept lib cfg none w (AuthService.Register lib cfg (memoryRepository lib) req w).2 := by
  cases hb : lib.bcryptGenerate req.Password w.saltIdx with
  | error err =>
    simp only [AuthService.Register, bcryptGenerateFromPassword, hb]
    exact Kept_refl lib cfg _ w
  | ok hashed =>
    by_cases hdup : ∃ e ∈ w.store.users, e.2.Email = req.Email
    · rw [Register_memory_dup lib cfg req.Email req.Password hashed w hb hdup]
      exact Kept_of_same lib cfg _ w _ rfl (le_refl _)
    · push_neg at hdup
      have hc := Create_new_ok lib req.Email hashed RoleUser (saltDrawn w) hdup
      have h1 : Kept lib cfg none w (createdWorld lib req.Email hashed RoleUser (saltDrawn w)) :=
        Kept_of_same lib cfg _ w _ rfl (Nat.le_succ _)
      have hi := issueTokens_kept lib cfg none (lib.uuidNew w.uuidIdx) RoleUser
        (createdWorld lib req.Email hashed RoleUser (saltDrawn w))
      simp only [saltDrawn] at hc
      simp only [AuthService.Register, bcryptGenerateFromPassword, hb, memoryRepository, hc]
      simp only [memoryRepository, saltDrawn] at hi h1
      revert hi
      simp only [createdUser]
      generalize AuthService.issueTokens lib cfg _ _ _ _ = r
      obtain ⟨res, w2⟩ := r
      cases res <;> exact fun hi => Kept_trans lib cfg _ _ _ _ h1 hi

theorem Refresh_kept (lib : Lib) (cfg : Config) (R : String) (w : World memoryStore) :
    Kept lib cfg (some R) w (AuthService.Refresh lib cfg (memoryRepository lib) R w).2 := by
  have hp := ParseToken_world lib R cfg.RefreshTokenSecret w
  unfold AuthService.Refresh
  revert hp
  generalize ParseToken lib R cfg.RefreshTokenSecret w = r1
  obtain ⟨res1, w1⟩ := r1
  intro hp
  have h1 : Kept lib cfg (some R) w w1 :=
    Kept_of_same lib cfg _ w w1 (by rw [hp.1]) (by rw [hp.2.1])
  cases res1 with
  | error err => exact h1
  | ok claims =>
    simp only [memoryRepository]
    have hx := Exists_kept lib cfg R w1
    revert hx
    generalize hxe : memoryRefreshRepo.Exists lib (HashToken lib R) w1 = r2
    obtain ⟨res2, w2⟩ := r2
    intro hx
    have h2 := Kept_trans lib cfg _ _ _ _ h1 hx
    cases res2 with
    | error err => exact h2
    | ok b =>
      cases b with
      | false => exact h2
      | true =>
        cases hu : mapGet w2.store.users claims.UserID with
        | none => simp only [memoryUserRepo.GetByID, hu]; exact h2
        | some u =>
          simp only [memoryUserRepo.GetByID, hu]
          have hi := issueTokens_kept lib cfg (some R) u.ID u.Role w2
          simp only [memoryRepository] at hi
          revert hi
          generalize AuthService.issueTokens lib cfg _ _ _ _ = r3
          obtain ⟨res3, w4⟩ := r3
          intro hi
          have h4 := Kept_trans lib cfg _ _ _ _ h2 hi
          cases res3 with
          | error err => exact h4
          | ok tokens =>
            exact Kept_trans lib cfg _ _ _ _ h4
              (Kept_of_delete lib cfg R w4 _ rfl (le_refl _))

theorem step_kept (lib : Lib) (cfg : Config) (op : AuthOp) (w : World memoryStore) :
    Kept lib cfg op.token w (op.step lib cfg (memoryRepository lib) w) := by
  cases op with
  | register email password => exact Register_kept lib cfg _ w
  | login email password => exact Login_kept lib cfg email password w
  | refresh R => exact Refresh_kept lib cfg R w
  | logout R => exact Logout_kept lib cfg R w

/-! ### The users of the store -/

theorem Exists_users (lib : Lib) (k : String) (w : World memoryStore) :
    (memoryRefreshRepo.Exists lib k w).2.store.users = w.store.users := by
  cases hg : mapGet w.store.refreshTokens k with
  | none => rw [Exists_absent lib k w hg]
  | some e =>
    by_cases hlt : lib.clock w.tick > e
    · simp only [memoryRefreshRepo.Exists, hg, timeNow, hlt, if_true]
    · simp only [memoryRefreshRepo.Exists, hg, timeNow, hlt, if_false]

theorem Login_users (lib : Lib) (cfg : Config) (email password : String)
    (w : World memoryStore) :
    (AuthService.Login lib cfg (memoryRepository lib) email password w).2.store.users =
      w.store.users := by
  cases hf : w.store.users.find? (fun e => decide (e.2.Email = email)) with
  | none => simp only [AuthService.Login, memoryRepository, memoryUserRepo.GetByEmail, hf]
  | some entry =>
    cases hb : lib.bcryptCompare entry.2.PasswordHash password with
    | error err =>
      simp only [AuthService.Login, memoryRepository, memoryUserRepo.GetByEmail, hf, hb]
    | ok u =>
      have hi := issueTokens_memory_users lib cfg entry.2.ID entry.2.Role w
      simp only [AuthService.Login, memoryRepository, memoryUserRepo.GetByEmail, hf, hb]
      simp only [memoryRepository] at hi
      revert hi
      generalize AuthService.issueTokens lib cfg _ _ _ _ = r
      obtain ⟨res, w2⟩ := r
      cases res <;> exact fun hi => hi

theorem Refresh_users (lib : Lib) (cfg : Config) (R : String) (w : World memoryStore) :
    (AuthService.Refresh lib cfg (memoryRepository lib) R w).2.store.users = w.store.users := by
  have hp := ParseToken_world lib R cfg.RefreshTokenSecret w
  unfold AuthService.Refresh
  revert hp
  generalize ParseToken lib R cfg.RefreshTokenSecret w = r1
  obtain ⟨res1, w1⟩ := r1
  intro hp
  have h1 : w1.store.users = w.store.users := by rw [hp.1]
  cases res1 with
  | error err => exact h1
  | ok claims =>
    simp only [memoryRepository]
    have hx := Exists_users lib (HashToken lib R) w1
    revert hx
    generalize hxe : memoryRefreshRepo.Exists lib (HashToken lib R) w1 = r2
    obtain ⟨res2, w2⟩ := r2
    intro hx
    have h2 : w2.store.users = w.store.users := by rw [← h1]; exact hx
    cases res2 with
    | error err => exact h2
    | ok b =>
      cases b with
      | false => exact h2
      | true =>
        cases hu : mapGet w2.store.users claims.UserID with
        | none => simp only [memoryUserRepo.GetByID, hu]; exact h2
        | some u =>
          simp only [memoryUserRepo.GetByID, hu]
          have hi := issueTokens_memory_users lib cfg u.ID u.Role w2
          simp only [memoryRepository] at hi
          revert hi
          generalize AuthService.issueTokens lib cfg _ _ _ _ = r3
          obtain ⟨res3, w4⟩ := r3
          intro hi
          have h4 : w4.store.users = w.store.users := by rw [← h2]; exact hi
          cases res3 with
          | error err => exact h4
          | ok tokens => exact h4

/-- Whatever `Register` answers, the users afterwards are the users before, or those
with the new user stored under the uuid just drawn. -/
theorem Register_users (lib : Lib) (cfg : Config) (req : RegisterRequest)
    (w : World memoryStore) :
    (AuthService.Register lib cfg (memoryRepository lib) req w).2.store.users = w.store.users ∨
    ∃ user, (AuthService.Register lib cfg (memoryRepository lib) req w).2.store.users =
      mapSet w.store.users (lib.uuidNew w.uuidIdx) user := by
  cases hb : lib.bcryptGenerate req.Password w.saltIdx with
  | error err =>
    left
    simp only [AuthService.Register, bcryptGenerateFromPassword, hb]
  | ok hashed =>
    by_cases hdup : ∃ e ∈ w.store.users, e.2.Email = req.Email
    · left
      rw [Register_memory_dup lib cfg req.Email req.Password hashed w hb hdup]
      rfl
    · push_neg at hdup
      right
      have hc := Create_new_ok lib req.Email hashed RoleUser (saltDrawn w) hdup
      have hi := issueTokens_memory_users lib cfg (lib.uuidNew w.uuidIdx) RoleUser
        (createdWorld lib req.Email hashed RoleUser (saltDrawn w))
      simp only [saltDrawn] at hc
      simp only [AuthService.Register, bcryptGenerateFromPassword, hb, memoryRepository, hc]
      simp only [memoryRepository, saltDrawn] at hi
      revert hi
      simp only [createdUser]
      generalize AuthService.issueTokens lib cfg _ _ _ _ = r
      obtain ⟨res, w2⟩ := r
      cases res <;> exact fun hi => ⟨_, hi⟩

theorem step_users (lib : Lib) (cfg : Config) (op : AuthOp) (w : World memoryStore) :
    (op.step lib cfg (memoryRepository lib) w).store.users = w.store.users ∨
    ∃ user, (op.step lib cfg (memoryRepository lib) w).store.users =
      mapSet w.store.users (lib.uuidNew w.uuidIdx) user := by
  cases op with
  | register email password => exact Register_users lib cfg _ w
  | login email password => exact Or.inl (Login_users lib cfg email password w)
  | refresh R => exact Or.inl (Refresh_users lib cfg R w)
  | logout R => exact Or.inl rfl

/-- C27 (auth operations touch only their own token's record).  Over the in-memory
repository, for every world and each of `Register`, `Login`, `Refresh(t)` and
`Logout(t)`, whatever it returns: every refresh-token record of the world before,
other than the one keyed by `HashToken(t)` for `Refresh(t)` and `Logout(t)`, is in
the world after, with the same expiry, or, if its key is the fingerprint of the
token signed in this very call, with the expiry just saved; a key minted by an
earlier call is not of that kind when a signed token decodes to its claims, uuids do
not repeat and distinct tokens have distinct fingerprints.  `Login`, `Refresh` and
`Logout` leave the users as they are, and when the next uuid is not the id of a
stored user, every user of the world before is in the world after, unchanged. -/
theorem auth_ops_touch_own_record (lib : Lib) (cfg : Config) (op : AuthOp)
    (w : World memoryStore)
    (hnext : mapGet w.store.users (lib.uuidNew w.uuidIdx) = none) :
    (∀ k e, (∀ t, op.token = some t → k ≠ HashToken lib t) →
      mapGet w.store.refreshTokens k = some e →
      mapGet (op.step lib cfg (memoryRepository lib) w).store.refreshTokens k = some e ∨
        (Minted lib cfg w.uuidIdx (op.step lib cfg (memoryRepository lib) w).uuidIdx k ∧
          ∃ e1, mapGet (op.step lib cfg (memoryRepository lib) w).store.refreshTokens k =
            some e1)) ∧
    (lib.JwtRoundTrip → lib.UuidFresh → lib.HashCollisionFree →
      ∀ k e lo, Minted lib cfg lo w.uuidIdx k →
        (∀ t, op.token = some t → k ≠ HashToken lib t) →
        mapGet w.store.refreshTokens k = some e →
        mapGet (op.step lib cfg (memoryRepository lib) w).store.refreshTokens k = some e) ∧
    (∀ id user, mapGet w.store.users id = some user →
      mapGet (op.step lib cfg (memoryRepository lib) w).store.users id = some user) ∧
    (∀ email password,
      (AuthService.Login lib cfg (memoryRepository lib) email password w).2.store.users =
        w.store.users) ∧
    (∀ t, (AuthService.Refresh lib cfg (memoryRepository lib) t w).2.store.users =
        w.store.users) ∧
    (∀ t, (AuthService.Logout lib (memoryRepository lib) t w).2.store.users =
        w.store.users) := by
  have hk := step_kept lib cfg op w
  refine ⟨hk.2, ?_, ?_, fun email password => Login_users lib cfg email password w,
    fun t => Refresh_users lib cfg t w, fun t => rfl⟩
  · intro hrt hfresh hcf k e lo hm hown hrec
    rcases hk.2 k e hown hrec with h | ⟨hm2, _⟩
    · exact h
    · exact (minted_unique lib cfg hrt hfresh hcf k _ _ _ _ hm hm2 (le_refl _)).elim
  · intro id user hu
    rcases step_users lib cfg op w with h | ⟨u1, h⟩
    · rw [h]; exact hu
    · rw [h]
      have hne : id ≠ lib.uuidNew w.uuidIdx := by
        intro heq
        rw [heq, hnext] at hu
        simp at hu
      rw [mapGet_mapSet_ne _ _ _ _ hne]
      exact hu

/-- The theorem of C27 on the concrete run, for the `Refresh` of the registration's
token. -/
theorem auth_ops_touch_own_record_witness :
    (∀ k e, (∀ t, (AuthOp.refresh demoRefreshToken).token = some t → k ≠ HashToken demoLib t) →
      mapGet demoRegistered.store.refreshTokens k = some e →
      mapGet ((AuthOp.refresh demoRefreshToken).step demoLib demoCfg (memoryRepository demoLib)
          demoRegistered).store.refreshTokens k = some e ∨
        (Minted demoLib demoCfg demoRegistered.uuidIdx
            ((AuthOp.refresh demoRefreshToken).step demoLib demoCfg (memoryRepository demoLib)
              demoRegistered).uuidIdx k ∧
          ∃ e1, mapGet ((AuthOp.refresh demoRefreshToken).step demoLib demoCfg
            (memoryRepository demoLib) demoRegistered).store.refreshTokens k = some e1)) ∧
    (demoLib.JwtRoundTrip → demoLib.UuidFresh → demoLib.HashCollisionFree →
      ∀ k e lo, Minted demoLib demoCfg lo demoRegistered.uuidIdx k →
        (∀ t, (AuthOp.refresh demoRefreshToken).token = some t → k ≠ HashToken demoLib t) →
        mapGet demoRegistered.store.refreshTokens k = some e →
        mapGet ((AuthOp.refresh demoRefreshToken).step demoLib demoCfg (memoryRepository demoLib)
          demoRegistered).store.refreshTokens k = some e) ∧
    (∀ id user, mapGet demoRegistered.store.users id = some user →
      mapGet ((AuthOp.refresh demoRefreshToken).step demoLib demoCfg (memoryRepository demoLib)
        demoRegistered).store.users id = some user) ∧
    (∀ email password,
      (AuthService.Login demoLib demoCfg (memoryRepository demoLib) email password
        demoRegistered).2.store.users = demoRegistered.store.users) ∧
    (∀ t, (AuthService.Refresh demoLib demoCfg (memoryRepository demoLib) t
        demoRegistered).2.store.users = demoRegistered.store.users) ∧
    (∀ t, (AuthService.Logout demoLib (memoryRepository demoLib) t
        demoRegistered).2.store.users = demoRegistered.store.users) :=
  auth_ops_touch_own_record demoLib demoCfg (.refresh demoRefreshToken) demoRegistered
    (by decide)

/-! ## C28: exercise mutation is admin-only -/

/-- When `WithAuth` calls the next handler, the header was a scheme, a space and a
token that `ParseToken` accepted with the access secret, and the user id and role
passed on are those of its claims. -/
theorem WithAuth_next_inv {σ : Type} (lib : Lib) (cfg : Config) (header : String)
    (w w1 : World σ) (userID : String) (role : Role)
    (h : WithAuth lib cfg header w = (.next userID role, w1)) :
    ∃ scheme token claims, stringsSplitN2 header = [scheme, token] ∧
      equalFoldBearer scheme = true ∧
      ParseToken lib token cfg.AccessTokenSecret w = (.ok claims, w1) ∧
      userID = claims.UserID ∧ role = claims.Role := by
  unfold WithAuth at h
  by_cases hne : header = ""
  · simp [hne] at h
  · simp only [hne, if_false] at h
    cases hs : stringsSplitN2 header with
    | nil => simp [hs] at h
    | cons scheme tl =>
      cases tl with
      | nil => simp [hs] at h
      | cons token tl2 =>
        cases tl2 with
        | cons x xs => simp [hs] at h
        | nil =>
          simp only [hs] at h
          by_cases hf : equalFoldBearer scheme = true
          · simp only [hf, if_true] at h
            cases hp : ParseToken lib token cfg.AccessTokenSecret w with
            | mk res w2 =>
              rw [hp] at h
              cases res with
              | error err => simp at h
              | ok claims =>
                simp only [Prod.mk.injEq, AuthOutcome.next.injEq] at h
                obtain ⟨⟨h1, h2⟩, h3⟩ := h
                subst h3
                exact ⟨scheme, token, claims, rfl, hf, hp, h1.symm, h2.symm⟩
          · simp [hf] at h

/-- Whatever `WithAuth` decides, it leaves the store alone. -/
theorem WithAuth_store {σ : Type} (lib : Lib) (cfg : Config) (header : String) (w : World σ) :
    (WithAuth lib cfg header w).2.store = w.store := by
  unfold WithAuth
  by_cases hne : header = ""
  · simp [hne]
  · simp only [hne, if_false]
    cases hs : stringsSplitN2 header with
    | nil => rfl
    | cons scheme tl =>
      cases tl with
      | nil => rfl
      | cons token tl2 =>
        cases tl2 with
        | cons x xs => rfl
        | nil =>
          simp only []
          by_cases hf : equalFoldBearer scheme = true
          · simp only [hf, if_true]
            have hp := (ParseToken_world lib token cfg.AccessTokenSecret w).1
            revert hp
            generalize ParseToken lib token cfg.AccessTokenSecret w = r
            obtain ⟨res, w2⟩ := r
            cases res <;> exact fun hp => hp
          · simp [hf]

theorem notAdmin_iff (userID : String) (role : Role) :
    notAdmin (GetAuthContext { userID := some userID, role := some role }) = false ↔
      userID ≠ "" ∧ role = RoleAdmin := by
  by_cases hu : userID = ""
  · simp [GetAuthContext, notAdmin, hu]
  · simp [GetAuthContext, notAdmin, hu]

/-- C28 (exercise mutation is admin-only).  For every request to `POST /exercises`,
`PUT /exercises/{id}` or `DELETE /exercises/{id}`, over every repository with its
calls recorded: a request that `WithAuth` rejects is answered by `WithAuth`; a
request that `WithAuth` lets through with claims whose `UserID` is empty or whose
`Role` is not `admin` is answered 403 `forbidden`, and the store and the log of
calls are as before; only when the verified claims have a non-empty `UserID` and
`Role` equal to `admin` does the handler reach `ExerciseService.Create`, `Update` or
`Delete`.  So a call on the repository is made only for a header whose token
`ParseToken` accepts with such claims. -/
theorem exercise_mutation_admin_only {σ : Type} (lib : Lib) (cfg : Config)
    (repo : Repository σ) (m : ExerciseMutation) (header : String) (w : World (Traced σ)) :
    (∀ status message w1, WithAuth lib cfg header w = (.rejected status message, w1) →
      serveExerciseMutation lib cfg (tracedRepository repo) m header w =
        (httpError status message, w1) ∧ w1.store = w.store) ∧
    (∀ userID role w1, WithAuth lib cfg header w = (.next userID role, w1) →
      ¬ (userID ≠ "" ∧ role = RoleAdmin) →
      serveExerciseMutation lib cfg (tracedRepository repo) m header w =
        (httpError 403 "forbidden", w1) ∧ w1.store = w.store) ∧
    (∀ userID role w1, WithAuth lib cfg header w = (.next userID role, w1) →
      userID ≠ "" → role = RoleAdmin →
      serveExerciseMutation lib cfg (tracedRepository repo) m header w =
        match m with
        | .Create (.error err) => (writeError 400 err, w1)
        | .Create (.ok input) =>
          match ExerciseService.Create (tracedRepository repo) input w1 with
          | (.error err, w2) => (writeError 400 err, w2)
          | (.ok ex, w2) => (writeJSON 201 (.Exercise ex), w2)
        | .Update _ (.error err) => (writeError 400 err, w1)
        | .Update id (.ok input) =>
          match ExerciseService.Update lib (tracedRepository repo) { input with ID := id } w1 with
          | (.error err, w2) => (writeError 400 err, w2)
          | (.ok ex, w2) => (writeJSON 200 (.Exercise ex), w2)
        | .Delete id =>
          match ExerciseService.Delete (tracedRepository repo) id w1 with
          | (.error err, w2) => (writeError 400 err, w2)
          | (.ok _, w2) => (writeJSON 204 .empty, w2)) ∧
    ((serveExerciseMutation lib cfg (tracedRepository repo) m header w).2.store.calls ≠
        w.store.calls →
      ∃ scheme token claims w1, stringsSplitN2 header = [scheme, token] ∧
        equalFoldBearer scheme = true ∧
        ParseToken lib token cfg.AccessTokenSecret w = (.ok claims, w1) ∧
        claims.UserID ≠ "" ∧ claims.Role = RoleAdmin) := by
  have hst := WithAuth_store lib cfg header w
  have hrej : ∀ status message w1, WithAuth lib cfg header w = (.rejected status message, w1) →
      serveExerciseMutation lib cfg (tracedRepository repo) m header w =
        (httpError status message, w1) ∧ w1.store = w.store := by
    intro status message w1 h
    rw [h] at hst
    exact ⟨by simp only [serveExerciseMutation, behindAuth, h], hst⟩
  have hforb : ∀ userID role w1, WithAuth lib cfg header w = (.next userID role, w1) →
      ¬ (userID ≠ "" ∧ role = RoleAdmin) →
      serveExerciseMutation lib cfg (tracedRepository repo) m header w =
        (httpError 403 "forbidden", w1) ∧ w1.store = w.store := by
    intro userID role w1 h hna
    rw [h] at hst
    have hn : notAdmin (GetAuthContext { userID := some userID, role := some role }) = true := by
      cases hc : notAdmin (GetAuthContext { userID := some userID, role := some role }) with
      | true => rfl
      | false => exact absurd ((notAdmin_iff userID role).mp hc) hna
    exact ⟨by simp only [serveExerciseMutation, behindAuth, h, adminOnly, hn, if_true], hst⟩
  refine ⟨hrej, hforb, ?_, ?_⟩
  · intro userID role w1 h hu hr
    have hn : notAdmin (GetAuthContext { userID := some userID, role := some role }) = false :=
      (notAdmin_iff userID role).mpr ⟨hu, hr⟩
    cases m with
    | Create decoded =>
      cases decoded with
      | error err =>
        simp [serveExerciseMutation, behindAuth, h, adminOnly, hn, ExerciseMutation.handler,
          ExerciseHandler.Create]
      | ok input =>
        simp only [serveExerciseMutation, behindAuth, h, adminOnly, hn, ExerciseMutation.handler,
          ExerciseHandler.Create]
        generalize ExerciseService.Create (tracedRepository repo) input w1 = r
        obtain ⟨res, w2⟩ := r
        cases res <;> rfl
    | Update id decoded =>
      cases decoded with
      | error err =>
        simp [serveExerciseMutation, behindAuth, h, adminOnly, hn, ExerciseMutation.handler,
          ExerciseHandler.Update]
      | ok input =>
        simp only [serveExerciseMutation, behindAuth, h, adminOnly, hn, ExerciseMutation.handler,
          ExerciseHandler.Update]
        generalize ExerciseService.Update lib (tracedRepository repo) _ w1 = r
        obtain ⟨res, w2⟩ := r
        cases res <;> rfl
    | Delete id =>
      simp only [serveExerciseMutation, behindAuth, h, adminOnly, hn, ExerciseMutation.handler,
        ExerciseHandler.Delete]
      generalize ExerciseService.Delete (tracedRepository repo) id w1 = r
      obtain ⟨res, w2⟩ := r
      cases res <;> rfl
  · intro hcalls
    cases hw : WithAuth lib cfg header w with
    | mk outcome w1 =>
      cases outcome with
      | rejected status message =>
        obtain ⟨hs, hstore⟩ := hrej status message w1 hw
        rw [hs] at hcalls
        exact absurd (by rw [hstore]) hcalls
      | next userID role =>
        by_cases hadm : userID ≠ "" ∧ role = RoleAdmin
        · obtain ⟨scheme, token, claims, h1, h2, h3, h4, h5⟩ :=
            WithAuth_next_inv lib cfg header w w1 userID role hw
          exact ⟨scheme, token, claims, w1, h1, h2, h3, h4 ▸ hadm.1, h5 ▸ hadm.2⟩
        · obtain ⟨hs, hstore⟩ := hforb userID role w1 hw hadm
          rw [hs] at hcalls
          exact absurd (by rw [hstore]) hcalls

/-! ## C24: exercise update keeps identity -/

theorem mem_mapSet_self {α : Type} (m : List (String × α)) (k : String) (v : α) :
    (k, v) ∈ mapSet m k v := by
  simp [mapSet]

/-- What `memoryExerciseRepo.List` returns holds exactly the stored exercises. -/
theorem memoryExerciseRepo_List_mem (w : World memoryStore) (ex : Exercise) :
    (∃ l, memoryExerciseRepo.List w = (.ok l, w) ∧ (ex ∈ l ↔ ∃ k, (k, ex) ∈ w.store.exercises)) := by
  refine ⟨_, rfl, ?_⟩
  rw [(List.perm_insertionSort _ _).mem_iff]
  simp

/-- C24 (exercise update keeps identity).  Over the in-memory repository, for every
non-empty id under which an exercise is stored (with that id in its `ID` field, as
`Create` and `Update` store it) and every input, `ExerciseService.Update` returns
no error and an exercise with the same `ID`, whose `Name` is the input's when that
is not empty and the previous name otherwise, whose `Description`, `MuscleGroup` and
`Equipment` are the input's and whose `CreatedAt` is the previous one; the exercise
is stored under the id, and a following `List` returns no error and a list that
contains it. -/
theorem exercise_update_keeps_identity (lib : Lib) (input : ExerciseInput)
    (w : World memoryStore) (prev : Exercise)
    (hid : input.ID ≠ "")
    (hprev : mapGet w.store.exercises input.ID = some prev)
    (hkeyed : prev.ID = input.ID) :
    ∃ ex w1, ExerciseService.Update lib (memoryRepository lib) input w = (.ok ex, w1) ∧
      ex.ID = input.ID ∧
      ex.Name = (if input.Name ≠ "" then input.Name else prev.Name) ∧
      ex.Description = input.Description ∧ ex.MuscleGroup = input.MuscleGroup ∧
      ex.Equipment = input.Equipment ∧ ex.CreatedAt = prev.CreatedAt ∧
      mapGet w1.store.exercises input.ID = some ex ∧
      ∃ l, ExerciseService.List (memoryRepository lib) w1 = (.ok l, w1) ∧ ex ∈ l := by
  have hget : mapGet w.store.exercises prev.ID = some prev := by rw [hkeyed]; exact hprev
  refine ⟨{ prev with
      Name := if input.Name ≠ "" then input.Name else prev.Name
      Description := input.Description
      MuscleGroup := input.MuscleGroup
      Equipment := input.Equipment
      UpdatedAt := lib.clock (w.tick + 1) },
    { w with
      tick := w.tick + 1 + 1
      store := { w.store with
        exercises := mapSet w.store.exercises prev.ID
          { prev with
            Name := if input.Name ≠ "" then input.Name else prev.Name
            Description := input.Description
            MuscleGroup := input.MuscleGroup
            Equipment := input.Equipment
            UpdatedAt := lib.clock (w.tick + 1) } } }, ?_, hkeyed, rfl, rfl, rfl, rfl, rfl, ?_, ?_⟩
  · simp only [ExerciseService.Update, hid, if_false, memoryRepository,
      memoryExerciseRepo.GetByID, hprev, timeNow, memoryExerciseRepo.Update, hget]
  · simp only [← hkeyed]
    exact mapGet_mapSet_self _ _ _
  · obtain ⟨l, hl, hmem⟩ := memoryExerciseRepo_List_mem
      { w with
        tick := w.tick + 1 + 1
        store := { w.store with
          exercises := mapSet w.store.exercises prev.ID
            { prev with
              Name := if input.Name ≠ "" then input.Name else prev.Name
              Description := input.Description
              MuscleGroup := input.MuscleGroup
              Equipment := input.Equipment
              UpdatedAt := lib.clock (w.tick + 1) } } }
      { prev with
        Name := if input.Name ≠ "" then input.Name else prev.Name
        Description := input.Description
        MuscleGroup := input.MuscleGroup
        Equipment := input.Equipment
        UpdatedAt := lib.clock (w.tick + 1) }
    exact ⟨l, hl, hmem.mpr ⟨prev.ID, mem_mapSet_self _ _ _⟩⟩

/-- The theorem of C24 on the concrete run: an update of `Bench Press` with an empty
name. -/
theorem exercise_update_keeps_identity_witness :
    ∃ ex w1, ExerciseService.Update demoLib (memoryRepository demoLib) demoUpdate demoSeeded =
        (.ok ex, w1) ∧
      ex.ID = demoUpdate.ID ∧
      ex.Name = (if demoUpdate.Name ≠ "" then demoUpdate.Name
        else (demoExercise 1 DefaultExercises[1]).Name) ∧
      ex.Description = demoUpdate.Description ∧ ex.MuscleGroup = demoUpdate.MuscleGroup ∧
      ex.Equipment = demoUpdate.Equipment ∧
      ex.CreatedAt = (demoExercise 1 DefaultExercises[1]).CreatedAt ∧
      mapGet w1.store.exercises demoUpdate.ID = some ex ∧
      ∃ l, ExerciseService.List (memoryRepository demoLib) w1 = (.ok l, w1) ∧ ex ∈ l :=
  exercise_update_keeps_identity demoLib demoUpdate demoSeeded (demoExercise 1 DefaultExercises[1])
    (by decide) (by decide!) (by decide!)

/-! ## C29: seeding the default exercises is idempotent -/

theorem mapSet_of_absent {α : Type} (m : List (String × α)) (k : String) (v : α)
    (h : mapGet m k = none) : mapSet m k v = m ++ [(k, v)] := by
  rw [mapSet, mapDelete_of_absent m k h]

theorem uuidsUnused_append {α : Type} (lib : Lib) (hfresh : lib.UuidFresh)
    (m : List (String × α)) (n : Nat) (v : α) (h : uuidsUnused lib m n) :
    uuidsUnused lib (m ++ [(lib.uuidNew n, v)]) (n + 1) := by
  intro i hi
  rw [mapGet_append, h i (by omega)]
  have hne : lib.uuidNew n ≠ lib.uuidNew i := fun heq => by
    have := hfresh heq
    omega
  simp [mapGet, hne]

/-- The call `ExerciseService.Create` over the in-memory repository, for an input
with a name, when the next uuid is not a stored id: the exercise is appended. -/
theorem ExerciseService_Create_memory (lib : Lib) (input : ExerciseInput)
    (v : World memoryStore) (hname : input.Name ≠ "")
    (hunused : uuidsUnused lib v.store.exercises v.uuidIdx) :
    ∃ ex, ExerciseService.Create (memoryRepository lib) input v =
        (.ok ex,
         { v with
           tick := v.tick + 1
           uuidIdx := v.uuidIdx + 1
           store := { v.store with
             exercises := v.store.exercises ++ [(lib.uuidNew v.uuidIdx, ex)] } }) ∧
      ex.Name = input.Name := by
  have habs := hunused v.uuidIdx (le_refl _)
  refine ⟨{
      ID := lib.uuidNew v.uuidIdx
      Name := input.Name
      Description := input.Description
      MuscleGroup := input.MuscleGroup
      Equipment := input.Equipment
      CreatedAt := lib.clock v.tick
      UpdatedAt := lib.clock v.tick }, ?_, rfl⟩
  simp only [ExerciseService.Create, hname, if_false, memoryRepository,
    memoryExerciseRepo.Create, uuidNewString, timeNow, if_true, mapSet_of_absent _ _ _ habs]

/-- The loop of `EnsureDefaults` over the in-memory repository: it returns no error,
keeps every stored exercise, and leaves every default it was given with a name in
`existingNames` or stored under its own name. -/
theorem ensureDefaultsLoop_memory (lib : Lib) (hfresh : lib.UuidFresh) (names : List String)
    (rest : List ExerciseInput) (v : World memoryStore)
    (hnames : ∀ d ∈ rest, d.Name ≠ "")
    (hunused : uuidsUnused lib v.store.exercises v.uuidIdx) :
    ∃ v1, ensureDefaultsLoop lib (memoryRepository lib) names rest v = (.ok (), v1) ∧
      uuidsUnused lib v1.store.exercises v1.uuidIdx ∧
      (∀ e ∈ v.store.exercises, e ∈ v1.store.exercises) ∧
      (∀ d ∈ rest, lib.toLower d.Name ∈ names ∨ ∃ e ∈ v1.store.exercises, e.2.Name = d.Name) ∧
      v1.store.users = v.store.users ∧ v1.store.refreshTokens = v.store.refreshTokens ∧
      v1.store.workouts = v.store.workouts := by
  induction rest generalizing v with
  | nil => exact ⟨v, rfl, hunused, fun e he => he, by simp, rfl, rfl, rfl⟩
  | cons d rest ih =>
    have hrest : ∀ d1 ∈ rest, d1.Name ≠ "" := fun d1 h1 => hnames d1 (List.mem_cons_of_mem _ h1)
    by_cases hin : lib.toLower d.Name ∈ names
    · obtain ⟨v1, hrun, hun, hkeep, hall, hu, hr, hw⟩ := ih v hrest hunused
      refine ⟨v1, by simp only [ensureDefaultsLoop, hin, if_true, hrun], hun, hkeep, ?_, hu, hr, hw⟩
      intro d1 hd1
      rcases List.mem_cons.mp hd1 with h | h
      · left; rw [h]; exact hin
      · exact hall d1 h
    · obtain ⟨ex, hc, hexname⟩ := ExerciseService_Create_memory lib d v
        (hnames d (List.mem_cons_self _ _)) hunused
      have hun2 := uuidsUnused_append lib hfresh v.store.exercises v.uuidIdx ex hunused
      obtain ⟨v1, hrun, hun, hkeep, hall, hu, hr, hw⟩ := ih
        { v with
          tick := v.tick + 1
          uuidIdx := v.uuidIdx + 1
          store := { v.store with
            exercises := v.store.exercises ++ [(lib.uuidNew v.uuidIdx, ex)] } } hrest hun2
      refine ⟨v1, by simp only [ensureDefaultsLoop, hin, if_false, hc, hrun], hun, ?_, ?_,
        hu, hr, hw⟩
      · intro e he
        exact hkeep e (List.mem_append_left _ he)
      · intro d1 hd1
        rcases List.mem_cons.mp hd1 with h | h
        · right
          refine ⟨(lib.uuidNew v.uuidIdx, ex), hkeep _ (by simp), ?_⟩
          rw [h]; exact hexname
        · exact hall d1 h

/-- The loop of `EnsureDefaults` over any repository, when the name of every default
is among the existing names: nothing is called and nothing changes. -/
theorem ensureDefaultsLoop_skip {σ : Type} (lib : Lib) (repo : Repository σ)
    (names : List String) (rest : List ExerciseInput) (v : World σ)
    (hall : ∀ d ∈ rest, lib.toLower d.Name ∈ names) :
    ensureDefaultsLoop lib repo names rest v = (.ok (), v) := by
  induction rest with
  | nil => rfl
  | cons d rest ih =>
    have hin := hall d (List.mem_cons_self _ _)
    simp only [ensureDefaultsLoop, hin, if_true]
    exact ih (fun d1 h1 => hall d1 (List.mem_cons_of_mem _ h1))

theorem memoryExerciseRepo_List_names (lib : Lib) (w : World memoryStore) (name : String) :
    name ∈ (((w.store.exercises.map Prod.snd).insertionSort
        (fun a b => ¬ b.Name < a.Name)).map (fun ex => lib.toLower ex.Name)) ↔
      ∃ e ∈ w.store.exercises, lib.toLower e.2.Name = name := by
  constructor
  · intro h
    obtain ⟨ex, hex, hn⟩ := List.mem_map.mp h
    obtain ⟨e, he, hsnd⟩ := List.mem_map.mp ((List.perm_insertionSort _ _).mem_iff.mp hex)
    exact ⟨e, he, by rw [hsnd]; exact hn⟩
  · rintro ⟨e, he, hn⟩
    exact List.mem_map.mpr ⟨e.2,
      (List.perm_insertionSort _ _).mem_iff.mpr (List.mem_map.mpr ⟨e, he, rfl⟩), hn⟩

/-- C29 (seeding the default exercises is idempotent).  Over the in-memory
repository, for every exercise store, when uuids do not repeat and the uuids still
to be drawn are not ids of stored exercises: `EnsureDefaults` returns no error;
afterwards, for every default exercise, an exercise is stored whose name equals the
default's after `strings.ToLower` of both; every exercise stored before is still
stored, and users, refresh-token records and workouts are as before.  A second
`EnsureDefaults` returns no error and leaves the world as it is, and with the calls
on the repository recorded, the only call it makes is `Exercises.List`: it creates
no exercise. -/
theorem ensure_defaults_idempotent (lib : Lib) (w : World memoryStore)
    (hfresh : lib.UuidFresh)
    (hunused : uuidsUnused lib w.store.exercises w.uuidIdx) :
    ∃ w1, ExerciseService.EnsureDefaults lib (memoryRepository lib) w = (.ok (), w1) ∧
      (∀ d ∈ DefaultExercises,
        ∃ e ∈ w1.store.exercises, lib.toLower e.2.Name = lib.toLower d.Name) ∧
      (∀ e ∈ w.store.exercises, e ∈ w1.store.exercises) ∧
      w1.store.users = w.store.users ∧ w1.store.refreshTokens = w.store.refreshTokens ∧
      w1.store.workouts = w.store.workouts ∧
      ExerciseService.EnsureDefaults lib (memoryRepository lib) w1 = (.ok (), w1) ∧
      (∀ calls, ExerciseService.EnsureDefaults lib (tracedRepository (memoryRepository lib))
          (Traced.lift calls w1) =
        (.ok (), Traced.lift (calls ++ [.ExercisesList]) w1)) := by
  have hdef : ∀ d ∈ DefaultExercises, d.Name ≠ "" := by decide
  obtain ⟨w1, hrun, _, hkeep, hall, hu, hr, hw⟩ := ensureDefaultsLoop_memory lib hfresh
    (((w.store.exercises.map Prod.snd).insertionSort
        (fun a b => ¬ b.Name < a.Name)).map (fun ex => lib.toLower ex.Name))
    DefaultExercises w hdef hunused
  have hpresent : ∀ d ∈ DefaultExercises,
      ∃ e ∈ w1.store.exercises, lib.toLower e.2.Name = lib.toLower d.Name := by
    intro d hd
    rcases hall d hd with h | ⟨e, he, hn⟩
    · obtain ⟨e, he, hn⟩ := (memoryExerciseRepo_List_names lib w _).mp h
      exact ⟨e, hkeep e he, hn⟩
    · exact ⟨e, he, by rw [hn]⟩
  have hnames1 : ∀ d ∈ DefaultExercises, lib.toLower d.Name ∈
      (((w1.store.exercises.map Prod.snd).insertionSort
        (fun a b => ¬ b.Name < a.Name)).map (fun ex => lib.toLower ex.Name)) :=
    fun d hd => (memoryExerciseRepo_List_names lib w1 _).mpr (hpresent d hd)
  refine ⟨w1, ?_, hpresent, hkeep, hu, hr, hw, ?_, ?_⟩
  · simp only [ExerciseService.EnsureDefaults, memoryRepository, memoryExerciseRepo.List]
    exact hrun
  · simp only [ExerciseService.EnsureDefaults, memoryRepository, memoryExerciseRepo.List]
    exact ensureDefaultsLoop_skip lib _ _ _ w1 hnames1
  · intro calls
    simp only [ExerciseService.EnsureDefaults, tracedRepository, traced, memoryRepository,
      memoryExerciseRepo.List, Traced.lower, Traced.lift]
    exact ensureDefaultsLoop_skip lib _ _ _ _ hnames1

/-- The theorem of C29 on the fresh store of the concrete run. -/
theorem ensure_defaults_idempotent_witness :
    ∃ w1, ExerciseService.EnsureDefaults demoLib (memoryRepository demoLib) demoWorld =
        (.ok (), w1) ∧
      (∀ d ∈ DefaultExercises,
        ∃ e ∈ w1.store.exercises, demoLib.toLower e.2.Name = demoLib.toLower d.Name) ∧
      (∀ e ∈ demoWorld.store.exercises, e ∈ w1.store.exercises) ∧
      w1.store.users = demoWorld.store.users ∧
      w1.store.refreshTokens = demoWorld.store.refreshTokens ∧
      w1.store.workouts = demoWorld.store.workouts ∧
      ExerciseService.EnsureDefaults demoLib (memoryRepository demoLib) w1 = (.ok (), w1) ∧
      (∀ calls, ExerciseService.EnsureDefaults demoLib
          (tracedRepository (memoryRepository demoLib)) (Traced.lift calls w1) =
        (.ok (), Traced.lift (calls ++ [.ExercisesList]) w1)) :=
  ensure_defaults_idempotent demoLib demoWorld demoLib_uuid_fresh (fun _ _ => rfl)

/-! ## C23: workout listing is scoped to its owner -/

theorem uuidsUnused_append_later {α : Type} (lib : Lib) (hfresh : lib.UuidFresh)
    (m : List (String × α)) (n n1 : Nat) (v : α) (h : uuidsUnused lib m n) (hn : n < n1) :
    uuidsUnused lib (m ++ [(lib.uuidNew n, v)]) n1 := by
  intro i hi
  rw [mapGet_append, h i (by omega)]
  have hne : lib.uuidNew n ≠ lib.uuidNew i := fun heq => by
    have := hfresh heq
    omega
  simp [mapGet, hne]

/-- The loop over the entries leaves the store alone, does not take uuids back, and
returns the entries in their order with the submitted fields. -/
theorem stampEntries_spec (lib : Lib) (sessionID : String) (entries : List WorkoutEntry)
    (v : World memoryStore) :
    (memoryWorkoutRepo.stampEntries lib sessionID entries v).2.store = v.store ∧
    v.uuidIdx ≤ (memoryWorkoutRepo.stampEntries lib sessionID entries v).2.uuidIdx ∧
    (memoryWorkoutRepo.stampEntries lib sessionID entries v).1.map WorkoutEntry.submitted =
      entries.map WorkoutEntry.submitted ∧
    ∀ e ∈ (memoryWorkoutRepo.stampEntries lib sessionID entries v).1, e.SessionID = sessionID := by
  induction entries generalizing v with
  | nil => exact ⟨rfl, le_refl _, rfl, by simp [memoryWorkoutRepo.stampEntries]⟩
  | cons entry rest ih =>
    by_cases hid : entry.ID = ""
    · obtain ⟨h1, h2, h3, h4⟩ := ih
        { v with uuidIdx := v.uuidIdx + 1, tick := v.tick + 1 }
      simp only [memoryWorkoutRepo.stampEntries, hid, if_true, uuidNewString, timeNow] at h1 h2 h3 h4 ⊢
      refine ⟨h1, by omega, ?_, ?_⟩
      · simp only [List.map_cons, h3]
        rfl
      · intro e he
        rcases List.mem_cons.mp he with h | h
        · rw [h]
        · exact h4 e h
    · obtain ⟨h1, h2, h3, h4⟩ := ih { v with tick := v.tick + 1 }
      simp only [memoryWorkoutRepo.stampEntries, hid, if_false, timeNow] at h1 h2 h3 h4 ⊢
      refine ⟨h1, h2, ?_, ?_⟩
      · simp only [List.map_cons, h3]
        rfl
      · intro e he
        rcases List.mem_cons.mp he with h | h
        · rw [h]
        · exact h4 e h

theorem toEntry_submitted (entries : List WorkoutEntryInput) :
    (entries.map WorkoutEntryInput.toEntry).map WorkoutEntry.submitted = entries := by
  induction entries with
  | nil => rfl
  | cons e rest ih => simp only [List.map_cons, ih]; rfl

/-- The call `WorkoutService.Create` over the in-memory repository for a user id that
is not empty, when the uuids still to be drawn are not ids of stored sessions: the
session is appended to the stored ones. -/
theorem WorkoutService_Create_memory (lib : Lib) (hfresh : lib.UuidFresh) (userID : String)
    (input : WorkoutSessionInput) (v : World memoryStore) (huser : userID ≠ "")
    (hunused : uuidsUnused lib v.store.workouts v.uuidIdx) :
    ∃ s v1, WorkoutService.Create (memoryRepository lib) userID input v = (.ok s, v1) ∧
      s.UserID = userID ∧ s.Entries.map WorkoutEntry.submitted = input.Entries ∧
      (∀ e ∈ s.Entries, e.SessionID = s.ID) ∧
      v1.store.workouts = v.store.workouts ++ [(s.ID, s)] ∧
      uuidsUnused lib v1.store.workouts v1.uuidIdx := by
  have habs := hunused v.uuidIdx (le_refl _)
  unfold WorkoutService.Create
  simp only [huser, if_false, memoryRepository, memoryWorkoutRepo.CreateSession, if_true,
    uuidNewString]
  generalize hw2 : (if Time.IsZero input.StartedAt = true then
      timeNow lib { v with uuidIdx := v.uuidIdx + 1 }
    else (input.StartedAt, { v with uuidIdx := v.uuidIdx + 1 })) = p2
  obtain ⟨startedAt, w2⟩ := p2
  have hw2s : w2.store = v.store ∧ w2.uuidIdx = v.uuidIdx + 1 := by
    by_cases hz : Time.IsZero input.StartedAt = true
    · rw [if_pos hz] at hw2
      simp only [timeNow, Prod.mk.injEq] at hw2
      rw [← hw2.2]; exact ⟨rfl, rfl⟩
    · rw [if_neg hz] at hw2
      simp only [Prod.mk.injEq] at hw2
      rw [← hw2.2]; exact ⟨rfl, rfl⟩
  simp only [timeNow]
  obtain ⟨h1, h2, h3, h4⟩ := stampEntries_spec lib (lib.uuidNew v.uuidIdx)
    (input.Entries.map WorkoutEntryInput.toEntry) { w2 with tick := w2.tick + 1 }
  revert h1 h2 h3 h4
  generalize memoryWorkoutRepo.stampEntries lib (lib.uuidNew v.uuidIdx)
    (input.Entries.map WorkoutEntryInput.toEntry) { w2 with tick := w2.tick + 1 } = p4
  obtain ⟨entries, w4⟩ := p4
  intro h1 h2 h3 h4
  simp only [] at h1 h2 h3 h4
  have hst : w4.store.workouts = v.store.workouts := by rw [h1, hw2s.1]
  refine ⟨_, _, rfl, rfl, ?_, h4, ?_, ?_⟩
  · simp only [h3, toEntry_submitted]
  · simp only [hst, mapSet_of_absent _ _ _ habs]
  · simp only [hst, mapSet_of_absent _ _ _ habs]
    apply uuidsUnused_append_later lib hfresh _ _ _ _ hunused
    have : v.uuidIdx + 1 ≤ w4.uuidIdx := by rw [← hw2s.2]; exact h2
    omega

/-- A sequence of `Create` calls appends the sessions it returns to the stored ones,
and returns one session for each call with a user id, with that user id and the
submitted entries. -/
theorem createAllSessions_memory (lib : Lib) (hfresh : lib.UuidFresh)
    (calls : List (String × WorkoutSessionInput)) (v : World memoryStore)
    (hunused : uuidsUnused lib v.store.workouts v.uuidIdx) :
    (createAllSessions (memoryRepository lib) calls v).2.store.workouts =
      v.store.workouts ++
        (createAllSessions (memoryRepository lib) calls v).1.map (fun s => (s.ID, s)) ∧
    (createAllSessions (memoryRepository lib) calls v).1.map
        (fun s => (s.UserID, s.Entries.map WorkoutEntry.submitted)) =
      (calls.filter (fun c => decide (c.1 ≠ ""))).map (fun c => (c.1, c.2.Entries)) ∧
    (∀ s ∈ (createAllSessions (memoryRepository lib) calls v).1,
      ∀ e ∈ s.Entries, e.SessionID = s.ID) := by
  induction calls generalizing v with
  | nil => simp [createAllSessions]
  | cons c rest ih =>
    obtain ⟨userID, input⟩ := c
    by_cases huser : userID = ""
    · have hc : WorkoutService.Create (memoryRepository lib) userID input v =
          (.error (.New "user id is required"), v) := by
        simp [WorkoutService.Create, huser]
      obtain ⟨i1, i2, i3⟩ := ih v hunused
      simp only [createAllSessions, hc]
      refine ⟨i1, ?_, i3⟩
      rw [i2]
      simp [huser]
    · obtain ⟨s, v1, hc, hsu, hse, hsid, hst, hun⟩ :=
        WorkoutService_Create_memory lib hfresh userID input v huser hunused
      obtain ⟨i1, i2, i3⟩ := ih v1 hun
      simp only [createAllSessions, hc]
      refine ⟨?_, ?_, ?_⟩
      · rw [i1, hst]
        simp
      · simp only [List.map_cons, i2, hsu, hse]
        simp [huser]
      · intro s1 hs1
        rcases List.mem_cons.mp hs1 with h | h
        · rw [h]; exact hsid
        · exact i3 s1 h

/-- C23 (workout listing is scoped to its owner).  Over the in-memory repository,
when uuids do not repeat: start from a store without workout sessions and make any
sequence of `WorkoutService.Create` calls.  The calls without user id fail and the
others each return a session with the caller's user id and the submitted entries,
in the order submitted and with the submitted `ExerciseID` values (and `Sets`,
`Reps`, `Weight`, `DurationSeconds`, `Notes`).  Then for every non-empty `userID`,
`WorkoutService.List(userID)` returns no error, changes nothing, and returns, in
some order, exactly the sessions that those calls returned for that `userID`; none
of them belongs to another user. -/
theorem workout_list_scoped (lib : Lib) (calls : List (String × WorkoutSessionInput))
    (w0 : World memoryStore) (userID : String)
    (hfresh : lib.UuidFresh) (hempty : w0.store.workouts = []) (huser : userID ≠ "") :
    ∃ sessions,
      WorkoutService.List (memoryRepository lib) userID
          (createAllSessions (memoryRepository lib) calls w0).2 =
        (.ok sessions, (createAllSessions (memoryRepository lib) calls w0).2) ∧
      sessions.Perm ((createAllSessions (memoryRepository lib) calls w0).1.filter
        (fun s => decide (s.UserID = userID))) ∧
      (∀ s ∈ sessions, s.UserID = userID) ∧
      (createAllSessions (memoryRepository lib) calls w0).1.map
          (fun s => (s.UserID, s.Entries.map WorkoutEntry.submitted)) =
        (calls.filter (fun c => decide (c.1 ≠ ""))).map (fun c => (c.1, c.2.Entries)) ∧
      (∀ s ∈ sessions, s.Entries.map (fun e => e.ExerciseID) =
        (s.Entries.map WorkoutEntry.submitted).map (fun e => e.ExerciseID)) := by
  have hunused : uuidsUnused lib w0.store.workouts w0.uuidIdx := by
    intro i _
    rw [hempty]; rfl
  obtain ⟨h1, h2, _⟩ := createAllSessions_memory lib hfresh calls w0 hunused
  rw [hempty, List.nil_append] at h1
  have hvals : ((createAllSessions (memoryRepository lib) calls w0).2.store.workouts.map
      Prod.snd) = (createAllSessions (memoryRepository lib) calls w0).1 := by
    rw [h1, List.map_map]
    induction (createAllSessions (memoryRepository lib) calls w0).1 with
    | nil => rfl
    | cons a l ih => rw [List.map_cons, ih]; rfl
  refine ⟨((((createAllSessions (memoryRepository lib) calls w0).2.store.workouts.map
      Prod.snd).filter (fun session => decide (session.UserID = userID))).insertionSort
        (fun a b => b.StartedAt ≤ a.StartedAt)), ?_, ?_, ?_, h2, ?_⟩
  · unfold WorkoutService.List
    rw [if_neg huser]
    rfl
  · rw [hvals]
    exact List.perm_insertionSort _ _
  · intro s hs
    have := (List.perm_insertionSort _ _).mem_iff.mp hs
    simpa using (List.mem_filter.mp this).2
  · intro s _
    rw [List.map_map]
    rfl

/-- The theorem of C23 on the concrete run, for user `u`. -/
theorem workout_list_scoped_witness :
    ∃ sessions,
      WorkoutService.List (memoryRepository demoLib) "u"
          (createAllSessions (memoryRepository demoLib) demoWorkouts demoWorld).2 =
        (.ok sessions, (createAllSessions (memoryRepository demoLib) demoWorkouts demoWorld).2) ∧
      sessions.Perm ((createAllSessions (memoryRepository demoLib) demoWorkouts demoWorld).1.filter
        (fun s => decide (s.UserID = "u"))) ∧
      (∀ s ∈ sessions, s.UserID = "u") ∧
      (createAllSessions (memoryRepository demoLib) demoWorkouts demoWorld).1.map
          (fun s => (s.UserID, s.Entries.map WorkoutEntry.submitted)) =
        (demoWorkouts.filter (fun c => decide (c.1 ≠ ""))).map (fun c => (c.1, c.2.Entries)) ∧
      (∀ s ∈ sessions, s.Entries.map (fun e => e.ExerciseID) =
        (s.Entries.map WorkoutEntry.submitted).map (fun e => e.ExerciseID)) :=
  workout_list_scoped demoLib demoWorkouts demoWorld "u" demoLib_uuid_fresh rfl (by decide)

/-! ## C3, C4, C7: where the claims stop -/

/-- C7, as the code has it.  With a lifetime of half a second, `GenerateAccessToken`
at clock reading `1700000000.000 s` returns the expiry instant `1700000000.500 s`
and signs the expiry truncated to the whole second, `1700000000 s`.  `ParseToken`
of that token two milliseconds later, well before the returned expiry instant,
fails with the expiry error. -/
theorem access_token_expires_before_returned_expiry :
    (0 : Duration) < 500000000 ∧
    GenerateAccessToken demoLib "test-access-secret" "u" "user" 500000000 demoWorld =
      (.ok (demoSign "test-access-secret"
              { UserID := "u", Role := "user", ID := "", Subject := "",
                ExpiresAt := some 1700000000000000000,
                IssuedAt := some 1700000000000000000 },
            1700000000500000000),
       { demoWorld with tick := 2 }) ∧
    demoLib.clock 2 = 1700000000002000000 ∧
    demoLib.clock 2 < 1700000000500000000 ∧
    ParseToken demoLib
        (demoSign "test-access-secret"
          { UserID := "u", Role := "user", ID := "", Subject := "",
            ExpiresAt := some 1700000000000000000,
            IssuedAt := some 1700000000000000000 })
        "test-access-secret" { demoWorld with tick := 2 } =
      (.error ErrTokenExpired, { demoWorld with tick := 3 }) := by
  refine ⟨by decide, by decide!, by decide!, by decide!, by decide!⟩

/-- C3, as the code has it.  On the concrete run with a clock that, after the
registration, shows the instant `1700003600.000 s`: the record of the registration's
refresh token, with expiry `1700003600.003 s`, is live (`Exists` answers true), the
expiry signed into the token, the same instant truncated to the whole second, has
been reached, `Logout` of the token returns no error, and the `Refresh` that follows
fails with the expiry error of verification, not with `refresh token not found`. -/
theorem logout_then_refresh_of_expired_token :
    AuthService.Register (windowLib 6) demoCfg (memoryRepository (windowLib 6)) demoRequest
      demoWorld = (.ok demoResponse, demoRegistered) ∧
    mapGet demoRegistered.store.refreshTokens
      (HashToken (windowLib 6) demoResponse.TokenPair.RefreshToken) =
        some 1700003600003000000 ∧
    (memoryRefreshRepo.Exists (windowLib 6)
      (HashToken (windowLib 6) demoResponse.TokenPair.RefreshToken) demoRegistered).1 =
        .ok true ∧
    AuthService.Logout (windowLib 6) (memoryRepository (windowLib 6))
        demoResponse.TokenPair.RefreshToken demoRegistered =
      (.ok (), { demoRegistered with
        store := { demoRegistered.store with refreshTokens := [] } }) ∧
    AuthService.Refresh (windowLib 6) demoCfg (memoryRepository (windowLib 6))
        demoResponse.TokenPair.RefreshToken
        { demoRegistered with store := { demoRegistered.store with refreshTokens := [] } } =
      (.error ErrTokenExpired,
       { demoRegistered with
         store := { demoRegistered.store with refreshTokens := [] }, tick := 7 }) ∧
    ErrTokenExpired ≠ GoError.New "refresh token not found" := by
  refine ⟨by decide!, by decide!, by decide!, by decide!, by decide!, by decide⟩

/-- C4, as the code has it.  `Register` hashes the password before it calls
`Users.Create`, and bcrypt refuses a password of more than 72 bytes.  On the fresh
store, which holds no user of the email: `Register` with a password of 73 bytes
fails with bcrypt's error, and after a successful `Register` of the email a second
`Register` of the same email with the long password fails with bcrypt's error, not
with `user already exists`. -/
theorem duplicate_registration_with_long_password :
    longPassword.utf8ByteSize = 73 ∧
    (∀ en ∈ demoWorld.store.users, en.2.Email ≠ "athlete@example.com") ∧
    AuthService.Register strictBcryptLib demoCfg (memoryRepository strictBcryptLib)
        { Email := "athlete@example.com", Password := longPassword } demoWorld =
      (.error (.New "bcrypt: password length exceeds 72 bytes"), demoWorld) ∧
    AuthService.Register strictBcryptLib demoCfg (memoryRepository strictBcryptLib)
        demoRequest demoWorld = (.ok demoResponse, demoRegistered) ∧
    AuthService.Register strictBcryptLib demoCfg (memoryRepository strictBcryptLib)
        { Email := "athlete@example.com", Password := longPassword } demoRegistered =
      (.error (.New "bcrypt: password length exceeds 72 bytes"), demoRegistered) ∧
    GoError.New "bcrypt: password length exceeds 72 bytes" ≠ GoError.New "user already exists" := by
  refine ⟨by decide!, ?_, by decide!, by decide!, by decide!, by decide⟩
  intro en he
  simp [demoWorld, newMemoryStore] at he

/-! ## C18: the reported lifetime of every issued pair -/

theorem tdiv_second_neg_iff (d : Int) : Int.tdiv d 1000000000 < 0 ↔ d ≤ -1000000000 := by
  by_cases hd : 0 ≤ d
  · rw [Int.tdiv_eq_ediv hd (by decide)]
    omega
  · have hn : 0 ≤ -d := by omega
    have e : Int.tdiv d 1000000000 = -((-d) / 1000000000) := by
      have h1 : d = -(-d) := by omega
      conv_lhs => rw [h1]
      rw [Int.neg_tdiv, Int.tdiv_eq_ediv hn (by decide)]
    rw [e]
    omega

/-- C18, amended.  For every successful `issueTokens` call over the in-memory
repository, `ExpiresIn` is `int64(d.Seconds())` for the duration `d` between the
clock reading when the pair is built and the expiry instant of the access token.
Whenever `d` is below `2^24` seconds in magnitude this is the exact number of whole
seconds in `d`, truncated toward zero, and so it is negative exactly when the pair is
built a whole second or more after the expiry instant.  When the clock has not gone
back since the expiry was computed, the pair is built no later than that expiry, and
the access lifetime is below `2^24` seconds, `0 ≤ ExpiresIn ≤ TTL` in whole
seconds. -/
theorem expires_in_whole_seconds (lib : Lib) (cfg : Config) (userID role : String)
    (w w1 : World memoryStore) (tokens : TokenPair)
    (h : AuthService.issueTokens lib cfg (memoryRepository lib) userID role w =
      (.ok tokens, w1)) :
    tokens.ExpiresIn =
      wholeSeconds (lib.clock w.tick + cfg.AccessTokenTTL - lib.clock (w.tick + 4)) ∧
    ((lib.clock w.tick + cfg.AccessTokenTTL - lib.clock (w.tick + 4)).natAbs <
        2 ^ 24 * 1000000000 →
      tokens.ExpiresIn =
        Int.tdiv (lib.clock w.tick + cfg.AccessTokenTTL - lib.clock (w.tick + 4)) Second ∧
      (tokens.ExpiresIn < 0 ↔
        lib.clock w.tick + cfg.AccessTokenTTL - lib.clock (w.tick + 4) ≤ -Second)) ∧
    (lib.clock w.tick ≤ lib.clock (w.tick + 4) →
      lib.clock (w.tick + 4) ≤ lib.clock w.tick + cfg.AccessTokenTTL →
      cfg.AccessTokenTTL < 2 ^ 24 * Second →
      tokens.ExpiresIn =
        Int.tdiv (lib.clock w.tick + cfg.AccessTokenTTL - lib.clock (w.tick + 4)) Second ∧
      0 ≤ tokens.ExpiresIn ∧ tokens.ExpiresIn ≤ Int.tdiv cfg.AccessTokenTTL Second) := by
  obtain ⟨_, _, hexp, _⟩ := issueTokens_memory_inv lib cfg userID role w w1 tokens h
  refine ⟨hexp, ?_, ?_⟩
  · intro habs
    have hex := wholeSeconds_exact _ habs
    refine ⟨by rw [hexp, hex], ?_⟩
    rw [hexp, hex]
    exact tdiv_second_neg_iff _
  · intro hclock hlive hsmall
    have key : ∀ a b ttl : Int, a ≤ b → b ≤ a + ttl → ttl < 2 ^ 24 * 1000000000 →
        0 ≤ a + ttl - b ∧ a + ttl - b ≤ ttl ∧ (a + ttl - b).natAbs < 2 ^ 24 * 1000000000 := by
      intro a b ttl h1 h2 h3
      omega
    obtain ⟨h0, hle, habs⟩ := key _ _ _ hclock hlive hsmall
    have hex := wholeSeconds_exact _ habs
    have hS : (0 : Int) < Second := by decide
    have httl : (0 : Int) ≤ cfg.AccessTokenTTL := le_trans h0 hle
    refine ⟨by rw [hexp, hex], ?_, ?_⟩
    · rw [hexp, hex]
      exact Int.tdiv_nonneg h0 (le_of_lt hS)
    · rw [hexp, hex, Int.tdiv_eq_ediv h0 (le_of_lt hS), Int.tdiv_eq_ediv httl (le_of_lt hS)]
      exact Int.ediv_le_ediv hS hle

/-- The theorem of C18, amended, on the concrete run: a pair built in time, with
`0 ≤ ExpiresIn ≤ TTL`. -/
theorem expires_in_whole_seconds_witness :
    demoIssued.ExpiresIn =
      wholeSeconds (demoLib.clock demoWorld.tick + demoCfg.AccessTokenTTL -
        demoLib.clock (demoWorld.tick + 4)) ∧
    (demoIssued.ExpiresIn =
        Int.tdiv (demoLib.clock demoWorld.tick + demoCfg.AccessTokenTTL -
          demoLib.clock (demoWorld.tick + 4)) Second ∧
      (demoIssued.ExpiresIn < 0 ↔
        demoLib.clock demoWorld.tick + demoCfg.AccessTokenTTL -
          demoLib.clock (demoWorld.tick + 4) ≤ -Second)) ∧
    (demoIssued.ExpiresIn =
        Int.tdiv (demoLib.clock demoWorld.tick + demoCfg.AccessTokenTTL -
          demoLib.clock (demoWorld.tick + 4)) Second ∧
      0 ≤ demoIssued.ExpiresIn ∧
      demoIssued.ExpiresIn ≤ Int.tdiv demoCfg.AccessTokenTTL Second) :=
  (fun t => ⟨t.1, t.2.1 (by decide), t.2.2 (by decide) (by decide) (by decide)⟩)
    (expires_in_whole_seconds demoLib demoCfg "u" "user" demoWorld
      (issuedWorld demoLib demoCfg demoIssued.RefreshToken demoWorld) demoIssued (by decide!))

/-! ## C22: a refresh that asks after the other call has deleted the record -/

theorem interleave_append {σ : Type} (lib : Lib) (cfg : Config) (repo : Repository σ)
    (RA RB : String) (s1 s2 : List Bool) (st : RefreshThread × RefreshThread × World σ) :
    RefreshThread.interleave lib cfg repo RA RB (s1 ++ s2) st =
      RefreshThread.interleave lib cfg repo RA RB s2
        (RefreshThread.interleave lib cfg repo RA RB s1 st) := by
  induction s1 generalizing st with
  | nil => rfl
  | cons x s ih =>
    obtain ⟨a, b, w⟩ := st
    cases x with
    | true => simp only [List.cons_append, RefreshThread.interleave]; exact ih _
    | false => simp only [List.cons_append, RefreshThread.interleave]; exact ih _

theorem RefreshThread_run_returned {σ : Type} (lib : Lib) (cfg : Config) (repo : Repository σ)
    (R : String) (n : Nat) (r : Except GoError (TokenPair × User)) (w : World σ) :
    RefreshThread.run lib cfg repo R n (.returned r, w) = (.returned r, w) := by
  induction n with
  | zero => rfl
  | succ n ih => simp only [RefreshThread.run, RefreshThread.step]; exact ih

/-- Once the first call has returned, only the second moves. -/
theorem interleave_first_returned {σ : Type} (lib : Lib) (cfg : Config) (repo : Repository σ)
    (RA RB : String) (s : List Bool) (r : Except GoError (TokenPair × User))
    (b : RefreshThread) (w : World σ) :
    RefreshThread.interleave lib cfg repo RA RB s (.returned r, b, w) =
      (.returned r, (RefreshThread.run lib cfg repo RB (s.count false) (b, w)).1,
        (RefreshThread.run lib cfg repo RB (s.count false) (b, w)).2) := by
  induction s generalizing b w with
  | nil => rfl
  | cons x s ih =>
    cases x with
    | true =>
      simp only [RefreshThread.interleave, RefreshThread.step]
      rw [ih]
      simp
    | false =>
      simp only [RefreshThread.interleave]
      rw [ih]
      simp [RefreshThread.run]

/-- Once the second call has returned, only the first moves. -/
theorem interleave_second_returned {σ : Type} (lib : Lib) (cfg : Config) (repo : Repository σ)
    (RA RB : String) (s : List Bool) (r : Except GoError (TokenPair × User))
    (a : RefreshThread) (w : World σ) :
    RefreshThread.interleave lib cfg repo RA RB s (a, .returned r, w) =
      ((RefreshThread.run lib cfg repo RA (s.count true) (a, w)).1, .returned r,
        (RefreshThread.run lib cfg repo RA (s.count true) (a, w)).2) := by
  induction s generalizing a w with
  | nil => rfl
  | cons x s ih =>
    cases x with
    | true =>
      simp only [RefreshThread.interleave]
      rw [ih]
      simp [RefreshThread.run]
    | false =>
      simp only [RefreshThread.interleave, RefreshThread.step]
      rw [ih]
      simp

/-- What one step of a call over the in-memory repository does to the record of its
token: a call that has not asked yet has left the store alone, and a call that
returns a pair has deleted the record. -/
theorem RefreshThread_step_memory (lib : Lib) (cfg : Config) (R : String) (x : RefreshThread)
    (w : World memoryStore) :
    (RefreshThread.Decoded lib cfg R x →
      RefreshThread.Decoded lib cfg R
        (RefreshThread.step lib cfg (memoryRepository lib) R x w).1) ∧
    ((RefreshThread.step lib cfg (memoryRepository lib) R x w).1.succeeded = true →
      (x.succeeded = true ∧ (RefreshThread.step lib cfg (memoryRepository lib) R x w).2 = w) ∨
      mapGet (RefreshThread.step lib cfg (memoryRepository lib) R x w).2.store.refreshTokens
        (HashToken lib R) = none) ∧
    ((RefreshThread.step lib cfg (memoryRepository lib) R x w).1.early = true →
      x.early = true ∧
      (RefreshThread.step lib cfg (memoryRepository lib) R x w).2.store = w.store) := by
  cases x with
  | start =>
    have hw := ParseToken_world lib R cfg.RefreshTokenSecret w
    cases hp : ParseToken lib R cfg.RefreshTokenSecret w with
    | mk res w1 =>
      rw [hp] at hw
      cases res with
      | error err =>
        simp only [RefreshThread.step, hp]
        refine ⟨fun _ => Or.inr (Or.inl ⟨err, rfl⟩), fun h => ?_, fun h => ?_⟩
        · simp [RefreshThread.succeeded] at h
        · simp [RefreshThread.early] at h
      | ok claims =>
        simp only [RefreshThread.step, hp]
        refine ⟨fun _ => Or.inr (Or.inr ⟨claims, (ParseToken_inv lib R _ w w1 claims hp).1⟩),
          fun h => ?_, fun _ => ⟨rfl, hw.1⟩⟩
        simp [RefreshThread.succeeded] at h
  | verified claims =>
    cases hx : memoryRefreshRepo.Exists lib (HashToken lib R) w with
    | mk res w1 =>
      cases res with
      | error err =>
        simp only [RefreshThread.step, memoryRepository, hx]
        refine ⟨fun _ => Or.inr (Or.inl ⟨err, rfl⟩), fun h => ?_, fun h => ?_⟩
        · simp [RefreshThread.succeeded] at h
        · simp [RefreshThread.early] at h
      | ok b =>
        cases b with
        | false =>
          simp only [RefreshThread.step, memoryRepository, hx]
          refine ⟨fun _ => Or.inr (Or.inl ⟨_, rfl⟩), fun h => ?_, fun h => ?_⟩
          · simp [RefreshThread.succeeded] at h
          · simp [RefreshThread.early] at h
        | true =>
          simp only [RefreshThread.step, memoryRepository, hx]
          refine ⟨fun h => ?_, fun h => ?_, fun h => ?_⟩
          · rcases h with h | ⟨e, h⟩ | h
            · simp at h
            · simp at h
            · exact Or.inr (Or.inr h)
          · simp [RefreshThread.succeeded] at h
          · simp [RefreshThread.early] at h
  | live claims =>
    cases hx : memoryUserRepo.GetByID claims.UserID w with
    | mk res w1 =>
      cases res with
      | error err =>
        simp only [RefreshThread.step, memoryRepository, hx]
        refine ⟨fun _ => Or.inr (Or.inl ⟨err, rfl⟩), fun h => ?_, fun h => ?_⟩
        · simp [RefreshThread.succeeded] at h
        · simp [RefreshThread.early] at h
      | ok user =>
        simp only [RefreshThread.step, memoryRepository, hx]
        refine ⟨fun h => ?_, fun h => ?_, fun h => ?_⟩
        · rcases h with h | ⟨e, h⟩ | h
          · simp at h
          · simp at h
          · exact Or.inr (Or.inr h)
        · simp [RefreshThread.succeeded] at h
        · simp [RefreshThread.early] at h
  | loaded user =>
    cases hx : AuthService.issueTokens lib cfg (memoryRepository lib) user.ID user.Role w with
    | mk res w1 =>
      cases res with
      | error err =>
        simp only [RefreshThread.step, hx]
        refine ⟨fun _ => Or.inr (Or.inl ⟨err, rfl⟩), fun h => ?_, fun h => ?_⟩
        · simp [RefreshThread.succeeded] at h
        · simp [RefreshThread.early] at h
      | ok tokens =>
        simp only [RefreshThread.step, hx]
        refine ⟨fun h => ?_, fun h => ?_, fun h => ?_⟩
        · rcases h with h | ⟨e, h⟩ | h
          · simp at h
          · simp at h
          · exact Or.inr (Or.inr h)
        · simp [RefreshThread.succeeded] at h
        · simp [RefreshThread.early] at h
  | issued tokens user =>
    simp only [RefreshThread.step, memoryRepository, memoryRefreshRepo.Delete]
    refine ⟨fun h => ?_, fun _ => Or.inr (mapGet_mapDelete_self _ _), fun h => ?_⟩
    · rcases h with h | ⟨e, h⟩ | h
      · simp at h
      · simp at h
      · exact Or.inr (Or.inr h)
    · simp [RefreshThread.early] at h
  | returned r =>
    simp only [RefreshThread.step]
    exact ⟨fun h => h, fun h => Or.inl ⟨h, trivial⟩, fun h => ⟨h, trivial⟩⟩

theorem early_iff (x : RefreshThread) :
    x.early = true ↔ x = .start ∨ ∃ claims, x = .verified claims := by
  cases x <;> simp [RefreshThread.early]

theorem interleave_settled (lib : Lib) (cfg : Config) (R : String) (s : List Bool)
    (st : RefreshThread × RefreshThread × World memoryStore)
    (h : RefreshThread.Settled lib cfg R st) :
    RefreshThread.Settled lib cfg R
      (RefreshThread.interleave lib cfg (memoryRepository lib) R R s st) := by
  induction s generalizing st with
  | nil => exact h
  | cons x s ih =>
    obtain ⟨a, b, w⟩ := st
    obtain ⟨ha, hb, hab, hba⟩ := h
    cases x with
    | true =>
      simp only [RefreshThread.interleave]
      apply ih
      obtain ⟨h1, h2, h3⟩ := RefreshThread_step_memory lib cfg R a w
      refine ⟨h1 ha, hb, fun hs he => ?_, fun hs he => ?_⟩
      · rcases h2 hs with ⟨hs0, hw⟩ | habs
        · simp only at hw ⊢
          rw [hw]; exact hab hs0 he
        · exact habs
      · obtain ⟨he0, hst⟩ := h3 he
        simp only at hst ⊢
        rw [hst]; exact hba hs he0
    | false =>
      simp only [RefreshThread.interleave]
      apply ih
      obtain ⟨h1, h2, h3⟩ := RefreshThread_step_memory lib cfg R b w
      refine ⟨ha, h1 hb, fun hs he => ?_, fun hs he => ?_⟩
      · obtain ⟨he0, hst⟩ := h3 he
        simp only at hst ⊢
        rw [hst]; exact hab hs he0
      · rcases h2 hs with ⟨hs0, hw⟩ | habs
        · simp only at hw ⊢
          rw [hw]; exact hba hs0 he
        · exact habs

/-- A call that has not asked the store yet, run alone on a store without the record
of its token that decodes: it never returns a pair; from `verified` its next step
returns `refresh token not found`; from `start` its next two steps return that
error, or the expiry error when the signed expiry is reached at its verification. -/
theorem run_early_absent (lib : Lib) (cfg : Config) (R : String) (x : RefreshThread)
    (w : World memoryStore) (n : Nat) (claims : Claims)
    (hdec : lib.jwtDecode R cfg.RefreshTokenSecret = .ok claims)
    (he : x.early = true)
    (habs : mapGet w.store.refreshTokens (HashToken lib R) = none) :
    (RefreshThread.run lib cfg (memoryRepository lib) R n (x, w)).1.succeeded = false ∧
    ((∃ c, x = .verified c) → 1 ≤ n →
      (RefreshThread.run lib cfg (memoryRepository lib) R n (x, w)).1 =
        .returned (.error (.New "refresh token not found"))) ∧
    (2 ≤ n →
      (RefreshThread.run lib cfg (memoryRepository lib) R n (x, w)).1 =
          .returned (.error (.New "refresh token not found")) ∨
      (x = .start ∧ (∃ exp, claims.ExpiresAt = some exp ∧ exp ≤ lib.clock w.tick) ∧
        (RefreshThread.run lib cfg (memoryRepository lib) R n (x, w)).1 =
          .returned (.error ErrTokenExpired))) := by
  have hver : ∀ (c : Claims) (w1 : World memoryStore) (m : Nat),
      mapGet w1.store.refreshTokens (HashToken lib R) = none →
      RefreshThread.run lib cfg (memoryRepository lib) R (m + 1) (.verified c, w1) =
        (.returned (.error (.New "refresh token not found")), w1) := by
    intro c w1 m h1
    have hx := Exists_absent lib (HashToken lib R) w1 h1
    simp only [RefreshThread.run, RefreshThread.step, memoryRepository, hx]
    exact RefreshThread_run_returned lib cfg _ R m _ w1
  rcases (early_iff x).mp he with he | ⟨c, he⟩
  · subst he
    cases n with
    | zero => exact ⟨rfl, fun _ h => absurd h (by omega), fun h => absurd h (by omega)⟩
    | succ n =>
      have hpe := ParseToken_eq lib R cfg.RefreshTokenSecret w
      rw [hdec] at hpe
      simp only at hpe
      cases hexp : claims.ExpiresAt with
      | none =>
        rw [hexp] at hpe
        simp only at hpe
        cases n with
        | zero =>
          simp only [RefreshThread.run, RefreshThread.step, hpe]
          exact ⟨rfl, fun ⟨c, h⟩ => by simp at h, fun h => absurd h (by omega)⟩
        | succ n =>
          have := hver claims { w with tick := w.tick + 1 } n habs
          have hrun : RefreshThread.run lib cfg (memoryRepository lib) R (n + 1 + 1)
              (.start, w) = (.returned (.error (.New "refresh token not found")),
                { w with tick := w.tick + 1 }) := by
            rw [RefreshThread.run]
            simp only [RefreshThread.step, hpe]
            exact this
          rw [hrun]
          exact ⟨rfl, fun _ _ => rfl, fun _ => Or.inl rfl⟩
      | some exp =>
        rw [hexp] at hpe
        simp only at hpe
        by_cases hlt : lib.clock w.tick < exp
        · rw [if_pos hlt] at hpe
          cases n with
          | zero =>
            simp only [RefreshThread.run, RefreshThread.step, hpe]
            exact ⟨rfl, fun ⟨c, h⟩ => by simp at h, fun h => absurd h (by omega)⟩
          | succ n =>
            have := hver claims { w with tick := w.tick + 1 } n habs
            have hrun : RefreshThread.run lib cfg (memoryRepository lib) R (n + 1 + 1)
                (.start, w) = (.returned (.error (.New "refresh token not found")),
                  { w with tick := w.tick + 1 }) := by
              rw [RefreshThread.run]
              simp only [RefreshThread.step, hpe]
              exact this
            rw [hrun]
            exact ⟨rfl, fun _ _ => rfl, fun _ => Or.inl rfl⟩
        · rw [if_neg hlt] at hpe
          have hrun : RefreshThread.run lib cfg (memoryRepository lib) R (n + 1)
              (.start, w) = (.returned (.error ErrTokenExpired),
                { w with tick := w.tick + 1 }) := by
            rw [RefreshThread.run]
            simp only [RefreshThread.step, hpe]
            exact RefreshThread_run_returned lib cfg _ R n _ _
          rw [hrun]
          exact ⟨rfl, fun ⟨c, h⟩ => by simp at h,
            fun _ => Or.inr ⟨rfl, ⟨exp, rfl, not_lt.mp hlt⟩, rfl⟩⟩
  · subst he
    cases n with
    | zero => exact ⟨rfl, fun _ h => absurd h (by omega), fun h => absurd h (by omega)⟩
    | succ n =>
      rw [hver c w n habs]
      exact ⟨rfl, fun _ _ => rfl, fun _ => Or.inl rfl⟩

theorem Settled_start (lib : Lib) (cfg : Config) (R : String) (w : World memoryStore) :
    RefreshThread.Settled lib cfg R (.start, .start, w) :=
  ⟨Or.inl rfl, Or.inl rfl, fun h => by simp [RefreshThread.succeeded] at h,
    fun h => by simp [RefreshThread.succeeded] at h⟩

theorem succeeded_decoded (lib : Lib) (cfg : Config) (R : String) (x : RefreshThread)
    (hd : RefreshThread.Decoded lib cfg R x) (hs : x.succeeded = true) :
    (∃ p, x = .returned (.ok p)) ∧
    ∃ claims, lib.jwtDecode R cfg.RefreshTokenSecret = .ok claims := by
  constructor
  · cases x with
    | returned r =>
      cases r with
      | ok p => exact ⟨p, rfl⟩
      | error e => simp [RefreshThread.succeeded] at hs
    | _ => simp [RefreshThread.succeeded] at hs
  · rcases hd with h | ⟨e, h⟩ | h
    · subst h; simp [RefreshThread.succeeded] at hs
    · subst h; simp [RefreshThread.succeeded] at hs
    · exact h

theorem triple_eta {α β γ : Type} (x : α × β × γ) : x = (x.1, x.2.1, x.2.2) := rfl

/-- C22, amended.  Over the in-memory repository, let two `Refresh(R)` calls run from
any world with their steps interleaved by any schedule `s1` and then any schedule
`s2`.  If after `s1` one call has returned a token pair while the other has not yet
asked the store whether the record of `R` exists (it stands before or just after
verification), then after `s2` the first still holds its pair and the other has not
returned a pair: at most one succeeds.  The other call fails with `refresh token not
found`: at its next step when it had verified `R`, and within its next two steps when
it had not, unless the signed expiry of `R` is reached at its verification, which
then returns the expiry error.  This holds for either call being the first. -/
theorem refresh_after_delete_not_found (lib : Lib) (cfg : Config) (R : String)
    (w w1 w2 : World memoryStore) (s1 s2 : List Bool) (a b a2 b2 : RefreshThread)
    (h1 : RefreshThread.interleave lib cfg (memoryRepository lib) R R s1
      (.start, .start, w) = (a, b, w1))
    (h2 : RefreshThread.interleave lib cfg (memoryRepository lib) R R (s1 ++ s2)
      (.start, .start, w) = (a2, b2, w2)) :
    (a.succeeded = true → b.early = true →
      a2 = a ∧ b2.succeeded = false ∧
      ((∃ c, b = .verified c) → 1 ≤ s2.count false →
        b2 = .returned (.error (.New "refresh token not found"))) ∧
      (2 ≤ s2.count false →
        b2 = .returned (.error (.New "refresh token not found")) ∨
        (b = .start ∧
          (∃ claims exp, lib.jwtDecode R cfg.RefreshTokenSecret = .ok claims ∧
            claims.ExpiresAt = some exp ∧ exp ≤ lib.clock w1.tick) ∧
          b2 = .returned (.error ErrTokenExpired)))) ∧
    (b.succeeded = true → a.early = true →
      b2 = b ∧ a2.succeeded = false ∧
      ((∃ c, a = .verified c) → 1 ≤ s2.count true →
        a2 = .returned (.error (.New "refresh token not found"))) ∧
      (2 ≤ s2.count true →
        a2 = .returned (.error (.New "refresh token not found")) ∨
        (a = .start ∧
          (∃ claims exp, lib.jwtDecode R cfg.RefreshTokenSecret = .ok claims ∧
            claims.ExpiresAt = some exp ∧ exp ≤ lib.clock w1.tick) ∧
          a2 = .returned (.error ErrTokenExpired)))) := by
  have hset := interleave_settled lib cfg R s1 _ (Settled_start lib cfg R w)
  rw [h1] at hset
  obtain ⟨hda, hdb, hab, hba⟩ := hset
  rw [interleave_append, h1] at h2
  constructor
  · intro hs he
    obtain ⟨⟨p, hp⟩, claims, hdec⟩ := succeeded_decoded lib cfg R a hda hs
    have habs := hab hs he
    subst hp
    rw [interleave_first_returned] at h2
    simp only [Prod.mk.injEq] at h2
    obtain ⟨ha2, hb2, _⟩ := h2
    obtain ⟨r1, r2, r3⟩ := run_early_absent lib cfg R b w1 (s2.count false) claims hdec he habs
    rw [hb2] at r1 r2 r3
    refine ⟨ha2.symm, r1, r2, fun hn => ?_⟩
    rcases r3 hn with h | ⟨hb, ⟨exp, hexp, hle⟩, h⟩
    · exact Or.inl h
    · exact Or.inr ⟨hb, ⟨claims, exp, hdec, hexp, hle⟩, h⟩
  · intro hs he
    obtain ⟨⟨p, hp⟩, claims, hdec⟩ := succeeded_decoded lib cfg R b hdb hs
    have habs := hba hs he
    subst hp
    rw [interleave_second_returned] at h2
    simp only [Prod.mk.injEq] at h2
    obtain ⟨ha2, hb2, _⟩ := h2
    obtain ⟨r1, r2, r3⟩ := run_early_absent lib cfg R a w1 (s2.count true) claims hdec he habs
    rw [ha2] at r1 r2 r3
    refine ⟨hb2.symm, r1, r2, fun hn => ?_⟩
    rcases r3 hn with h | ⟨hb, ⟨exp, hexp, hle⟩, h⟩
    · exact Or.inl h
    · exact Or.inr ⟨hb, ⟨claims, exp, hdec, hexp, hle⟩, h⟩

/-- The theorem of C22, amended, on the concrete run.  The first call returns its
pair after the second has verified the token and before the second asks the store:
the second then fails with `refresh token not found`; and the same with the two
calls exchanged. -/
theorem refresh_after_delete_not_found_witness :
    ((RefreshThread.interleave demoLib demoCfg (memoryRepository demoLib)
        demoRefreshToken demoRefreshToken [true, false, true, true, true, true]
        (.start, .start, demoRegistered)).1.succeeded = true ∧
      (RefreshThread.interleave demoLib demoCfg (memoryRepository demoLib)
        demoRefreshToken demoRefreshToken [true, false, true, true, true, true]
        (.start, .start, demoRegistered)).2.1 = .verified demoRefreshClaims ∧
      (RefreshThread.interleave demoLib demoCfg (memoryRepository demoLib)
        demoRefreshToken demoRefreshToken
        ([true, false, true, true, true, true] ++ [false, true, false])
        (.start, .start, demoRegistered)).2.1 =
          .returned (.error (.New "refresh token not found"))) ∧
    ((RefreshThread.interleave demoLib demoCfg (memoryRepository demoLib)
        demoRefreshToken demoRefreshToken [false, false, false, false, false]
        (.start, .start, demoRegistered)).2.1.succeeded = true ∧
      (RefreshThread.interleave demoLib demoCfg (memoryRepository demoLib)
        demoRefreshToken demoRefreshToken [false, false, false, false, false]
        (.start, .start, demoRegistered)).1 = .start ∧
      (RefreshThread.interleave demoLib demoCfg (memoryRepository demoLib)
        demoRefreshToken demoRefreshToken
        ([false, false, false, false, false] ++ [true, true])
        (.start, .start, demoRegistered)).1 =
          .returned (.error (.New "refresh token not found"))) :=
  ⟨⟨by decide!, by decide!,
      ((refresh_after_delete_not_found demoLib demoCfg demoRefreshToken demoRegistered
      (RefreshThread.interleave demoLib demoCfg (memoryRepository demoLib)
        demoRefreshToken demoRefreshToken [true, false, true, true, true, true]
        (.start, .start, demoRegistered)).2.2
      (RefreshThread.interleave demoLib demoCfg (memoryRepository demoLib)
        demoRefreshToken demoRefreshToken
        ([true, false, true, true, true, true] ++ [false, true, false])
        (.start, .start, demoRegistered)).2.2
      [true, false, true, true, true, true] [false, true, false]
      (RefreshThread.interleave demoLib demoCfg (memoryRepository demoLib)
        demoRefreshToken demoRefreshToken [true, false, true, true, true, true]
        (.start, .start, demoRegistered)).1
      (RefreshThread.interleave demoLib demoCfg (memoryRepository demoLib)
        demoRefreshToken demoRefreshToken [true, false, true, true, true, true]
        (.start, .start, demoRegistered)).2.1
      (RefreshThread.interleave demoLib demoCfg (memoryRepository demoLib)
        demoRefreshToken demoRefreshToken
        ([true, false, true, true, true, true] ++ [false, true, false])
        (.start, .start, demoRegistered)).1
      (RefreshThread.interleave demoLib demoCfg (memoryRepository demoLib)
        demoRefreshToken demoRefreshToken
        ([true, false, true, true, true, true] ++ [false, true, false])
        (.start, .start, demoRegistered)).2.1 (triple_eta _) (triple_eta _)).1
        (by decide!) (by decide!)).2.2.1
        ⟨demoRefreshClaims, by decide!⟩ (by decide)⟩,
    ⟨by decide!, by decide!,
      ((((refresh_after_delete_not_found demoLib demoCfg demoRefreshToken demoRegistered
      (RefreshThread.interleave demoLib demoCfg (memoryRepository demoLib)
        demoRefreshToken demoRefreshToken [false, false, false, false, false]
        (.start, .start, demoRegistered)).2.2
      (RefreshThread.interleave demoLib demoCfg (memoryRepository demoLib)
        demoRefreshToken demoRefreshToken
        ([false, false, false, false, false] ++ [true, true])
        (.start, .start, demoRegistered)).2.2
      [false, false, false, false, false] [true, true]
      (RefreshThread.interleave demoLib demoCfg (memoryRepository demoLib)
        demoRefreshToken demoRefreshToken [false, false, false, false, false]
        (.start, .start, demoRegistered)).1
      (RefreshThread.interleave demoLib demoCfg (memoryRepository demoLib)
        demoRefreshToken demoRefreshToken [false, false, false, false, false]
        (.start, .start, demoRegistered)).2.1
      (RefreshThread.interleave demoLib demoCfg (memoryRepository demoLib)
        demoRefreshToken demoRefreshToken
        ([false, false, false, false, false] ++ [true, true])
        (.start, .start, demoRegistered)).1
      (RefreshThread.interleave demoLib demoCfg (memoryRepository demoLib)
        demoRefreshToken demoRefreshToken
        ([false, false, false, false, false] ++ [true, true])
        (.start, .start, demoRegistered)).2.1 (triple_eta _) (triple_eta _)).2
        (by decide!) (by decide!)).2.2.2 (by decide)).resolve_right
        (fun h => absurd h.2.2 (by decide!)))⟩⟩

/-! ## C1: refresh is single use -/

/-- C3, amended.  Over the in-memory repository, for every refresh token `R` that is
live in the store (its record is there and the clock has not passed the record's
expiry), `Logout(R)` returns no error and the `Refresh(R)` that follows fails.  It
fails with `refresh token not found` when `R` passes verification, that is `R`
decodes under the refresh secret and its signed expiry has not been reached; with the
expiry error when the signed expiry has been reached; and with the decoding error
when `R` does not decode. -/
theorem logout_then_refresh (lib : Lib) (cfg : Config) (R : String) (w : World memoryStore)
    (e : Time)
    (hrec : mapGet w.store.refreshTokens (HashToken lib R) = some e)
    (hlive : lib.clock w.tick ≤ e) :
    (memoryRefreshRepo.Exists lib (HashToken lib R) w).1 = .ok true ∧
    ∃ w1, AuthService.Logout lib (memoryRepository lib) R w = (.ok (), w1) ∧
      (∃ err w2, AuthService.Refresh lib cfg (memoryRepository lib) R w1 = (.error err, w2)) ∧
      (∀ claims, lib.jwtDecode R cfg.RefreshTokenSecret = .ok claims →
        (∀ exp, claims.ExpiresAt = some exp → lib.clock w.tick < exp) →
        AuthService.Refresh lib cfg (memoryRepository lib) R w1 =
          (.error (.New "refresh token not found"), { w1 with tick := w1.tick + 1 })) ∧
      (∀ claims exp, lib.jwtDecode R cfg.RefreshTokenSecret = .ok claims →
        claims.ExpiresAt = some exp → exp ≤ lib.clock w.tick →
        AuthService.Refresh lib cfg (memoryRepository lib) R w1 =
          (.error ErrTokenExpired, { w1 with tick := w1.tick + 1 })) ∧
      (∀ err, lib.jwtDecode R cfg.RefreshTokenSecret = .error err →
        AuthService.Refresh lib cfg (memoryRepository lib) R w1 = (.error err, w1)) := by
  refine ⟨by rw [Exists_live lib _ w e hrec hlive], _, rfl, ?_, ?_, ?_, ?_⟩
  · exact Refresh_memory_absent_fails lib cfg R _ (mapGet_mapDelete_self _ _)
  · intro claims hdec hexp
    apply Refresh_memory_absent lib cfg R _ claims hdec
    · exact hexp
    · exact mapGet_mapDelete_self _ _
  · intro claims exp hdec hexp hle
    have hlt : ¬ lib.clock w.tick < exp := not_lt.mpr hle
    simp only [AuthService.Refresh, ParseToken_eq, hdec, hexp, memoryRepository,
      memoryRefreshRepo.Delete]
    rw [if_neg hlt]
  · intro err hdec
    simp only [AuthService.Refresh, ParseToken_eq, hdec]

/-- The theorem of C3, amended, on the concrete run: the token of the registration,
live and unexpired, is logged out and then refused with `refresh token not found`. -/
theorem logout_then_refresh_witness :
    (memoryRefreshRepo.Exists demoLib (HashToken demoLib demoRefreshToken) demoRegistered).1 =
      .ok true ∧
    ∃ w1, AuthService.Logout demoLib (memoryRepository demoLib) demoRefreshToken demoRegistered =
        (.ok (), w1) ∧
      AuthService.Refresh demoLib demoCfg (memoryRepository demoLib) demoRefreshToken w1 =
        (.error (.New "refresh token not found"), { w1 with tick := w1.tick + 1 }) := by
  obtain ⟨h0, w1, h1, _, h2, _⟩ :=
    logout_then_refresh demoLib demoCfg demoRefreshToken demoRegistered 1700003600003000000
      (by decide!) (by decide!)
  exact ⟨h0, w1, h1, h2 demoRefreshClaims (by decide!)
    (by intro exp h; simp only [demoRefreshClaims, Option.some.injEq] at h; subst h; decide!)⟩

/-- The call `Register` when bcrypt refuses the password: the error is returned before
the store is asked anything. -/
theorem Register_memory_unhashed (lib : Lib) (cfg : Config) (email password : String)
    (w : World memoryStore) (err : GoError)
    (hb : lib.bcryptGenerate password w.saltIdx = .error err) :
    AuthService.Register lib cfg (memoryRepository lib)
      { Email := email, Password := password } w = (.error err, w) := by
  simp only [AuthService.Register, bcryptGenerateFromPassword, hb]

/-- C4, amended.  Over the in-memory repository, on a store with no user of email
`e`, when signing succeeds: if bcrypt hashes `p1`, `Register(e, p1)` succeeds and
exactly one user has email `e`; the `Register(e, p2)` that follows fails, with
`user already exists` if bcrypt hashes `p2` and with the error of bcrypt if it does
not, and in either case leaves the users as they are, so still exactly one user has
email `e`.  If bcrypt does not hash `p1`, `Register(e, p1)` fails with the error of
bcrypt and changes nothing. -/
theorem duplicate_registration (lib : Lib) (cfg : Config) (w0 : World memoryStore)
    (e p1 p2 : String) (hsign : lib.JwtSigns)
    (hnone : ∀ en ∈ w0.store.users, en.2.Email ≠ e) :
    (∀ hashed1, lib.bcryptGenerate p1 w0.saltIdx = .ok hashed1 →
      ∃ resp w1,
        AuthService.Register lib cfg (memoryRepository lib) { Email := e, Password := p1 } w0 =
          (.ok resp, w1) ∧
        resp.User.Email = e ∧
        w1.store.users.countP (fun en => decide (en.2.Email = e)) = 1 ∧
        (∀ hashed2, lib.bcryptGenerate p2 w1.saltIdx = .ok hashed2 →
          AuthService.Register lib cfg (memoryRepository lib)
            { Email := e, Password := p2 } w1 =
              (.error (.New "user already exists"), saltDrawn w1)) ∧
        (∀ err, lib.bcryptGenerate p2 w1.saltIdx = .error err →
          AuthService.Register lib cfg (memoryRepository lib)
            { Email := e, Password := p2 } w1 = (.error err, w1)) ∧
        (AuthService.Register lib cfg (memoryRepository lib)
          { Email := e, Password := p2 } w1).2.store.users = w1.store.users) ∧
    (∀ err, lib.bcryptGenerate p1 w0.saltIdx = .error err →
      AuthService.Register lib cfg (memoryRepository lib) { Email := e, Password := p1 } w0 =
        (.error err, w0)) := by
  constructor
  · intro hashed1 hb1
    obtain ⟨tokens, hreg⟩ := Register_memory_ok lib cfg e p1 hashed1 w0 hsign hb1 hnone
    have hdup : ∃ en ∈ (issuedWorld lib cfg tokens.RefreshToken
        (createdWorld lib e hashed1 RoleUser (saltDrawn w0))).store.users, en.2.Email = e := by
      refine ⟨(lib.uuidNew w0.uuidIdx, createdUser lib e hashed1 RoleUser (saltDrawn w0)), ?_, rfl⟩
      simp only [issuedWorld, createdWorld]
      exact mapGet_some_mem _ _ _ (mapGet_mapSet_self _ _ _)
    have hdupreg : ∀ hashed2, lib.bcryptGenerate p2 (issuedWorld lib cfg tokens.RefreshToken
        (createdWorld lib e hashed1 RoleUser (saltDrawn w0))).saltIdx = .ok hashed2 →
        AuthService.Register lib cfg (memoryRepository lib) { Email := e, Password := p2 }
          (issuedWorld lib cfg tokens.RefreshToken
            (createdWorld lib e hashed1 RoleUser (saltDrawn w0))) =
          (.error (.New "user already exists"), saltDrawn (issuedWorld lib cfg tokens.RefreshToken
            (createdWorld lib e hashed1 RoleUser (saltDrawn w0)))) :=
      fun hashed2 hb2 => Register_memory_dup lib cfg e p2 hashed2 _ hb2 hdup
    refine ⟨_, _, hreg, rfl, ?_, hdupreg, ?_, ?_⟩
    · simp only [issuedWorld, createdWorld]
      exact countP_email_mapSet w0.store.users _ (createdUser lib e hashed1 RoleUser _) hnone
    · intro err hb2
      exact Register_memory_unhashed lib cfg e p2 _ err hb2
    · cases hb2 : lib.bcryptGenerate p2 (issuedWorld lib cfg tokens.RefreshToken
          (createdWorld lib e hashed1 RoleUser (saltDrawn w0))).saltIdx with
      | error err => rw [Register_memory_unhashed lib cfg e p2 _ err hb2]
      | ok hashed2 => rw [hdupreg hashed2 hb2]; rfl
  · intro err hb1
    exact Register_memory_unhashed lib cfg e p1 w0 err hb1

/-- The theorem of C4, amended, on the concrete run. -/
theorem duplicate_registration_witness :
    ∃ resp w1,
      AuthService.Register demoLib demoCfg (memoryRepository demoLib)
        { Email := "athlete@example.com", Password := "Passw0rd!" } demoWorld = (.ok resp, w1) ∧
      resp.User.Email = "athlete@example.com" ∧
      w1.store.users.countP (fun en => decide (en.2.Email = "athlete@example.com")) = 1 ∧
      AuthService.Register demoLib demoCfg (memoryRepository demoLib)
        { Email := "athlete@example.com", Password := "another" } w1 =
        (.error (.New "user already exists"), saltDrawn w1) := by
  obtain ⟨resp, w1, h1, h2, h3, h4, _⟩ :=
    (duplicate_registration demoLib demoCfg demoWorld "athlete@example.com" "Passw0rd!"
      "another" demoLib_signs (by intro en he; simp [demoWorld, newMemoryStore] at he)).1
      "$2a$10$Passw0rd!" (by decide!)
  exact ⟨resp, w1, h1, h2, h3, h4 "$2a$10$another" rfl⟩
